import Mathlib

/-!
# BSGUI display object (`src/DispObject.cpp`)

A shallow embedding of the box mesh generator, its partition tables, the draw-range
selector and the ray/triangle intersection routine of `DispObject.cpp`.

Conventions of the embedding:

* `uint` values are natural numbers.  Sums and products are taken exactly (the counts are
  assumed to fit the 32-bit type); subtraction is `usub`, which wraps around like the C++
  unsigned subtraction does, so that no statement below is true merely because natural-number
  subtraction truncates at zero.
* `float` values are rationals ("exact arithmetic"); the one place where the code uses
  `+infinity` is modelled with `WithTop ℚ`.
* A `std::vector` is a list; `v[i] = x` is `List.set`, `v[i]` is `List.getD` (a read outside
  the vector, undefined in the source, yields the null value; no statement depends on it).
* A counted loop `for (int i = lo; i < hi; i++)` is the list `List.Ico lo hi` (`List.range hi`
  when `lo = 0`), and a loop nest is the list of its iterations in execution order.
-/

namespace BSGUI

/-! ## Machine arithmetic and vectors -/

/-- Unsigned 32-bit subtraction `a - b`: exact when `b ≤ a`, wrapping around otherwise. -/
def usub (a b : Nat) : Nat :=
  if b ≤ a then a - b else a + 2 ^ 32 - b

/-- The `QVector3D` of the source, with exact coordinates. -/
structure Vec3 where
  x : ℚ
  y : ℚ
  z : ℚ
deriving DecidableEq

/-- Componentwise sum, `QVector3D::operator+`. -/
def Vec3.add (p q : Vec3) : Vec3 := ⟨p.x + q.x, p.y + q.y, p.z + q.z⟩

/-- Componentwise difference, `QVector3D::operator-`. -/
def Vec3.sub (p q : Vec3) : Vec3 := ⟨p.x - q.x, p.y - q.y, p.z - q.z⟩

/-- Scaling by a factor, `factor * QVector3D`. -/
def Vec3.smul (c : ℚ) (p : Vec3) : Vec3 := ⟨c * p.x, c * p.y, c * p.z⟩

/-- The cross product of two vectors. -/
def Vec3.cross (p q : Vec3) : Vec3 :=
  ⟨p.y * q.z - p.z * q.y, p.z * q.x - p.x * q.z, p.x * q.y - p.y * q.x⟩

/-- The null vector, the value of a default-constructed `QVector3D`. -/
def Vec3.zero : Vec3 := ⟨0, 0, 0⟩

/-- A quad of the face array: four indices into the refined vertex array. -/
structure Quad where
  a : Nat
  b : Nat
  c : Nat
  d : Nat
deriving DecidableEq

/-! ## The constructor: counts and partition tables -/

/-- The numeric members of `DispObject` that the constructor computes. -/
structure DispObject where
  ntU : Nat
  ntV : Nat
  ntW : Nat
  ntPtsU : Nat
  ntPtsV : Nat
  ntPtsW : Nat
  ntPts : Nat
  ntElems : Nat
  rU : Nat
  rV : Nat
  rW : Nat
  nU : Nat
  nV : Nat
  nW : Nat
  nPtsU : Nat
  nPtsV : Nat
  nPtsW : Nat
  nPts : Nat
  nElems : Nat
  nLinesUV : Nat
  nLinesUW : Nat
  nLinesVW : Nat
  nElemLines : Nat
  faceIdxs : List Nat
  boundaryIdxs : List Nat
  elementIdxs : List Nat

/-- The body of `DispObject::DispObject` (lines 33-86), with the template counts and the
refinement factors, which the source fixes to `3, 4, 5` and `2, 2, 2`, taken as arguments. -/
def mkDispObject (ntU ntV ntW rU rV rW : Nat) : DispObject :=
  let ntPtsU := ntU + 1
  let ntPtsV := ntV + 1
  let ntPtsW := ntW + 1
  let ntPts := 2 * ntPtsU * ntPtsV + 2 * ntPtsU * (usub ntPtsW 2)
    + 2 * (usub ntPtsV 2) * (usub ntPtsW 2)
  let ntElems := 2 * ntU * ntV + 2 * ntU * ntW + 2 * ntV * ntW
  let nU := rU * ntU
  let nV := rV * ntV
  let nW := rW * ntW
  let nPtsU := nU + 1
  let nPtsV := nV + 1
  let nPtsW := nW + 1
  let nPts := 2 * nPtsU * nPtsV + 2 * nPtsU * (usub nPtsW 2)
    + 2 * (usub nPtsV 2) * (usub nPtsW 2)
  let nElems := 2 * nU * nV + 2 * nU * nW + 2 * nV * nW
  let nLinesUV := ntU * (usub ntV 1) + ntV * (usub ntU 1)
  let nLinesUW := ntU * (usub ntW 1) + ntW * (usub ntU 1)
  let nLinesVW := ntV * (usub ntW 1) + ntW * (usub ntV 1)
  let nElemLines := 2 * (nLinesUV + nLinesUW + nLinesVW)
  { ntU := ntU, ntV := ntV, ntW := ntW
    ntPtsU := ntPtsU, ntPtsV := ntPtsV, ntPtsW := ntPtsW
    ntPts := ntPts, ntElems := ntElems
    rU := rU, rV := rV, rW := rW
    nU := nU, nV := nV, nW := nW
    nPtsU := nPtsU, nPtsV := nPtsV, nPtsW := nPtsW
    nPts := nPts, nElems := nElems
    nLinesUV := nLinesUV, nLinesUW := nLinesUW, nLinesVW := nLinesVW
    nElemLines := nElemLines
    faceIdxs :=
      [0,
       nU * nV,
       2 * nU * nV,
       2 * nU * nV + nU * nW,
       2 * nU * nV + 2 * nU * nW,
       2 * nU * nV + 2 * nU * nW + nV * nW,
       2 * nU * nV + 2 * nU * nW + 2 * nV * nW]
    boundaryIdxs :=
      [0,
       2 * (ntU + ntV),
       4 * (ntU + ntV),
       4 * (ntU + ntV) + 2 * (ntU + ntW),
       4 * (ntU + ntV) + 4 * (ntU + ntW),
       4 * (ntU + ntV) + 4 * (ntU + ntW) + 2 * (ntV + ntW),
       4 * (ntU + ntV) + 4 * (ntU + ntW) + 4 * (ntV + ntW)]
    elementIdxs :=
      [0,
       nLinesUV,
       2 * nLinesUV,
       2 * nLinesUV + nLinesUW,
       2 * nLinesUV + 2 * nLinesUW,
       2 * nLinesUV + 2 * nLinesUW + nLinesVW,
       2 * nLinesUV + 2 * nLinesUW + 2 * nLinesVW] }

/-- The object the source's constructor builds: template counts 3, 4, 5, refinement 2. -/
def DispObject.new : DispObject := mkDispObject 3 4 5 2 2 2

/-- Entry `i` of a partition table, `indices[i]`. -/
def tbl (t : List Nat) (i : Nat) : Nat := t.getD i 0

/-! ## Logical grid positions and the loops of `mkVertexData` -/

/-- The three axis-pairs; each covers two opposite faces of the box. -/
inductive AxisPair where
  | uv
  | uw
  | vw
deriving DecidableEq

/-- A logical grid position: axis-pair, the two grid coordinates and the side flag. -/
structure LPos where
  pair : AxisPair
  i : Nat
  j : Nat
  side : Bool
deriving DecidableEq

/-- The point counts of one resolution (refined: `nPtsU, nPtsV, nPtsW`; template:
`ntPtsU, ntPtsV, ntPtsW`). -/
structure Grid where
  pU : Nat
  pV : Nat
  pW : Nat

/-- The refined resolution of an object. -/
def DispObject.grid (d : DispObject) : Grid := ⟨d.nPtsU, d.nPtsV, d.nPtsW⟩

/-- The template resolution of an object. -/
def DispObject.tgrid (d : DispObject) : Grid := ⟨d.ntPtsU, d.ntPtsV, d.ntPtsW⟩

/-- First loop nest of `mkVertexData` for side `b`: `i < nPtsU`, `j < nPtsV`. -/
def uvLoop (g : Grid) (b : Bool) : List LPos :=
  (List.range g.pU).flatMap fun i => (List.range g.pV).map fun j => ⟨AxisPair.uv, i, j, b⟩

/-- Second loop nest of `mkVertexData` for side `b`: `i < nPtsU`, `1 ≤ j < nPtsW - 1`. -/
def uwLoop (g : Grid) (b : Bool) : List LPos :=
  (List.range g.pU).flatMap fun i =>
    (List.Ico 1 (usub g.pW 1)).map fun j => ⟨AxisPair.uw, i, j, b⟩

/-- Third loop nest of `mkVertexData` for side `b`: `1 ≤ i < nPtsV - 1`,
`1 ≤ j < nPtsW - 1`. -/
def vwLoop (g : Grid) (b : Bool) : List LPos :=
  (List.Ico 1 (usub g.pV 1)).flatMap fun i =>
    (List.Ico 1 (usub g.pW 1)).map fun j => ⟨AxisPair.vw, i, j, b⟩

/-- All logical positions one block of `mkVertexData` visits, in execution order: the three
loop nests for `b = true`, then for `b = false`. -/
def vertexPositions (g : Grid) : List LPos :=
  [true, false].flatMap fun b => uvLoop g b ++ uwLoop g b ++ vwLoop g b

/-- The face-local coordinate `lpt(i, N) = (float) i/(N-1) * 2.0 - 1.0` (lines 209-212). -/
def lpt (i N : Nat) : ℚ :=
  (i : ℚ) / ((usub N 1 : Nat) : ℚ) * 2 - 1

/-- The coordinate on the normal axis, `b ? 1.0 : -1.0`. -/
def sideCoord (b : Bool) : ℚ := if b then 1 else -1

/-- The `QVector3D(...)` argument of the three assignments of `mkVertexData`, by axis-pair:
`(lpt i, lpt j, ±1)` for U x V, `(lpt i, ±1, lpt j)` for U x W, `(±1, lpt i, lpt j)` for
V x W. -/
def localPt (g : Grid) (p : LPos) : Vec3 :=
  match p.pair with
  | AxisPair.uv => ⟨lpt p.i g.pU, lpt p.j g.pV, sideCoord p.side⟩
  | AxisPair.uw => ⟨lpt p.i g.pU, sideCoord p.side, lpt p.j g.pW⟩
  | AxisPair.vw => ⟨sideCoord p.side, lpt p.i g.pV, lpt p.j g.pW⟩

/-! ## The grid indexers

`DispObject.h`, which declares the inline indexers, is not among the source files.  What the
sources that call them fix is: the refined vertex array has three consecutive regions starting
at `0`, `baseUW = 2*nPtsU*nPtsV` and `baseVW = baseUW + 2*nPtsU*(nPtsW-2)` (the two locals of
`mkVertexData`); the U x W and V x W indexers are also called on the boundary rows (by
`mkFaceData` and `mkBoundaryBuffer`), whose vertices the U x V loop stores; the face array is
split by `faceIdxs` into the six faces in the order U x V, U x W, V x W. -/

/-- Modelled from the spec: the point indexer `uvPt`/`uvtPt` of the missing `DispObject.h`.
The U x V offset space covers the full `pU x pV` grid on both sides (`2*pU*pV` slots); the
near side (`b = false`) comes first, rows of constant `j` are contiguous. -/
def ptUV (g : Grid) (i j : Nat) (b : Bool) : Nat :=
  (if b then g.pU * g.pV else 0) + i + g.pU * j

/-- Modelled from the spec: the point indexer `uwPt`/`uwtPt` of the missing `DispObject.h`.
The rows `j = 0` and `j = last`, already enumerated by the U x V pair, are excluded from
the U x W region and resolve to the U x V slot of the same vertex (row `0` or `last` of V
according to the side, on the near or far U x V side); only the interior rows
`1..pW-2` are indexed, after the `2*pU*pV` slots of the U x V pair. -/
def ptUW (g : Grid) (i j : Nat) (b : Bool) : Nat :=
  if j = 0 then ptUV g i (if b then usub g.pV 1 else 0) false
  else if j = usub g.pW 1 then ptUV g i (if b then usub g.pV 1 else 0) true
  else 2 * g.pU * g.pV + (if b then g.pU * usub g.pW 2 else 0) + i + g.pU * usub j 1

/-- Modelled from the spec: the point indexer `vwPt`/`vwtPt` of the missing `DispObject.h`.
Rows and columns at `j ∈ {0, last}` (stored by the U x V pair) and at `i ∈ {0, last}` (stored by
the U x W pair) are excluded and resolve to the slot of the same vertex there; only the
interior `1..pV-2` by `1..pW-2` is indexed, after the U x V and U x W regions. -/
def ptVW (g : Grid) (i j : Nat) (b : Bool) : Nat :=
  if j = 0 then ptUV g (if b then usub g.pU 1 else 0) i false
  else if j = usub g.pW 1 then ptUV g (if b then usub g.pU 1 else 0) i true
  else if i = 0 then ptUW g (if b then usub g.pU 1 else 0) j false
  else if i = usub g.pV 1 then ptUW g (if b then usub g.pU 1 else 0) j true
  else 2 * g.pU * g.pV + 2 * g.pU * usub g.pW 2
    + (if b then usub g.pV 2 * usub g.pW 2 else 0) + usub i 1 + usub g.pV 2 * usub j 1

/-- The offset of a logical position: the indexer of its axis-pair applied to it. -/
def ptIdx (g : Grid) (p : LPos) : Nat :=
  match p.pair with
  | AxisPair.uv => ptUV g p.i p.j p.side
  | AxisPair.uw => ptUW g p.i p.j p.side
  | AxisPair.vw => ptVW g p.i p.j p.side

/-- Refined-resolution indexer `uvPt(i, j, b)`. -/
def uvPt (d : DispObject) (i j : Nat) (b : Bool) : Nat := ptUV d.grid i j b

/-- Refined-resolution indexer `uwPt(i, j, b)`. -/
def uwPt (d : DispObject) (i j : Nat) (b : Bool) : Nat := ptUW d.grid i j b

/-- Refined-resolution indexer `vwPt(i, j, b)`. -/
def vwPt (d : DispObject) (i j : Nat) (b : Bool) : Nat := ptVW d.grid i j b

/-- Template-resolution indexer `uvtPt(i, j, b)`. -/
def uvtPt (d : DispObject) (i j : Nat) (b : Bool) : Nat := ptUV d.tgrid i j b

/-- Template-resolution indexer `uwtPt(i, j, b)`. -/
def uwtPt (d : DispObject) (i j : Nat) (b : Bool) : Nat := ptUW d.tgrid i j b

/-- Template-resolution indexer `vwtPt(i, j, b)`. -/
def vwtPt (d : DispObject) (i j : Nat) (b : Bool) : Nat := ptVW d.tgrid i j b

/-- Modelled from the spec: the element indexer `uvEl` of the missing `DispObject.h`.  The quads
of the two U x V faces fill `[faceIdxs[0], faceIdxs[1])` and `[faceIdxs[1], faceIdxs[2])`. -/
def uvEl (d : DispObject) (i j : Nat) (b : Bool) : Nat :=
  (if b then d.nU * d.nV else 0) + i + d.nU * j

/-- Modelled from the spec: the element indexer `uwEl` of the missing `DispObject.h`.  The quads
of the two U x W faces fill `[faceIdxs[2], faceIdxs[3])` and `[faceIdxs[3], faceIdxs[4])`. -/
def uwEl (d : DispObject) (i j : Nat) (b : Bool) : Nat :=
  2 * d.nU * d.nV + (if b then d.nU * d.nW else 0) + i + d.nU * j

/-- Modelled from the spec: the element indexer `vwEl` of the missing `DispObject.h`.  The quads
of the two V x W faces fill `[faceIdxs[4], faceIdxs[5])` and `[faceIdxs[5], faceIdxs[6])`. -/
def vwEl (d : DispObject) (i j : Nat) (b : Bool) : Nat :=
  2 * d.nU * d.nV + 2 * d.nU * d.nW + (if b then d.nV * d.nW else 0) + i + d.nV * j

/-! ## `mkVertexData` and `mkFaceData` -/

/-- A sequence of assignments `v[w.1] = w.2`, performed in order on the vector `init`. -/
def writeAll {α : Type} (init : List α) (ws : List (Nat × α)) : List α :=
  ws.foldl (fun v w => v.set w.1 w.2) init

/-- The assignments of the first block of `mkVertexData` (lines 220-233):
`vertexData[idx(i,j,b)] = center + QVector3D(...)`. -/
def vertexWrites (d : DispObject) (center : Vec3) : List (Nat × Vec3) :=
  (vertexPositions d.grid).map fun p => (ptIdx d.grid p, center.add (localPt d.grid p))

/-- The assignments of the second block of `mkVertexData` (lines 235-254):
`vertexDataLines[idx(i,j,b)] = center + 1.001 * QVector3D(...)`. -/
def vertexLineWrites (d : DispObject) (center : Vec3) : List (Nat × Vec3) :=
  (vertexPositions d.tgrid).map fun p =>
    (ptIdx d.tgrid p, center.add (Vec3.smul (1001 / 1000) (localPt d.tgrid p)))

/-- The function `DispObject::mkVertexData`: the pair `(vertexData, vertexDataLines)`, each
resized to its point count and then filled by its block of assignments. -/
def mkVertexData (d : DispObject) (center : Vec3) : List Vec3 × List Vec3 :=
  (writeAll (List.replicate d.nPts Vec3.zero) (vertexWrites d center),
   writeAll (List.replicate d.ntPts Vec3.zero) (vertexLineWrites d center))

/-- First loop nest of `mkFaceData` for side `b` (lines 264-266). -/
def faceLoopUV (d : DispObject) (b : Bool) : List (Nat × Quad) :=
  (List.range d.nU).flatMap fun i => (List.range d.nV).map fun j =>
    (uvEl d i j b, ⟨uvPt d i j b, uvPt d (i + 1) j b, uvPt d (i + 1) (j + 1) b, uvPt d i (j + 1) b⟩)

/-- Second loop nest of `mkFaceData` for side `b` (lines 267-269). -/
def faceLoopUW (d : DispObject) (b : Bool) : List (Nat × Quad) :=
  (List.range d.nU).flatMap fun i => (List.range d.nW).map fun j =>
    (uwEl d i j b, ⟨uwPt d i j b, uwPt d (i + 1) j b, uwPt d (i + 1) (j + 1) b, uwPt d i (j + 1) b⟩)

/-- Third loop nest of `mkFaceData` for side `b` (lines 270-272). -/
def faceLoopVW (d : DispObject) (b : Bool) : List (Nat × Quad) :=
  (List.range d.nV).flatMap fun i => (List.range d.nW).map fun j =>
    (vwEl d i j b, ⟨vwPt d i j b, vwPt d (i + 1) j b, vwPt d (i + 1) (j + 1) b, vwPt d i (j + 1) b⟩)

/-- All assignments `faceData[slot] = quad` of `mkFaceData`, in execution order. -/
def faceWrites (d : DispObject) : List (Nat × Quad) :=
  [true, false].flatMap fun b => faceLoopUV d b ++ faceLoopUW d b ++ faceLoopVW d b

/-- The function `DispObject::mkFaceData`: `faceData` resized to `nElems`, then filled. -/
def mkFaceData (d : DispObject) : List Quad :=
  writeAll (List.replicate d.nElems ⟨0, 0, 0, 0⟩) (faceWrites d)

/-! ## `mkElementBuffer` -/

/-- The call of a line-slot indexer (`uEll`, `vEll` or `wEll`, declared in the missing
`DispObject.h`) that names the slot of `elementData` an assignment writes. -/
inductive LineSlot where
  | uEll (i j : Nat) (a c : Bool)
  | vEll (i j : Nat) (a c : Bool)
  | wEll (i j : Nat) (a c : Bool)
deriving DecidableEq

/-- One assignment `elementData[slot] = { idx(p), idx(q) }` of `mkElementBuffer`: the slot
call and the two template grid positions whose indices form the segment. -/
structure LineWrite where
  slot : LineSlot
  p : LPos
  q : LPos
deriving DecidableEq

/-- The body of the loop over `a` in `mkElementBuffer` (lines 321-341), as the list of its
assignments in execution order. -/
def elementLoop (d : DispObject) (a : Bool) : List LineWrite :=
  ((List.range d.ntU).flatMap fun i =>
    ((List.Ico 1 d.ntV).map fun j =>
      (⟨LineSlot.uEll i (usub j 1) a false, ⟨AxisPair.uv, i, j, a⟩, ⟨AxisPair.uv, i + 1, j, a⟩⟩ :
        LineWrite))
    ++ ((List.Ico 1 d.ntW).map fun j =>
      (⟨LineSlot.uEll i (usub j 1) a true, ⟨AxisPair.uw, i, j, a⟩, ⟨AxisPair.uw, i + 1, j, a⟩⟩ :
        LineWrite)))
  ++ ((List.range d.ntV).flatMap fun i =>
    ((List.Ico 1 d.ntU).map fun j =>
      (⟨LineSlot.vEll i (usub j 1) a false, ⟨AxisPair.uv, j, i, a⟩, ⟨AxisPair.uv, j, i + 1, a⟩⟩ :
        LineWrite))
    ++ ((List.Ico 1 d.ntW).map fun j =>
      (⟨LineSlot.vEll i (usub j 1) a true, ⟨AxisPair.vw, i, j, a⟩, ⟨AxisPair.vw, i + 1, j, a⟩⟩ :
        LineWrite)))
  ++ ((List.range d.ntW).flatMap fun i =>
    ((List.Ico 1 d.ntU).map fun j =>
      (⟨LineSlot.wEll i (usub j 1) a false, ⟨AxisPair.uw, j, i, a⟩, ⟨AxisPair.uw, j, i + 1, a⟩⟩ :
        LineWrite))
    ++ ((List.Ico 1 d.ntV).map fun j =>
      (⟨LineSlot.wEll i (usub j 1) a true, ⟨AxisPair.vw, j, i, a⟩, ⟨AxisPair.vw, j, i + 1, a⟩⟩ :
        LineWrite)))

/-- All assignments of `mkElementBuffer`, in execution order (`a = false`, then `a = true`). -/
def elementWrites (d : DispObject) : List LineWrite :=
  [false, true].flatMap fun a => elementLoop d a

/-- The number of segments `mkElementBuffer` writes for the face `(pair, side)`: a segment
belongs to the face whose point indexer (`uvtPt`, `uwtPt`, `vwtPt`) and side its end points
use. -/
def elementCount (d : DispObject) (pair : AxisPair) (side : Bool) : Nat :=
  (elementWrites d).countP fun w => decide (w.p.pair = pair ∧ w.p.side = side)

/-- The lengths of the arrays `mkBoundaryBuffer` and `mkElementBuffer` allocate
(`patchBndData(8 * (ntU + ntV + ntW))`, line 296, and `elementData(nElemLines)`, line 317). -/
def patchBndDataSize (d : DispObject) : Nat := 8 * (d.ntU + d.ntV + d.ntW)

/-- The length of `elementData` (line 317). -/
def elementDataSize (d : DispObject) : Nat := d.nElemLines

/-! ## `drawCommand` -/

/-- The primitive kind passed to `glDrawElements`. -/
inductive GLMode where
  | quads
  | lines
deriving DecidableEq

/-- One call `glDrawElements(mode, count, GL_UNSIGNED_INT, offset)`: the number of indices and
the byte offset into the bound index buffer. -/
structure DrawCall where
  mode : GLMode
  count : Nat
  offset : Nat
deriving DecidableEq

/-- The function `drawCommand` (lines 117-126) as the list of `glDrawElements` calls it issues.
The `std::set<uint>` is a finite set, iterated in ascending order; `sizeof(GLuint)` is 4. -/
def drawCommand (mode : GLMode) (visible : Finset Nat) (indices : List Nat) : List DrawCall :=
  let mult := if mode = GLMode.lines then 2 else 4
  if visible.card = 6 then
    [⟨mode, mult * tbl indices 6, 0⟩]
  else
    (visible.sort (· ≤ ·)).map fun i =>
      ⟨mode, mult * usub (tbl indices (i + 1)) (tbl indices i), mult * tbl indices i * 4⟩

/-- The range of elements a call draws, `(start element, number of elements)`: an element is
`mult` indices of 4 bytes each. -/
def DrawCall.range (c : DrawCall) : Nat × Nat :=
  let mult := if c.mode = GLMode.lines then 2 else 4
  (c.offset / (mult * 4), c.count / mult)

/-! ## Ray/triangle intersection -/

/-- The `Eigen::Matrix3f` of the source, stored by columns. -/
structure Mat3 where
  c0 : Vec3
  c1 : Vec3
  c2 : Vec3

/-- The determinant, `mx.determinant()`. -/
def Mat3.det (m : Mat3) : ℚ :=
  m.c0.x * (m.c1.y * m.c2.z - m.c2.y * m.c1.z)
  - m.c1.x * (m.c0.y * m.c2.z - m.c2.y * m.c0.z)
  + m.c2.x * (m.c0.y * m.c1.z - m.c1.y * m.c0.z)

/-- The matrix-vector product. -/
def Mat3.mulVec (m : Mat3) (v : Vec3) : Vec3 :=
  ⟨m.c0.x * v.x + m.c1.x * v.y + m.c2.x * v.z,
   m.c0.y * v.x + m.c1.y * v.y + m.c2.y * v.z,
   m.c0.z * v.x + m.c1.z * v.y + m.c2.z * v.z⟩

/-- The call `mx.colPivHouseholderQr().solve(vec)` of the Eigen library in exact arithmetic:
the solution of the linear system, computed by Cramer's rule. -/
def Mat3.solve (m : Mat3) (v : Vec3) : Vec3 :=
  ⟨(Mat3.det ⟨v, m.c1, m.c2⟩) / m.det,
   (Mat3.det ⟨m.c0, v, m.c2⟩) / m.det,
   (Mat3.det ⟨m.c0, m.c1, v⟩) / m.det⟩

/-- The matrix `mx` that `triangleIntersect` fills (lines 352-361):
`[Vi - Vk | Vj - Vk | a - b]`. -/
def triangleMatrix (vertexData : List Vec3) (a b : Vec3) (i j k : Nat) : Mat3 :=
  ⟨(vertexData.getD i Vec3.zero).sub (vertexData.getD k Vec3.zero),
   (vertexData.getD j Vec3.zero).sub (vertexData.getD k Vec3.zero),
   a.sub b⟩

/-- The function `DispObject::triangleIntersect` (lines 349-378).  The two out-parameters
`*intersect` and `*param` are the state `st`, passed in and returned. -/
def triangleIntersect (vertexData : List Vec3) (a b : Vec3) (i j k : Nat)
    (st : Bool × WithTop ℚ) : Bool × WithTop ℚ :=
  let mx := triangleMatrix vertexData a b i j k
  if |mx.det| < 1 / 10000 then st
  else
    let vec := a.sub (vertexData.getD k Vec3.zero)
    let sol := mx.solve vec
    if sol.x ≥ 0 ∧ sol.y ≥ 0 ∧ sol.x + sol.y ≤ 1 ∧ sol.z ≥ 0 then (true, (sol.z : WithTop ℚ))
    else st

/-- The loop of `DispObject::intersect` (lines 171-191): `tr` holds the locals
`(trIntersect, trParam)`, `param` the caller's `*param`; the result is the final
`(*intersect, *param)`. -/
def intersectLoop (vertexData : List Vec3) (a b : Vec3) :
    List Quad → Bool × WithTop ℚ → WithTop ℚ → Bool × WithTop ℚ
  | [], _, param => (false, param)
  | q :: qs, tr, param =>
    let tr1 := triangleIntersect vertexData a b q.a q.b q.c tr
    if tr1.1 = true ∧ tr1.2 ≥ 0 then (true, tr1.2)
    else
      let tr2 := triangleIntersect vertexData a b q.a q.c q.d tr1
      if tr2.1 = true ∧ tr2.2 ≥ 0 then (true, tr2.2)
      else intersectLoop vertexData a b qs tr2 param

/-- The function `DispObject::intersect` (lines 166-192): the locals start as
`trIntersect = false`, `trParam = +infinity`. -/
def intersect (vertexData : List Vec3) (faceData : List Quad) (a b : Vec3)
    (param : WithTop ℚ) : Bool × WithTop ℚ :=
  intersectLoop vertexData a b faceData (false, ⊤) param

/-! ## Reference definitions, stated from the specification -/

/-- The acceptance test of the specification for one triangle: with `(β, γ, t)` the solution of
`[Vi-Vk | Vj-Vk | a-b] (β, γ, t) = a - Vk`, the triangle is accepted with parameter `t` when the
system is not degenerate (`|det| ≥ 1e-4`) and `β ≥ 0`, `γ ≥ 0`, `β + γ ≤ 1`, `t ≥ 0`. -/
def triangleAccept (vertexData : List Vec3) (a b : Vec3) (tri : Nat × Nat × Nat) : Option ℚ :=
  let mx := triangleMatrix vertexData a b tri.1 tri.2.1 tri.2.2
  let sol := mx.solve (a.sub (vertexData.getD tri.2.2 Vec3.zero))
  if 1 / 10000 ≤ |mx.det| ∧ 0 ≤ sol.x ∧ 0 ≤ sol.y ∧ sol.x + sol.y ≤ 1 ∧ 0 ≤ sol.z then
    some sol.z
  else none

/-- The triangles of the face array in enumeration order: each quad `(a, b, c, d)` gives
`(a, b, c)` and then `(a, c, d)`. -/
def quadTriangles (faceData : List Quad) : List (Nat × Nat × Nat) :=
  faceData.flatMap fun q => [(q.a, q.b, q.c), (q.a, q.c, q.d)]

/-- The result the specification gives for `intersect`: the first accepted triangle in
enumeration order decides; without one, `hit = false` and `param` is the caller's value. -/
def intersectSpec (vertexData : List Vec3) (faceData : List Quad) (a b : Vec3)
    (param : WithTop ℚ) : Bool × WithTop ℚ :=
  match (quadTriangles faceData).findSome? (triangleAccept vertexData a b) with
  | some t => (true, (t : WithTop ℚ))
  | none => (false, param)

/-- The outward unit normal of the face `(pair, side)`: `±z` for U x V, `±y` for U x W, `±x` for
V x W, the sign being that of the side. -/
def outwardNormal (pair : AxisPair) (b : Bool) : Vec3 :=
  match pair with
  | AxisPair.uv => ⟨0, 0, sideCoord b⟩
  | AxisPair.uw => ⟨0, sideCoord b, 0⟩
  | AxisPair.vw => ⟨sideCoord b, 0, 0⟩

/-- The vector `(P1 - P0) x (P3 - P0)` of the quad that `mkFaceData` stores for the cell
`(i, j)` of the face `(pair, b)`: `P0, P1, P3` are the positions `mkVertexData` gives to the
logical corners `(i, j)`, `(i+1, j)`, `(i, j+1)`, the first, second and fourth index of the
quad. -/
def quadNormal (g : Grid) (center : Vec3) (pair : AxisPair) (i j : Nat) (b : Bool) : Vec3 :=
  let P0 := center.add (localPt g ⟨pair, i, j, b⟩)
  let P1 := center.add (localPt g ⟨pair, i + 1, j, b⟩)
  let P3 := center.add (localPt g ⟨pair, i, j + 1, b⟩)
  (P1.sub P0).cross (P3.sub P0)

/-- The partition-table contract for a table `t` over an element array of length `total`:
seven offsets, starting at 0, increasing, ending at the array length. -/
def IsPartitionTable (t : List Nat) (total : Nat) : Prop :=
  t.length = 7 ∧ tbl t 0 = 0 ∧ (∀ i, i < 6 → tbl t i ≤ tbl t (i + 1)) ∧ tbl t 6 = total

/-- The six half-open ranges `[t[i], t[i+1])` cover `[0, total)` exactly once: every element
offset below `total` lies in the range of exactly one face. -/
def CoversOnce (t : List Nat) (total : Nat) : Prop :=
  ∀ k, k < total → ∃! i, i < 6 ∧ tbl t i ≤ k ∧ k < tbl t (i + 1)

/-- The axis-pair of face `i`: faces 0, 1 are the U x V sides, 2, 3 the U x W sides and
4, 5 the V x W sides. -/
def pairOfFace (i : Nat) : AxisPair :=
  if i < 2 then AxisPair.uv else if i < 4 then AxisPair.uw else AxisPair.vw

/-- The refined cell counts `(nA, nB)` along the two axes of an axis-pair. -/
def cells (d : DispObject) : AxisPair → Nat × Nat
  | AxisPair.uv => (d.nU, d.nV)
  | AxisPair.uw => (d.nU, d.nW)
  | AxisPair.vw => (d.nV, d.nW)

/-- The template cell counts `(ntA, ntB)` along the two axes of an axis-pair. -/
def tcells (d : DispObject) : AxisPair → Nat × Nat
  | AxisPair.uv => (d.ntU, d.ntV)
  | AxisPair.uw => (d.ntU, d.ntW)
  | AxisPair.vw => (d.ntV, d.ntW)

/-- The loop nest of `mkFaceData` that writes the quads of an axis-pair. -/
def faceLoop (d : DispObject) : AxisPair → Bool → List (Nat × Quad)
  | AxisPair.uv => faceLoopUV d
  | AxisPair.uw => faceLoopUW d
  | AxisPair.vw => faceLoopVW d


/-! ## Auxiliary definitions for the indexer proofs -/

/-- The integer grid coordinate `(x, y, z)` of the vertex at a logical position, each
coordinate counted in grid steps from the `-1` end of its axis. -/
def gridCoord (g : Grid) (p : LPos) : Nat × Nat × Nat :=
  match p.pair with
  | AxisPair.uv => (p.i, p.j, if p.side then g.pW - 1 else 0)
  | AxisPair.uw => (p.i, if p.side then g.pV - 1 else 0, p.j)
  | AxisPair.vw => (if p.side then g.pU - 1 else 0, p.i, p.j)

/-- The logical positions at which the indexers are called: the full grid of the face,
boundary rows included. -/
def Valid (g : Grid) (p : LPos) : Prop :=
  match p.pair with
  | AxisPair.uv => p.i < g.pU ∧ p.j < g.pV
  | AxisPair.uw => p.i < g.pU ∧ p.j < g.pW
  | AxisPair.vw => p.i < g.pV ∧ p.j < g.pW

/-- The logical positions `mkVertexData` enumerates: U x V all `i`, all `j`; U x W all `i`,
`j` in `1..pW-2`; V x W `i` in `1..pV-2`, `j` in `1..pW-2`; either side. -/
def Enumerated (g : Grid) (p : LPos) : Prop :=
  match p.pair with
  | AxisPair.uv => p.i < g.pU ∧ p.j < g.pV
  | AxisPair.uw => p.i < g.pU ∧ 1 ≤ p.j ∧ p.j + 2 ≤ g.pW
  | AxisPair.vw => (1 ≤ p.i ∧ p.i + 2 ≤ g.pV) ∧ 1 ≤ p.j ∧ p.j + 2 ≤ g.pW

/-- The width and height of region `k` of the vertex array (regions 0, 1: the U x V sides;
2, 3: the interior rows of the U x W sides; 4, 5: the interior of the V x W sides). -/
def regionDims (g : Grid) (k : Nat) : Nat × Nat :=
  if k < 2 then (g.pU, g.pV) else if k < 4 then (g.pU, g.pW - 2) else (g.pV - 2, g.pW - 2)

/-- The first offset of region `k` of the vertex array. -/
def regionBase (g : Grid) (k : Nat) : Nat :=
  match k with
  | 0 => 0
  | 1 => g.pU * g.pV
  | 2 => 2 * (g.pU * g.pV)
  | 3 => 2 * (g.pU * g.pV) + g.pU * (g.pW - 2)
  | 4 => 2 * (g.pU * g.pV) + 2 * (g.pU * (g.pW - 2))
  | 5 => 2 * (g.pU * g.pV) + 2 * (g.pU * (g.pW - 2)) + (g.pV - 2) * (g.pW - 2)
  | _ => 2 * (g.pU * g.pV) + 2 * (g.pU * (g.pW - 2)) + 2 * ((g.pV - 2) * (g.pW - 2))

/-- The offset of the cell `(k, a, b)`: column `a`, row `b` of region `k`. -/
def cellIdx (g : Grid) (c : Nat × Nat × Nat) : Nat :=
  regionBase g c.1 + c.2.1 + (regionDims g c.1).1 * c.2.2

/-- The cell `(k, a, b)` lies in one of the six regions, within its width and height. -/
def InRegion (g : Grid) (c : Nat × Nat × Nat) : Prop :=
  c.1 < 6 ∧ c.2.1 < (regionDims g c.1).1 ∧ c.2.2 < (regionDims g c.1).2

/-- The cell that holds the vertex with grid coordinate `(x, y, z)`. -/
def cell (g : Grid) (xyz : Nat × Nat × Nat) : Nat × Nat × Nat :=
  if xyz.2.2 = 0 then (0, xyz.1, xyz.2.1)
  else if xyz.2.2 = g.pW - 1 then (1, xyz.1, xyz.2.1)
  else if xyz.2.1 = 0 then (2, xyz.1, xyz.2.2 - 1)
  else if xyz.2.1 = g.pV - 1 then (3, xyz.1, xyz.2.2 - 1)
  else if xyz.1 = 0 then (4, xyz.2.1 - 1, xyz.2.2 - 1)
  else (5, xyz.2.1 - 1, xyz.2.2 - 1)

/-- The grid coordinate `(x, y, z)` is a point of the box surface. -/
def OnSurface (g : Grid) (xyz : Nat × Nat × Nat) : Prop :=
  xyz.1 < g.pU ∧ xyz.2.1 < g.pV ∧ xyz.2.2 < g.pW
    ∧ (xyz.2.2 = 0 ∨ xyz.2.2 = g.pW - 1 ∨ xyz.2.1 = 0 ∨ xyz.2.1 = g.pV - 1
      ∨ xyz.1 = 0 ∨ xyz.1 = g.pU - 1)

/-- The point count of a resolution, `2*pU*pV + 2*pU*(pW-2) + 2*(pV-2)*(pW-2)`. -/
def Grid.nPts (g : Grid) : Nat :=
  2 * g.pU * g.pV + 2 * g.pU * (g.pW - 2) + 2 * (g.pV - 2) * (g.pW - 2)

/-- The four indices of a quad are below `n` and pairwise distinct. -/
def GoodQuad (n : Nat) (q : Quad) : Prop :=
  (q.a < n ∧ q.b < n ∧ q.c < n ∧ q.d < n)
    ∧ q.a ≠ q.b ∧ q.a ≠ q.c ∧ q.a ≠ q.d ∧ q.b ≠ q.c ∧ q.b ≠ q.d ∧ q.c ≠ q.d

/-- The point indexer of a resolution, restricted to the positions `mkVertexData`
enumerates, is a bijection onto `[0, total)`: the enumerated positions are exactly those of
`Enumerated`, each listed once; distinct positions have distinct offsets; every offset below
`total` is the offset of exactly one enumerated position; so the list of written offsets is a
rearrangement of `0, ..., total - 1`. -/
def IndexerBijection (g : Grid) (total : Nat) : Prop :=
  (∀ p, p ∈ vertexPositions g ↔ Enumerated g p)
  ∧ (vertexPositions g).Nodup
  ∧ (∀ p q, Enumerated g p → Enumerated g q → ptIdx g p = ptIdx g q → p = q)
  ∧ (∀ k, k < total → ∃! p, Enumerated g p ∧ ptIdx g p = k)
  ∧ ((vertexPositions g).map (ptIdx g)).Perm (List.range total)

/-- The slot of `faceData` that `mkFaceData` writes for the cell `(i, j)` of the face
`(pair, b)`: `uvEl`, `uwEl` or `vwEl` by axis-pair. -/
def elIdx (d : DispObject) (pair : AxisPair) (i j : Nat) (b : Bool) : Nat :=
  match pair with
  | AxisPair.uv => uvEl d i j b
  | AxisPair.uw => uwEl d i j b
  | AxisPair.vw => vwEl d i j b

/-- The quad `mkFaceData` stores for the cell `(i, j)` of the face `(pair, b)`: the offsets of
the logical corners `(i, j)`, `(i+1, j)`, `(i+1, j+1)`, `(i, j+1)`. -/
def quadAt (g : Grid) (pair : AxisPair) (i j : Nat) (b : Bool) : Quad :=
  ⟨ptIdx g ⟨pair, i, j, b⟩, ptIdx g ⟨pair, i + 1, j, b⟩, ptIdx g ⟨pair, i + 1, j + 1, b⟩,
    ptIdx g ⟨pair, i, j + 1, b⟩⟩

/-- The direction of `(P1 - P0) x (P3 - P0)` that the corner order of `mkFaceData` gives on
both sides of an axis-pair: `+z` for U x V, `-y` for U x W, `+x` for V x W. -/
def windingAxis (pair : AxisPair) : Vec3 :=
  match pair with
  | AxisPair.uv => ⟨0, 0, 1⟩
  | AxisPair.uw => ⟨0, -1, 0⟩
  | AxisPair.vw => ⟨1, 0, 0⟩

/-- The side of an axis-pair on which `windingAxis` points out of the box: `b = true` for
U x V and V x W, `b = false` for U x W. -/
def outwardSide (pair : AxisPair) : Bool :=
  match pair with
  | AxisPair.uv => true
  | AxisPair.uw => false
  | AxisPair.vw => true

/-- The face-local coordinate of the vertex with grid coordinate `(x, y, z)`. -/
def coordPt (g : Grid) (xyz : Nat × Nat × Nat) : Vec3 :=
  ⟨lpt xyz.1 g.pU, lpt xyz.2.1 g.pV, lpt xyz.2.2 g.pW⟩

/-- The logical position under which `mkVertexData` enumerates the surface vertex with grid
coordinate `(x, y, z)`: on a U x V face when `z` is extreme, else on a U x W face when `y` is
extreme, else on a V x W face. -/
def canonPos (g : Grid) (xyz : Nat × Nat × Nat) : LPos :=
  if xyz.2.2 = 0 then ⟨AxisPair.uv, xyz.1, xyz.2.1, false⟩
  else if xyz.2.2 = g.pW - 1 then ⟨AxisPair.uv, xyz.1, xyz.2.1, true⟩
  else if xyz.2.1 = 0 then ⟨AxisPair.uw, xyz.1, xyz.2.2, false⟩
  else if xyz.2.1 = g.pV - 1 then ⟨AxisPair.uw, xyz.1, xyz.2.2, true⟩
  else if xyz.1 = 0 then ⟨AxisPair.vw, xyz.2.1, xyz.2.2, false⟩
  else ⟨AxisPair.vw, xyz.2.1, xyz.2.2, true⟩

/-! ## Decision procedures for the predicates above -/

instance decValid (g : Grid) (p : LPos) : Decidable (Valid g p) := by
  unfold Valid
  split <;> infer_instance

instance decEnumerated (g : Grid) (p : LPos) : Decidable (Enumerated g p) := by
  unfold Enumerated
  split <;> infer_instance

instance decInRegion (g : Grid) (c : Nat × Nat × Nat) : Decidable (InRegion g c) := by
  unfold InRegion
  infer_instance

instance decOnSurface (g : Grid) (xyz : Nat × Nat × Nat) : Decidable (OnSurface g xyz) := by
  unfold OnSurface
  infer_instance

instance decGoodQuad (n : Nat) (q : Quad) : Decidable (GoodQuad n q) := by
  unfold GoodQuad
  infer_instance

instance decIsPartitionTable (t : List Nat) (total : Nat) :
    Decidable (IsPartitionTable t total) := by
  unfold IsPartitionTable
  infer_instance

/-! ## Nearest-hit semantics, stated from the specification -/

/-- The parameter `t` is the nearest forward hit of the ray on the face array: no accepted
triangle of any quad has a smaller parameter. -/
def IsNearestHit (vertexData : List Vec3) (faceData : List Quad) (a b : Vec3) (t : ℚ) : Prop :=
  ∀ tri ∈ quadTriangles faceData, ∀ s, triangleAccept vertexData a b tri = some s → t ≤ s

/-- Two parallel unit quads, the first in the plane `z = 2`, the second in `z = 1`. -/
def stackedVertices : List Vec3 :=
  [⟨0, 0, 2⟩, ⟨1, 0, 2⟩, ⟨1, 1, 2⟩, ⟨0, 1, 2⟩, ⟨0, 0, 1⟩, ⟨1, 0, 1⟩, ⟨1, 1, 1⟩, ⟨0, 1, 1⟩]

/-- The face array of the two stacked quads: the far quad first. -/
def stackedFaces : List Quad := [⟨0, 1, 2, 3⟩, ⟨4, 5, 6, 7⟩]

/-! ## `init` and the buffer functions -/

/-- The five `QOpenGLBuffer` members of the object. -/
inductive Buf where
  | vertexBuffer
  | vertexBufferLines
  | faceBuffer
  | boundaryBuffer
  | elementBuffer
deriving DecidableEq

/-- The arrays that are uploaded. -/
inductive DataArr where
  | vertexData
  | vertexDataLines
  | faceData
  | patchBndData
  | elementData
deriving DecidableEq

/-- One call on a buffer: `create()`, `setUsagePattern(StaticDraw)`, `bind()`, or
`allocate(data, bytes)`, the upload. -/
inductive GLOp where
  | create (b : Buf)
  | setUsagePattern (b : Buf)
  | bind (b : Buf)
  | allocate (b : Buf) (data : DataArr) (bytes : Nat)
deriving DecidableEq

/-- The explicit state of an object as far as initialisation goes: the `_initialized` flag and
the sequence of buffer operations performed so far. -/
structure GLState where
  initialized : Bool
  ops : List GLOp
deriving DecidableEq

/-- The function `DispObject::createBuffer` (lines 201-206). -/
def createBuffer (buffer : Buf) (s : GLState) : GLState :=
  { s with ops := s.ops ++ [GLOp.create buffer, GLOp.setUsagePattern buffer, GLOp.bind buffer] }

/-- The call `buffer.allocate(data, bytes)`. -/
def allocate (buffer : Buf) (data : DataArr) (bytes : Nat) (s : GLState) : GLState :=
  { s with ops := s.ops ++ [GLOp.allocate buffer data bytes] }

/-- The function `DispObject::mkVertexBuffer` (lines 277-284); both uploads are issued on
`vertexBuffer`, as in the source; `sizeof(float)` is 4. -/
def mkVertexBuffer (d : DispObject) (s : GLState) : GLState :=
  let s1 := createBuffer Buf.vertexBuffer s
  let s2 := allocate Buf.vertexBuffer DataArr.vertexData (d.nPts * 3 * 4) s1
  let s3 := createBuffer Buf.vertexBufferLines s2
  allocate Buf.vertexBuffer DataArr.vertexDataLines (d.ntPts * 3 * 4) s3

/-- The function `DispObject::mkFaceBuffer` (lines 287-291); `sizeof(GLuint)` is 4. -/
def mkFaceBuffer (d : DispObject) (s : GLState) : GLState :=
  allocate Buf.faceBuffer DataArr.faceData (d.nElems * 4 * 4) (createBuffer Buf.faceBuffer s)

/-- The buffer operations of `DispObject::mkBoundaryBuffer` (lines 310-311). -/
def mkBoundaryBufferOps (d : DispObject) (s : GLState) : GLState :=
  allocate Buf.boundaryBuffer DataArr.patchBndData ((d.ntU + d.ntV + d.ntW) * 16 * 4)
    (createBuffer Buf.boundaryBuffer s)

/-- The buffer operations of `DispObject::mkElementBuffer` (lines 344-345). -/
def mkElementBufferOps (d : DispObject) (s : GLState) : GLState :=
  allocate Buf.elementBuffer DataArr.elementData (2 * d.nElemLines * 4)
    (createBuffer Buf.elementBuffer s)

/-- The function `DispObject::init` (lines 106-114): the four buffer functions in order, then
`_initialized = true`. -/
def init (d : DispObject) (s : GLState) : GLState :=
  let s1 := mkVertexBuffer d s
  let s2 := mkFaceBuffer d s1
  let s3 := mkBoundaryBufferOps d s2
  let s4 := mkElementBufferOps d s3
  { s4 with initialized := true }

/-- The operations one call of `init` performs, in order. -/
def initOps (d : DispObject) : List GLOp :=
  (init d ⟨false, []⟩).ops

/-- An operation creates a buffer or uploads data. -/
def GLOp.isCreateOrUpload : GLOp → Bool
  | GLOp.create _ => true
  | GLOp.allocate _ _ _ => true
  | _ => false

/-- The refined logical position that corresponds to a template position: the same face, grid
coordinates multiplied by the refinement factor. -/
def refinedPos (r : Nat) (p : LPos) : LPos :=
  ⟨p.pair, r * p.i, r * p.j, p.side⟩

/-! ## The segments of the element lines -/

/-- The segment an assignment of `mkElementBuffer` stores, as its two logical end points. -/
def LineWrite.seg (w : LineWrite) : LPos × LPos := (w.p, w.q)

/-- A segment of an interior grid line of a face of the template grid: both end points on the
same face, and either one step apart along the first axis of the face on a row `j` with
`1 ≤ j ≤ ntB - 1`, or one step apart along the second axis on a column `i` with
`1 ≤ i ≤ ntA - 1`. -/
def InteriorSegment (d : DispObject) (s : LPos × LPos) : Prop :=
  s.2.pair = s.1.pair ∧ s.2.side = s.1.side
  ∧ ((s.2.i = s.1.i + 1 ∧ s.2.j = s.1.j
        ∧ s.1.i < (tcells d s.1.pair).1 ∧ 1 ≤ s.1.j ∧ s.1.j < (tcells d s.1.pair).2)
    ∨ (s.2.i = s.1.i ∧ s.2.j = s.1.j + 1
        ∧ (1 ≤ s.1.i ∧ s.1.i < (tcells d s.1.pair).1) ∧ s.1.j < (tcells d s.1.pair).2))

/-- The segments along the first axis of the face `(pair, side)` on its interior rows:
`(i, j) - (i+1, j)` for `i < nA`, `1 ≤ j < nB`. -/
def lineSegsA (pair : AxisPair) (side : Bool) (nA nB : Nat) : List (LPos × LPos) :=
  (List.range nA).flatMap fun i => (List.Ico 1 nB).map fun j =>
    ((⟨pair, i, j, side⟩ : LPos), (⟨pair, i + 1, j, side⟩ : LPos))

/-- The segments along the second axis of the face `(pair, side)` on its interior columns:
`(j, i) - (j, i+1)` for `i < nB`, `1 ≤ j < nA`. -/
def lineSegsB (pair : AxisPair) (side : Bool) (nA nB : Nat) : List (LPos × LPos) :=
  (List.range nB).flatMap fun i => (List.Ico 1 nA).map fun j =>
    ((⟨pair, j, i, side⟩ : LPos), (⟨pair, j, i + 1, side⟩ : LPos))

/-- The segments of one pass of the loop over `a` in `mkElementBuffer`, grouped by loop. -/
def loopSegs (d : DispObject) (a : Bool) : List (LPos × LPos) :=
  (lineSegsA AxisPair.uv a d.ntU d.ntV ++ lineSegsA AxisPair.uw a d.ntU d.ntW)
  ++ (lineSegsB AxisPair.uv a d.ntU d.ntV ++ lineSegsA AxisPair.vw a d.ntV d.ntW)
  ++ (lineSegsB AxisPair.uw a d.ntU d.ntW ++ lineSegsB AxisPair.vw a d.ntV d.ntW)

/-! ## `mkBoundaryBuffer` -/

/-- The call of a boundary-slot indexer (`uPbd`, `vPbd` or `wPbd`, declared in the missing
`DispObject.h`) that names the slot of `patchBndData` an assignment writes. -/
inductive BndSlot where
  | uPbd (i : Nat) (a b c : Bool)
  | vPbd (i : Nat) (a b c : Bool)
  | wPbd (i : Nat) (a b c : Bool)
deriving DecidableEq

/-- One assignment `patchBndData[slot] = { idx(p), idx(q) }` of `mkBoundaryBuffer`: the slot
call and the two template grid positions whose indices form the segment. -/
structure BndWrite where
  slot : BndSlot
  p : LPos
  q : LPos
deriving DecidableEq

/-- The body of the innermost loop of `mkBoundaryBuffer` (lines 302-307) for the flags
`a, b, c`, as the list of its assignments in execution order. -/
def boundaryBody (d : DispObject) (a b c : Bool) : List BndWrite :=
  ((List.range d.ntU).map fun i =>
    (⟨BndSlot.uPbd i a b c, ⟨AxisPair.uv, i, if a then d.ntV else 0, b⟩,
      ⟨AxisPair.uv, i + 1, if a then d.ntV else 0, b⟩⟩ : BndWrite))
  ++ ((List.range d.ntV).map fun i =>
    (⟨BndSlot.vPbd i a b c, ⟨AxisPair.uv, if a then d.ntU else 0, i, b⟩,
      ⟨AxisPair.uv, if a then d.ntU else 0, i + 1, b⟩⟩ : BndWrite))
  ++ ((List.range d.ntW).map fun i =>
    (⟨BndSlot.wPbd i a b c, ⟨AxisPair.uw, if a then d.ntU else 0, i, b⟩,
      ⟨AxisPair.uw, if a then d.ntU else 0, i + 1, b⟩⟩ : BndWrite))

/-- All assignments of `mkBoundaryBuffer` (lines 298-308), in execution order: the loops over
`a`, `b`, `c`, each over `{true, false}`. -/
def boundaryWrites (d : DispObject) : List BndWrite :=
  [true, false].flatMap fun a => [true, false].flatMap fun b => [true, false].flatMap fun c =>
    boundaryBody d a b c

/-- The segment an assignment of `mkBoundaryBuffer` stores, as the grid coordinates of its two
end points: the physical segment, whatever face its end points are addressed through. -/
def BndWrite.seg (d : DispObject) (w : BndWrite) : (Nat × Nat × Nat) × (Nat × Nat × Nat) :=
  (gridCoord d.tgrid w.p, gridCoord d.tgrid w.q)

/-- A segment of one of the 12 edges of the box on the template grid: two grid points one step
apart along one axis, the other two coordinates being extreme (`0` or `nt`). -/
def EdgeSegment (d : DispObject) (s : (Nat × Nat × Nat) × (Nat × Nat × Nat)) : Prop :=
  (s.2 = (s.1.1 + 1, s.1.2.1, s.1.2.2) ∧ s.1.1 < d.ntU
      ∧ (s.1.2.1 = 0 ∨ s.1.2.1 = d.ntV) ∧ (s.1.2.2 = 0 ∨ s.1.2.2 = d.ntW))
  ∨ (s.2 = (s.1.1, s.1.2.1 + 1, s.1.2.2) ∧ s.1.2.1 < d.ntV
      ∧ (s.1.1 = 0 ∨ s.1.1 = d.ntU) ∧ (s.1.2.2 = 0 ∨ s.1.2.2 = d.ntW))
  ∨ (s.2 = (s.1.1, s.1.2.1, s.1.2.2 + 1) ∧ s.1.2.2 < d.ntW
      ∧ (s.1.1 = 0 ∨ s.1.1 = d.ntU) ∧ (s.1.2.1 = 0 ∨ s.1.2.1 = d.ntV))

/-- The grid point `P` lies on the face `(pair, side)` of the template grid. -/
def OnFace (d : DispObject) (f : AxisPair × Bool) (P : Nat × Nat × Nat) : Prop :=
  match f.1 with
  | AxisPair.uv => P.2.2 = (if f.2 then d.ntW else 0)
  | AxisPair.uw => P.2.1 = (if f.2 then d.ntV else 0)
  | AxisPair.vw => P.1 = (if f.2 then d.ntU else 0)

/-- The number of the face `(pair, side)` in the partition tables: 0, 1 the U x V sides
(near, far), 2, 3 the U x W sides, 4, 5 the V x W sides. -/
def faceNo (f : AxisPair × Bool) : Nat :=
  (match f.1 with
    | AxisPair.uv => 0
    | AxisPair.uw => 2
    | AxisPair.vw => 4) + (if f.2 then 1 else 0)

/-- Modelled from the spec: the face whose perimeter list the slot of a boundary-slot call
belongs to.  Each edge segment is listed once for each of the two faces adjoining its edge;
the flag `c` selects which: for `uPbd` (an edge along U at `y = a`, `z = b`) the U x V face
`b` or the U x W face `a`; for `vPbd` (along V at `x = a`, `z = b`) the U x V face `b` or the
V x W face `a`; for `wPbd` (along W at `x = a`, `y = b`) the U x W face `b` or the V x W face
`a`. -/
def BndSlot.face : BndSlot → AxisPair × Bool
  | BndSlot.uPbd _ a b c => if c then (AxisPair.uw, a) else (AxisPair.uv, b)
  | BndSlot.vPbd _ a b c => if c then (AxisPair.vw, a) else (AxisPair.uv, b)
  | BndSlot.wPbd _ a b c => if c then (AxisPair.vw, a) else (AxisPair.uw, b)

/-- Modelled from the spec: the boundary-slot indexers `uPbd`, `vPbd`, `wPbd` of the missing
`DispObject.h`.  The slot lies in the range `[boundaryIdxs[f], boundaryIdxs[f+1])` of its face
`f`; within the range, the face's two edges along its first axis come first (the one at the low
end of the second axis, then the one at the high end), then its two edges along its second
axis, each edge taking `nt` consecutive slots. -/
def pbdIdx (d : DispObject) : BndSlot → Nat
  | BndSlot.uPbd i a b c =>
    if c then tbl d.boundaryIdxs (faceNo (AxisPair.uw, a)) + (if b then d.ntU else 0) + i
    else tbl d.boundaryIdxs (faceNo (AxisPair.uv, b)) + (if a then d.ntU else 0) + i
  | BndSlot.vPbd i a b c =>
    if c then tbl d.boundaryIdxs (faceNo (AxisPair.vw, a)) + (if b then d.ntV else 0) + i
    else tbl d.boundaryIdxs (faceNo (AxisPair.uv, b)) + 2 * d.ntU + (if a then d.ntV else 0) + i
  | BndSlot.wPbd i a b c =>
    if c then
      tbl d.boundaryIdxs (faceNo (AxisPair.vw, a)) + 2 * d.ntV + (if b then d.ntW else 0) + i
    else tbl d.boundaryIdxs (faceNo (AxisPair.uw, b)) + 2 * d.ntU + (if a then d.ntW else 0) + i

/-- The slot call with the flag `c` negated. -/
def BndSlot.flipC : BndSlot → BndSlot
  | BndSlot.uPbd i a b c => BndSlot.uPbd i a b (!c)
  | BndSlot.vPbd i a b c => BndSlot.vPbd i a b (!c)
  | BndSlot.wPbd i a b c => BndSlot.wPbd i a b (!c)

/-- The assignment `mkBoundaryBuffer` performs for a slot call. -/
def bndWriteOf (d : DispObject) : BndSlot → BndWrite
  | BndSlot.uPbd i a b c =>
    ⟨BndSlot.uPbd i a b c, ⟨AxisPair.uv, i, if a then d.ntV else 0, b⟩,
      ⟨AxisPair.uv, i + 1, if a then d.ntV else 0, b⟩⟩
  | BndSlot.vPbd i a b c =>
    ⟨BndSlot.vPbd i a b c, ⟨AxisPair.uv, if a then d.ntU else 0, i, b⟩,
      ⟨AxisPair.uv, if a then d.ntU else 0, i + 1, b⟩⟩
  | BndSlot.wPbd i a b c =>
    ⟨BndSlot.wPbd i a b c, ⟨AxisPair.uw, if a then d.ntU else 0, i, b⟩,
      ⟨AxisPair.uw, if a then d.ntU else 0, i + 1, b⟩⟩

/-- The slot calls `mkBoundaryBuffer` makes: the running index below the count of its axis. -/
def BndSlot.InRange (d : DispObject) : BndSlot → Prop
  | BndSlot.uPbd i _ _ _ => i < d.ntU
  | BndSlot.vPbd i _ _ _ => i < d.ntV
  | BndSlot.wPbd i _ _ _ => i < d.ntW

/-- The three flags of a slot call. -/
def BndSlot.flags : BndSlot → Bool × Bool × Bool
  | BndSlot.uPbd _ a b c => (a, b, c)
  | BndSlot.vPbd _ a b c => (a, b, c)
  | BndSlot.wPbd _ a b c => (a, b, c)

/-- The edge segment a slot call stands for: the axis (0, 1, 2 for U, V, W), the running index
and the two flags that select the edge; the flag `c` is left out. -/
def BndSlot.core : BndSlot → Nat × Nat × Bool × Bool
  | BndSlot.uPbd i a b _ => (0, i, a, b)
  | BndSlot.vPbd i a b _ => (1, i, a, b)
  | BndSlot.wPbd i a b _ => (2, i, a, b)

/-! ## Auxiliary facts -/

theorem usub_of_le {a b : Nat} (h : b ≤ a) : usub a b = a - b := by
  simp [usub, h]

theorem length_flatMap_const {α β : Type} (l : List α) (f : α → List β) (c : Nat)
    (h : ∀ x ∈ l, (f x).length = c) : (l.flatMap f).length = l.length * c := by
  induction l with
  | nil => simp
  | cons x xs ih =>
    have hx : (f x).length = c := h x (List.mem_cons_self _ _)
    have hxs : ∀ y ∈ xs, (f y).length = c := fun y hy => h y (List.mem_cons_of_mem _ hy)
    simp [List.flatMap_cons, hx, ih hxs, Nat.succ_mul, Nat.add_comm]

theorem length_writeAll {α : Type} (ws : List (Nat × α)) (init : List α) :
    (writeAll init ws).length = init.length := by
  unfold writeAll
  induction ws generalizing init with
  | nil => rfl
  | cons w ws ih => simp [List.foldl_cons, ih]

theorem length_uvLoop (g : Grid) (b : Bool) : (uvLoop g b).length = g.pU * g.pV := by
  unfold uvLoop
  rw [length_flatMap_const _ _ g.pV (by intro x _; simp)]
  simp

theorem length_uwLoop (g : Grid) (b : Bool) :
    (uwLoop g b).length = g.pU * (usub g.pW 1 - 1) := by
  unfold uwLoop
  rw [length_flatMap_const _ _ (usub g.pW 1 - 1) (by intro x _; simp)]
  simp

theorem length_vwLoop (g : Grid) (b : Bool) :
    (vwLoop g b).length = (usub g.pV 1 - 1) * (usub g.pW 1 - 1) := by
  unfold vwLoop
  rw [length_flatMap_const _ _ (usub g.pW 1 - 1) (by intro x _; simp)]
  simp

theorem length_vertexPositions (g : Grid) :
    (vertexPositions g).length
      = 2 * (g.pU * g.pV + g.pU * (usub g.pW 1 - 1) + (usub g.pV 1 - 1) * (usub g.pW 1 - 1)) := by
  simp [vertexPositions, length_uvLoop, length_uwLoop, length_vwLoop]
  ring

/-- C1: for template counts `ntU, ntV, ntW ≥ 1` and a refinement factor `r ≥ 1`, with
`nPtsX = r*ntX + 1`: no subtraction of the point-count computation or of the loop bounds wraps
around, the refined vertex array has length
`nPts = 2*nPtsU*nPtsV + 2*nPtsU*(nPtsW-2) + 2*(nPtsV-2)*(nPtsW-2)`, the three loop nests of
`mkVertexData` enumerate `nPtsU*nPtsV`, `nPtsU*(nPtsW-2)` and `(nPtsV-2)*(nPtsW-2)` positions
per side (zero for the interior loops when `nPtsW = 2`), and both sides together enumerate
exactly `nPts` logical positions. -/
theorem mkVertexData_point_count (ntU ntV ntW r : Nat) (center : Vec3) (d : DispObject)
    (_hU : 1 ≤ ntU) (hV : 1 ≤ ntV) (hW : 1 ≤ ntW) (hr : 1 ≤ r)
    (hd : d = mkDispObject ntU ntV ntW r r r) :
    (d.nPtsU = r * ntU + 1 ∧ d.nPtsV = r * ntV + 1 ∧ d.nPtsW = r * ntW + 1)
    ∧ (usub d.nPtsV 2 + 2 = d.nPtsV ∧ usub d.nPtsW 2 + 2 = d.nPtsW
        ∧ usub d.nPtsV 1 + 1 = d.nPtsV ∧ usub d.nPtsW 1 + 1 = d.nPtsW)
    ∧ d.nPts = 2 * d.nPtsU * d.nPtsV + 2 * d.nPtsU * (d.nPtsW - 2)
        + 2 * (d.nPtsV - 2) * (d.nPtsW - 2)
    ∧ (mkVertexData d center).1.length = d.nPts
    ∧ (∀ b, (uvLoop d.grid b).length = d.nPtsU * d.nPtsV
        ∧ (uwLoop d.grid b).length = d.nPtsU * (d.nPtsW - 2)
        ∧ (vwLoop d.grid b).length = (d.nPtsV - 2) * (d.nPtsW - 2))
    ∧ (d.nPtsW = 2 → ∀ b, uwLoop d.grid b = [] ∧ vwLoop d.grid b = [])
    ∧ (vertexPositions d.grid).length = d.nPts := by
  subst hd
  have hV2 : 1 ≤ r * ntV := Nat.mul_pos hr hV
  have hW2 : 1 ≤ r * ntW := Nat.mul_pos hr hW
  have e1V : usub (r * ntV + 1) 1 = r * ntV := by rw [usub_of_le (by omega)]; omega
  have e1W : usub (r * ntW + 1) 1 = r * ntW := by rw [usub_of_le (by omega)]; omega
  have e2V : usub (r * ntV + 1) 2 = r * ntV - 1 := by rw [usub_of_le (by omega)]; omega
  have e2W : usub (r * ntW + 1) 2 = r * ntW - 1 := by rw [usub_of_le (by omega)]; omega
  have hl : ∀ b, (uvLoop (mkDispObject ntU ntV ntW r r r).grid b).length
          = (mkDispObject ntU ntV ntW r r r).nPtsU * (mkDispObject ntU ntV ntW r r r).nPtsV
        ∧ (uwLoop (mkDispObject ntU ntV ntW r r r).grid b).length
          = (mkDispObject ntU ntV ntW r r r).nPtsU
            * ((mkDispObject ntU ntV ntW r r r).nPtsW - 2)
        ∧ (vwLoop (mkDispObject ntU ntV ntW r r r).grid b).length
          = ((mkDispObject ntU ntV ntW r r r).nPtsV - 2)
            * ((mkDispObject ntU ntV ntW r r r).nPtsW - 2) := by
    intro b
    refine ⟨length_uvLoop _ _, ?_, ?_⟩
    · rw [length_uwLoop]
      simp only [mkDispObject, DispObject.grid, e1W]
      rfl
    · rw [length_vwLoop]
      simp only [mkDispObject, DispObject.grid, e1W, e1V]
      rfl
  refine ⟨⟨rfl, rfl, rfl⟩, ?_, ?_, ?_, hl, ?_, ?_⟩
  · simp only [mkDispObject, e1V, e1W, e2V, e2W]
    generalize r * ntV = v at hV2 ⊢
    generalize r * ntW = w at hW2 ⊢
    exact ⟨by omega, by omega, trivial, trivial⟩
  · simp only [mkDispObject, e2V, e2W]
    rfl
  · simp only [mkVertexData, length_writeAll, List.length_replicate]
  · intro h2 b
    obtain ⟨_, h3, h4⟩ := hl b
    rw [h2] at h3 h4
    simp at h3 h4
    exact ⟨h3, h4⟩
  · rw [length_vertexPositions]
    simp only [mkDispObject, DispObject.grid, e1V, e1W, e2V, e2W]
    have : r * ntW + 1 - 2 = r * ntW - 1 := by omega
    ring

/-- Witness for C1 at the constructor's counts 3, 4, 5 with refinement 2: 378 points. -/
theorem mkVertexData_point_count_witness :
    (mkDispObject 3 4 5 2 2 2).nPts = 378
    ∧ (mkVertexData (mkDispObject 3 4 5 2 2 2) ⟨0, 0, 0⟩).1.length = 378
    ∧ (vertexPositions (mkDispObject 3 4 5 2 2 2).grid).length = 378 := by
  have h := mkVertexData_point_count 3 4 5 2 ⟨0, 0, 0⟩ (mkDispObject 3 4 5 2 2 2) (by decide)
    (by decide) (by decide) (by decide) rfl
  have e : (mkDispObject 3 4 5 2 2 2).nPts = 378 := by decide
  exact ⟨e, e ▸ h.2.2.2.1, e ▸ h.2.2.2.2.2.2⟩


theorem coversOnce_of_isPartitionTable {t : List Nat} {total : Nat}
    (h : IsPartitionTable t total) : CoversOnce t total := by
  obtain ⟨hlen, h0, hmono, h6⟩ := h
  match t, hlen with
  | [a0, a1, a2, a3, a4, a5, a6], _ =>
    have m0 := hmono 0 (by decide)
    have m1 := hmono 1 (by decide)
    have m2 := hmono 2 (by decide)
    have m3 := hmono 3 (by decide)
    have m4 := hmono 4 (by decide)
    have m5 := hmono 5 (by decide)
    simp only [tbl, List.getD_cons_zero, List.getD_cons_succ] at h0 h6 m0 m1 m2 m3 m4 m5
    intro k hk
    have key : ∀ i, i < 6 → (tbl [a0, a1, a2, a3, a4, a5, a6] i ≤ k
        ∧ k < tbl [a0, a1, a2, a3, a4, a5, a6] (i + 1)) →
        i = (if k < a1 then 0 else if k < a2 then 1 else if k < a3 then 2
              else if k < a4 then 3 else if k < a5 then 4 else 5) := by
      intro i hi hik
      interval_cases i <;>
        simp only [tbl, List.getD_cons_zero, List.getD_cons_succ] at hik <;>
        split_ifs <;> omega
    refine ⟨(if k < a1 then 0 else if k < a2 then 1 else if k < a3 then 2
              else if k < a4 then 3 else if k < a5 then 4 else 5), ?_, ?_⟩
    · split_ifs <;>
        simp only [tbl, List.getD_cons_zero, List.getD_cons_succ] <;>
        omega
    · rintro i ⟨hi, hik⟩
      exact key i hi hik

/-- C2: for template counts `≥ 1` and `r ≥ 1`, each of the tables `faceIdxs`, `boundaryIdxs`
and `elementIdxs` starts at 0, is increasing over its seven entries and ends at the length of
its element array (`faceData`, of length `nElems`; the boundary array, of length
`8*(ntU+ntV+ntW)`; the element-line array, of length `nElemLines`); hence the six half-open
ranges `[table[i], table[i+1])` cover `[0, total)` exactly once. -/
theorem partition_tables (ntU ntV ntW r : Nat) (d : DispObject)
    (_hU : 1 ≤ ntU) (_hV : 1 ≤ ntV) (_hW : 1 ≤ ntW) (_hr : 1 ≤ r)
    (hd : d = mkDispObject ntU ntV ntW r r r) :
    ((mkFaceData d).length = d.nElems ∧ IsPartitionTable d.faceIdxs (mkFaceData d).length
      ∧ CoversOnce d.faceIdxs (mkFaceData d).length)
    ∧ (patchBndDataSize d = 8 * (ntU + ntV + ntW)
      ∧ IsPartitionTable d.boundaryIdxs (patchBndDataSize d)
      ∧ CoversOnce d.boundaryIdxs (patchBndDataSize d))
    ∧ (elementDataSize d = d.nElemLines ∧ IsPartitionTable d.elementIdxs (elementDataSize d)
      ∧ CoversOnce d.elementIdxs (elementDataSize d)) := by
  subst hd
  have lenF : (mkFaceData (mkDispObject ntU ntV ntW r r r)).length
      = (mkDispObject ntU ntV ntW r r r).nElems := by
    simp only [mkFaceData, length_writeAll, List.length_replicate]
  have pF : IsPartitionTable (mkDispObject ntU ntV ntW r r r).faceIdxs
      (mkFaceData (mkDispObject ntU ntV ntW r r r)).length := by
    rw [lenF]
    refine ⟨rfl, rfl, ?_, rfl⟩
    intro i hi
    interval_cases i <;>
      simp only [mkDispObject, tbl, List.getD_cons_zero, List.getD_cons_succ, Nat.mul_assoc] <;>
      omega
  have pB : IsPartitionTable (mkDispObject ntU ntV ntW r r r).boundaryIdxs
      (patchBndDataSize (mkDispObject ntU ntV ntW r r r)) := by
    refine ⟨rfl, rfl, ?_, ?_⟩
    · intro i hi
      interval_cases i <;>
        simp only [mkDispObject, tbl, List.getD_cons_zero, List.getD_cons_succ, Nat.mul_assoc] <;>
        omega
    · simp only [mkDispObject, patchBndDataSize, tbl, List.getD_cons_zero,
        List.getD_cons_succ]
      omega
  have pE : IsPartitionTable (mkDispObject ntU ntV ntW r r r).elementIdxs
      (elementDataSize (mkDispObject ntU ntV ntW r r r)) := by
    refine ⟨rfl, rfl, ?_, ?_⟩
    · intro i hi
      interval_cases i <;>
        simp only [mkDispObject, tbl, List.getD_cons_zero, List.getD_cons_succ, Nat.mul_assoc] <;>
        omega
    · simp only [mkDispObject, elementDataSize, tbl, List.getD_cons_zero,
        List.getD_cons_succ]
      omega
  exact ⟨⟨lenF, pF, coversOnce_of_isPartitionTable pF⟩,
    ⟨rfl, pB, coversOnce_of_isPartitionTable pB⟩,
    ⟨rfl, pE, coversOnce_of_isPartitionTable pE⟩⟩


/-- Witness for C2: the three tables of the object the source builds. -/
theorem partition_tables_witness :
    (mkDispObject 3 4 5 2 2 2).faceIdxs = [0, 48, 96, 156, 216, 296, 376]
    ∧ (mkFaceData (mkDispObject 3 4 5 2 2 2)).length = 376
    ∧ CoversOnce (mkDispObject 3 4 5 2 2 2).faceIdxs 376
    ∧ IsPartitionTable (mkDispObject 3 4 5 2 2 2).boundaryIdxs 96
    ∧ IsPartitionTable (mkDispObject 3 4 5 2 2 2).elementIdxs 140 := by
  have h := partition_tables 3 4 5 2 (mkDispObject 3 4 5 2 2 2) (by decide) (by decide)
    (by decide) (by decide) rfl
  have e : (mkDispObject 3 4 5 2 2 2).nElems = 376 := by decide
  have l : (mkFaceData (mkDispObject 3 4 5 2 2 2)).length = 376 := e ▸ h.1.1
  exact ⟨by decide, l, l ▸ h.1.2.2, h.2.1.2.1, h.2.2.2.1⟩

theorem length_faceLoop (d : DispObject) (pair : AxisPair) (b : Bool) :
    (faceLoop d pair b).length = (cells d pair).1 * (cells d pair).2 := by
  cases pair
  · simp only [faceLoop, faceLoopUV, cells]
    rw [length_flatMap_const _ _ d.nV (by intro x _; simp)]
    simp
  · simp only [faceLoop, faceLoopUW, cells]
    rw [length_flatMap_const _ _ d.nW (by intro x _; simp)]
    simp
  · simp only [faceLoop, faceLoopVW, cells]
    rw [length_flatMap_const _ _ d.nW (by intro x _; simp)]
    simp

theorem countP_flatMap_const {α β : Type} (p : β → Bool) (l : List α) (f : α → List β)
    (c : Nat) (h : ∀ x ∈ l, (f x).countP p = c) : (l.flatMap f).countP p = l.length * c := by
  induction l with
  | nil => simp
  | cons x xs ih =>
    have hx : (f x).countP p = c := h x (List.mem_cons_self _ _)
    have hxs : ∀ y ∈ xs, (f y).countP p = c := fun y hy => h y (List.mem_cons_of_mem _ hy)
    simp [List.flatMap_cons, List.countP_append, hx, ih hxs, Nat.succ_mul, Nat.add_comm]

theorem countP_map_const {α β : Type} (p : β → Bool) (f : α → β) (l : List α) (v : Bool)
    (h : ∀ x, p (f x) = v) : (l.map f).countP p = if v then l.length else 0 := by
  induction l with
  | nil => cases v <;> simp
  | cons x xs ih =>
    cases v <;> simp_all [List.countP_cons]

theorem elementCount_eq (d : DispObject) (pair : AxisPair) (side : Bool) :
    elementCount d pair side
      = (tcells d pair).1 * ((tcells d pair).2 - 1)
        + (tcells d pair).2 * ((tcells d pair).1 - 1) := by
  unfold elementCount elementWrites
  simp only [List.flatMap_cons, List.flatMap_nil, List.append_nil, List.countP_append,
    elementLoop]
  cases pair <;> cases side <;>
    simp [tcells, List.countP_flatMap, List.countP_map, Function.comp_def]


theorem usub_eq_of_add {a b c : Nat} (h : b + c = a) : usub a b = c := by
  rw [usub_of_le (by omega)]
  omega

/-- C3: for every face `i < 6` with axis-pair `(A, B)` and either side `b`, the difference
`table[i+1] - table[i]` (computed as the code does, without wrapping) is: in `faceIdxs`,
`nA*nB`, the number of quads the `mkFaceData` loop nest of that axis-pair writes per side; in
`boundaryIdxs`, the perimeter `2*(ntA + ntB)`; in `elementIdxs`, `ntA*(ntB-1) + ntB*(ntA-1)`,
the number of segments the `mkElementBuffer` loops write for that face per side. -/
theorem table_differences (ntU ntV ntW r : Nat) (i : Nat) (b : Bool)
    (d : DispObject) (nA nB ntA ntB : Nat)
    (hU : 1 ≤ ntU) (hV : 1 ≤ ntV) (hW : 1 ≤ ntW) (_hr : 1 ≤ r) (hi : i < 6)
    (hd : d = mkDispObject ntU ntV ntW r r r)
    (hn : (nA, nB) = cells d (pairOfFace i)) (hnt : (ntA, ntB) = tcells d (pairOfFace i)) :
    (usub (tbl d.faceIdxs (i + 1)) (tbl d.faceIdxs i) = nA * nB
      ∧ tbl d.faceIdxs i + nA * nB = tbl d.faceIdxs (i + 1)
      ∧ (faceLoop d (pairOfFace i) b).length = nA * nB)
    ∧ (usub (tbl d.boundaryIdxs (i + 1)) (tbl d.boundaryIdxs i) = 2 * (ntA + ntB)
      ∧ tbl d.boundaryIdxs i + 2 * (ntA + ntB) = tbl d.boundaryIdxs (i + 1))
    ∧ (usub (tbl d.elementIdxs (i + 1)) (tbl d.elementIdxs i)
          = ntA * (ntB - 1) + ntB * (ntA - 1)
      ∧ tbl d.elementIdxs i + (ntA * (ntB - 1) + ntB * (ntA - 1)) = tbl d.elementIdxs (i + 1)
      ∧ elementCount d (pairOfFace i) b = ntA * (ntB - 1) + ntB * (ntA - 1)) := by
  have eU : usub ntU 1 = ntU - 1 := usub_of_le hU
  have eV : usub ntV 1 = ntV - 1 := usub_of_le hV
  have eW : usub ntW 1 = ntW - 1 := usub_of_le hW
  have key : ∀ d : DispObject, d = mkDispObject ntU ntV ntW r r r →
      tbl d.faceIdxs i + (cells d (pairOfFace i)).1 * (cells d (pairOfFace i)).2
        = tbl d.faceIdxs (i + 1)
      ∧ tbl d.boundaryIdxs i + 2 * ((tcells d (pairOfFace i)).1 + (tcells d (pairOfFace i)).2)
        = tbl d.boundaryIdxs (i + 1)
      ∧ tbl d.elementIdxs i + ((tcells d (pairOfFace i)).1 * ((tcells d (pairOfFace i)).2 - 1)
          + (tcells d (pairOfFace i)).2 * ((tcells d (pairOfFace i)).1 - 1))
        = tbl d.elementIdxs (i + 1) := by
    intro d hd
    subst hd
    interval_cases i <;>
      simp only [mkDispObject, cells, tcells, pairOfFace, tbl, List.getD_cons_zero,
        List.getD_cons_succ, eU, eV, eW] <;>
      refine ⟨?_, ?_, ?_⟩ <;> norm_num <;> ring
  obtain ⟨hF, hB, hE⟩ := key d hd
  have hA : nA = (cells d (pairOfFace i)).1 := congrArg Prod.fst hn
  have hB2 : nB = (cells d (pairOfFace i)).2 := congrArg Prod.snd hn
  have htA : ntA = (tcells d (pairOfFace i)).1 := congrArg Prod.fst hnt
  have htB : ntB = (tcells d (pairOfFace i)).2 := congrArg Prod.snd hnt
  subst hA hB2 htA htB
  exact ⟨⟨usub_eq_of_add hF, hF, length_faceLoop d _ b⟩, ⟨usub_eq_of_add hB, hB⟩,
    ⟨usub_eq_of_add hE, hE, elementCount_eq d _ b⟩⟩

/-- Witness for C3: face 3 (a U x W face) of the object the source builds. -/
theorem table_differences_witness :
    usub (tbl (mkDispObject 3 4 5 2 2 2).faceIdxs 4) (tbl (mkDispObject 3 4 5 2 2 2).faceIdxs 3)
        = 60
    ∧ (faceLoop (mkDispObject 3 4 5 2 2 2) AxisPair.uw true).length = 60
    ∧ usub (tbl (mkDispObject 3 4 5 2 2 2).boundaryIdxs 4)
        (tbl (mkDispObject 3 4 5 2 2 2).boundaryIdxs 3) = 16
    ∧ elementCount (mkDispObject 3 4 5 2 2 2) AxisPair.uw true = 22 := by
  have h := table_differences 3 4 5 2 3 true (mkDispObject 3 4 5 2 2 2) 6 10 3 5 (by decide)
    (by decide) (by decide) (by decide) (by decide) rfl (by decide) (by decide)
  exact ⟨h.1.1, h.1.2.2, h.2.1.1, h.2.2.2.2⟩


theorem sort_eq_filter_range (visible : Finset Nat) (n : Nat)
    (hsub : visible ⊆ Finset.range n) :
    visible.sort (· ≤ ·) = (List.range n).filter (fun i => decide (i ∈ visible)) := by
  apply List.eq_of_perm_of_sorted (r := (· ≤ ·))
  · rw [List.perm_ext_iff_of_nodup (Finset.sort_nodup _ _)
      ((List.nodup_range n).filter _)]
    intro a
    simp only [Finset.mem_sort, List.mem_filter, List.mem_range, decide_eq_true_eq]
    constructor
    · intro ha
      exact ⟨Finset.mem_range.mp (hsub ha), ha⟩
    · intro ha
      exact ha.2
  · exact Finset.sort_sorted _ _
  · exact (List.sorted_le_range n).filter _

theorem range_drawCall (mode : GLMode) (s c : Nat) :
    DrawCall.range ⟨mode, (if mode = GLMode.lines then 2 else 4) * c,
      (if mode = GLMode.lines then 2 else 4) * s * 4⟩ = (s, c) := by
  cases mode <;> simp [DrawCall.range] <;> omega

/-- C4: for a partition table `t` and a visibility set within `{0,...,5}`, `drawCommand` issues:
when the set is all of `{0,...,5}`, exactly one call, with byte offset 0 and `mult*t[6]`
indices, that is the element range starting at 0 of `t[6]` elements; when the set is a strict
subset, exactly one call per member `i` in ascending order, with byte offset
`mult*t[i]*sizeof(GLuint)` and `mult*(t[i+1]-t[i])` indices, that is the element range
starting at `t[i]` of `t[i+1]-t[i]` elements ending at `t[i+1]`, and no call for a face
outside the set; `mult` is 4 for quads and 2 for lines. -/
theorem drawCommand_ranges (mode : GLMode) (visible : Finset Nat) (t : List Nat) (total : Nat)
    (hsub : visible ⊆ Finset.range 6) (ht : IsPartitionTable t total) :
    let mult := if mode = GLMode.lines then 2 else 4
    let members := (List.range 6).filter (fun i => decide (i ∈ visible))
    (mult = match mode with
      | GLMode.quads => 4
      | GLMode.lines => 2)
    ∧ (visible = Finset.range 6 →
        drawCommand mode visible t = [⟨mode, mult * tbl t 6, 0⟩]
        ∧ (drawCommand mode visible t).map DrawCall.range = [(0, total)])
    ∧ (visible ≠ Finset.range 6 →
        drawCommand mode visible t
          = members.map (fun i => ⟨mode, mult * (tbl t (i + 1) - tbl t i), mult * tbl t i * 4⟩)
        ∧ (drawCommand mode visible t).map DrawCall.range
          = members.map (fun i => (tbl t i, tbl t (i + 1) - tbl t i))
        ∧ ∀ i ∈ members, tbl t i + (tbl t (i + 1) - tbl t i) = tbl t (i + 1)) := by
  intro mult members
  obtain ⟨_, _, hmono, h6⟩ := ht
  have hcard : visible.card = 6 ↔ visible = Finset.range 6 := by
    constructor
    · intro h
      exact Finset.eq_of_subset_of_card_le hsub (by simp [h])
    · intro h
      simp [h]
  refine ⟨by cases mode <;> rfl, ?_, ?_⟩
  · intro hall
    have e : drawCommand mode visible t = [⟨mode, mult * tbl t 6, 0⟩] := by
      simp only [drawCommand, hcard.mpr hall, if_true, mult]
    refine ⟨e, ?_⟩
    rw [e, ← h6]
    have := range_drawCall mode 0 (tbl t 6)
    simpa [mult] using this
  · intro hne
    have hc : ¬ visible.card = 6 := fun h => hne (hcard.mp h)
    have hmem : ∀ i ∈ members, i < 6 := by
      intro i hi
      exact List.mem_range.mp (List.mem_filter.mp hi).1
    have e : drawCommand mode visible t
        = members.map (fun i =>
            ⟨mode, mult * (tbl t (i + 1) - tbl t i), mult * tbl t i * 4⟩) := by
      simp only [drawCommand, hc, if_false, sort_eq_filter_range visible 6 hsub]
      apply List.map_congr_left
      intro i hi
      have hle := hmono i (hmem i hi)
      rw [usub_of_le hle]
    refine ⟨e, ?_, ?_⟩
    · rw [e, List.map_map]
      apply List.map_congr_left
      intro i _
      exact range_drawCall mode (tbl t i) (tbl t (i + 1) - tbl t i)
    · intro i hi
      have hle := hmono i (hmem i hi)
      omega

/-- Witness for C4: quads of the faces `{1, 3, 4}` of the object the source builds. -/
theorem drawCommand_ranges_witness :
    (drawCommand GLMode.quads {1, 3, 4} (mkDispObject 3 4 5 2 2 2).faceIdxs).map DrawCall.range
      = [(48, 48), (156, 60), (216, 80)] := by
  have h := drawCommand_ranges GLMode.quads {1, 3, 4} (mkDispObject 3 4 5 2 2 2).faceIdxs 376
    (by decide) ⟨by decide, by decide, by decide, by decide⟩
  have h2 := (h.2.2 (by decide)).2.1
  rw [h2]
  decide


/-! ## The indexers: every surface vertex has one slot -/

theorem mul_bound (n a m : Nat) (h : a < m) : n * a + n ≤ n * m := by
  calc n * a + n = n * (a + 1) := by ring
    _ ≤ n * m := Nat.mul_le_mul_left n h

theorem lin_lt (n m i j : Nat) (hi : i < n) (hj : j < m) : i + n * j < n * m := by
  have hb := mul_bound n j m hj
  omega

theorem lin_inj (n a b a' b' : Nat) (ha : a < n) (ha' : a' < n)
    (h : a + n * b = a' + n * b') : a = a' ∧ b = b' := by
  have hb : b = b' := by
    rcases Nat.lt_trichotomy b b' with hlt | heq | hgt
    · have := mul_bound n b b' hlt
      omega
    · exact heq
    · have := mul_bound n b' b hgt
      omega
  subst hb
  exact ⟨by omega, rfl⟩

theorem regionBase_succ (g : Grid) (k : Nat) (hk : k < 6) :
    regionBase g (k + 1) = regionBase g k + (regionDims g k).1 * (regionDims g k).2 := by
  interval_cases k <;> simp [regionBase, regionDims] <;> omega

theorem regionBase_mono (g : Grid) (k k' : Nat) (hk : k < k') (hk' : k' < 6) :
    regionBase g (k + 1) ≤ regionBase g k' := by
  interval_cases k' <;> interval_cases k <;> simp [regionBase] <;> omega

theorem cellIdx_lt (g : Grid) (c : Nat × Nat × Nat) (hc : InRegion g c) :
    cellIdx g c < regionBase g (c.1 + 1) := by
  obtain ⟨h1, h2, h3⟩ := hc
  rw [regionBase_succ g c.1 h1]
  have := mul_bound (regionDims g c.1).1 c.2.2 (regionDims g c.1).2 h3
  unfold cellIdx
  omega

theorem cellIdx_lt_nPts (g : Grid) (c : Nat × Nat × Nat) (hc : InRegion g c) :
    cellIdx g c < g.nPts := by
  have h1 := cellIdx_lt g c hc
  have h2 : regionBase g (c.1 + 1) ≤ g.nPts := by
    obtain ⟨hk, _, _⟩ := hc
    generalize c.1 = k at hk
    interval_cases k <;> simp [regionBase, Grid.nPts, Nat.mul_assoc] <;> omega
  omega

theorem cellIdx_inj (g : Grid) (c c' : Nat × Nat × Nat) (hc : InRegion g c)
    (hc' : InRegion g c') (h : cellIdx g c = cellIdx g c') : c = c' := by
  have l1 := cellIdx_lt g c hc
  have l2 := cellIdx_lt g c' hc'
  have hk : c.1 = c'.1 := by
    rcases Nat.lt_trichotomy c.1 c'.1 with hlt | heq | hgt
    · have := regionBase_mono g c.1 c'.1 hlt hc'.1
      unfold cellIdx at h l1 l2
      omega
    · exact heq
    · have := regionBase_mono g c'.1 c.1 hgt hc.1
      unfold cellIdx at h l1 l2
      omega
  obtain ⟨k, a, b⟩ := c
  obtain ⟨k', a', b'⟩ := c'
  simp only at hk
  subst hk
  unfold cellIdx at h
  simp only at h
  have := lin_inj (regionDims g k).1 a b a' b' hc.2.1 hc'.2.1 (by omega)
  simp [this.1, this.2]

theorem cell_inRegion (g : Grid) (xyz : Nat × Nat × Nat) (hV : 2 ≤ g.pV) (hW : 2 ≤ g.pW)
    (h : OnSurface g xyz) : InRegion g (cell g xyz) := by
  obtain ⟨hx, hy, hz, hs⟩ := h
  unfold cell InRegion
  split_ifs <;> simp [regionDims] <;> omega

theorem cell_inj (g : Grid) (xyz xyz' : Nat × Nat × Nat)
    (hU : 2 ≤ g.pU) (hV : 2 ≤ g.pV) (hW : 2 ≤ g.pW)
    (hP : OnSurface g xyz) (hQ : OnSurface g xyz')
    (h : cell g xyz = cell g xyz') : xyz = xyz' := by
  obtain ⟨x, y, z⟩ := xyz
  obtain ⟨x', y', z'⟩ := xyz'
  obtain ⟨hx, hy, hz, hs⟩ := hP
  obtain ⟨hx', hy', hz', hs'⟩ := hQ
  simp only at hx hy hz hs hx' hy' hz' hs'
  unfold cell at h
  simp only at h
  simp only [Prod.mk.injEq]
  split_ifs at h <;> simp only [Prod.mk.injEq] at h <;> omega

theorem gridCoord_onSurface (g : Grid) (p : LPos)
    (hU : 2 ≤ g.pU) (hV : 2 ≤ g.pV) (hW : 2 ≤ g.pW) (hp : Valid g p) :
    OnSurface g (gridCoord g p) := by
  obtain ⟨pair, i, j, b⟩ := p
  cases pair <;> cases b <;> simp [Valid] at hp <;> simp [gridCoord, OnSurface] <;> omega

theorem usub_one_of_ne {j : Nat} (h : ¬ j = 0) : usub j 1 = j - 1 :=
  usub_of_le (by omega)

theorem ptIdx_eq_cellIdx (g : Grid) (p : LPos)
    (hU : 2 ≤ g.pU) (hV : 2 ≤ g.pV) (hW : 2 ≤ g.pW) (hp : Valid g p) :
    ptIdx g p = cellIdx g (cell g (gridCoord g p)) := by
  have e1U : usub g.pU 1 = g.pU - 1 := usub_of_le (by omega)
  have e1V : usub g.pV 1 = g.pV - 1 := usub_of_le (by omega)
  have e1W : usub g.pW 1 = g.pW - 1 := usub_of_le (by omega)
  have e2V : usub g.pV 2 = g.pV - 2 := usub_of_le (by omega)
  have e2W : usub g.pW 2 = g.pW - 2 := usub_of_le (by omega)
  have n1U : g.pU - 1 ≠ 0 := by omega
  have n1V : g.pV - 1 ≠ 0 := by omega
  have n1W : g.pW - 1 ≠ 0 := by omega
  have n1W' : 0 ≠ g.pW - 1 := by omega
  obtain ⟨pair, i, j, b⟩ := p
  cases pair <;> cases b <;> simp only [Valid] at hp <;>
    simp only [ptIdx, ptUV, ptUW, ptVW, gridCoord, cell, cellIdx, e1U, e1V, e1W, e2V, e2W,
      if_true, if_false, Bool.false_eq_true, n1U, n1V, n1W, n1W'] <;>
    (try split_ifs) <;>
    (try simp (disch := assumption) only [usub_one_of_ne]) <;>
    simp only [regionBase, regionDims] <;>
    (try simp) <;>
    first
      | omega
      | ring

theorem valid_of_enumerated (g : Grid) (p : LPos) (h : Enumerated g p) : Valid g p := by
  obtain ⟨pair, i, j, b⟩ := p
  cases pair <;> simp only [Enumerated] at h <;> simp only [Valid] <;> omega

theorem ptIdx_lt (g : Grid) (p : LPos)
    (hU : 2 ≤ g.pU) (hV : 2 ≤ g.pV) (hW : 2 ≤ g.pW) (hp : Valid g p) :
    ptIdx g p < g.nPts := by
  rw [ptIdx_eq_cellIdx g p hU hV hW hp]
  exact cellIdx_lt_nPts g _ (cell_inRegion g _ hV hW (gridCoord_onSurface g p hU hV hW hp))

theorem gridCoord_eq_of_ptIdx_eq (g : Grid) (p q : LPos)
    (hU : 2 ≤ g.pU) (hV : 2 ≤ g.pV) (hW : 2 ≤ g.pW) (hp : Valid g p) (hq : Valid g q)
    (h : ptIdx g p = ptIdx g q) : gridCoord g p = gridCoord g q := by
  rw [ptIdx_eq_cellIdx g p hU hV hW hp, ptIdx_eq_cellIdx g q hU hV hW hq] at h
  have sp := gridCoord_onSurface g p hU hV hW hp
  have sq := gridCoord_onSurface g q hU hV hW hq
  exact cell_inj g _ _ hU hV hW sp sq
    (cellIdx_inj g _ _ (cell_inRegion g _ hV hW sp) (cell_inRegion g _ hV hW sq) h)

theorem gridCoord_inj_enumerated (g : Grid) (p q : LPos)
    (hU : 2 ≤ g.pU) (hV : 2 ≤ g.pV) (hW : 2 ≤ g.pW)
    (hp : Enumerated g p) (hq : Enumerated g q)
    (h : gridCoord g p = gridCoord g q) : p = q := by
  obtain ⟨pair, i, j, b⟩ := p
  obtain ⟨pair', i', j', b'⟩ := q
  cases pair <;> cases pair' <;> cases b <;> cases b' <;>
    simp only [Enumerated] at hp hq <;>
    simp only [gridCoord, if_true, if_false, Bool.false_eq_true, Prod.mk.injEq] at h <;>
    first
      | (exfalso; omega)
      | (obtain ⟨h1, h2, h3⟩ := h
         simp only [LPos.mk.injEq, true_and, and_true]
         constructor <;> omega)

theorem ptIdx_inj_enumerated (g : Grid) (p q : LPos)
    (hU : 2 ≤ g.pU) (hV : 2 ≤ g.pV) (hW : 2 ≤ g.pW)
    (hp : Enumerated g p) (hq : Enumerated g q) (h : ptIdx g p = ptIdx g q) : p = q :=
  gridCoord_inj_enumerated g p q hU hV hW hp hq
    (gridCoord_eq_of_ptIdx_eq g p q hU hV hW (valid_of_enumerated g p hp)
      (valid_of_enumerated g q hq) h)

theorem mem_uvLoop (g : Grid) (b : Bool) (p : LPos) :
    p ∈ uvLoop g b ↔ p.pair = AxisPair.uv ∧ p.i < g.pU ∧ p.j < g.pV ∧ p.side = b := by
  obtain ⟨pair, i, j, s⟩ := p
  simp only [uvLoop, List.mem_flatMap, List.mem_map, List.mem_range, LPos.mk.injEq]
  constructor
  · rintro ⟨i', hi, j', hj, h1, h2, h3, h4⟩
    subst h2 h3
    exact ⟨h1.symm, hi, hj, h4.symm⟩
  · rintro ⟨h1, h2, h3, h4⟩
    exact ⟨i, h2, j, h3, h1.symm, rfl, rfl, h4.symm⟩

theorem mem_uwLoop (g : Grid) (b : Bool) (p : LPos) (hW : 1 ≤ g.pW) :
    p ∈ uwLoop g b ↔
      p.pair = AxisPair.uw ∧ p.i < g.pU ∧ (1 ≤ p.j ∧ p.j + 2 ≤ g.pW) ∧ p.side = b := by
  obtain ⟨pair, i, j, s⟩ := p
  simp only [uwLoop, List.mem_flatMap, List.mem_map, List.mem_range, List.Ico.mem,
    LPos.mk.injEq, usub_of_le hW]
  constructor
  · rintro ⟨i', hi, j', hj, h1, h2, h3, h4⟩
    subst h2 h3
    exact ⟨h1.symm, hi, by omega, h4.symm⟩
  · rintro ⟨h1, h2, h3, h4⟩
    exact ⟨i, h2, j, by omega, h1.symm, rfl, rfl, h4.symm⟩

theorem mem_vwLoop (g : Grid) (b : Bool) (p : LPos) (hV : 1 ≤ g.pV) (hW : 1 ≤ g.pW) :
    p ∈ vwLoop g b ↔
      p.pair = AxisPair.vw ∧ (1 ≤ p.i ∧ p.i + 2 ≤ g.pV) ∧ (1 ≤ p.j ∧ p.j + 2 ≤ g.pW)
        ∧ p.side = b := by
  obtain ⟨pair, i, j, s⟩ := p
  simp only [vwLoop, List.mem_flatMap, List.mem_map, List.Ico.mem,
    LPos.mk.injEq, usub_of_le hW, usub_of_le hV]
  constructor
  · rintro ⟨i', hi, j', hj, h1, h2, h3, h4⟩
    subst h2 h3
    exact ⟨h1.symm, by omega, by omega, h4.symm⟩
  · rintro ⟨h1, h2, h3, h4⟩
    exact ⟨i, by omega, j, by omega, h1.symm, rfl, rfl, h4.symm⟩

theorem mem_vertexPositions (g : Grid) (p : LPos) (hV : 1 ≤ g.pV) (hW : 1 ≤ g.pW) :
    p ∈ vertexPositions g ↔ Enumerated g p := by
  simp only [vertexPositions, List.mem_flatMap, List.mem_append, mem_uvLoop,
    mem_uwLoop g _ p hW, mem_vwLoop g _ p hV hW, List.mem_cons, List.mem_singleton,
    List.not_mem_nil, or_false]
  obtain ⟨pair, i, j, s⟩ := p
  cases pair <;> cases s <;> simp [Enumerated]

theorem nodup_flatMap_map {α β γ : Type} (l : List α) (m : List β) (f : α → β → γ)
    (hl : l.Nodup) (hm : m.Nodup)
    (hf : ∀ a b a' b', f a b = f a' b' → a = a' ∧ b = b') :
    (l.flatMap fun a => m.map (f a)).Nodup := by
  induction l with
  | nil => simp
  | cons a l ih =>
    rw [List.nodup_cons] at hl
    rw [List.flatMap_cons, List.nodup_append]
    refine ⟨hm.map (fun b b' h => (hf a b a b' h).2), ih hl.2, ?_⟩
    intro x hx hx'
    rw [List.mem_map] at hx
    rw [List.mem_flatMap] at hx'
    obtain ⟨b, _, rfl⟩ := hx
    obtain ⟨a', ha', hx'⟩ := hx'
    rw [List.mem_map] at hx'
    obtain ⟨b', _, h⟩ := hx'
    have := (hf a' b' a b h).1
    subst this
    exact hl.1 ha'

theorem nodup_vertexPositions (g : Grid) (hV : 1 ≤ g.pV) (hW : 1 ≤ g.pW) :
    (vertexPositions g).Nodup := by
  have inj : ∀ (pr : AxisPair) (s : Bool) (a b a' b' : Nat),
      (⟨pr, a, b, s⟩ : LPos) = ⟨pr, a', b', s⟩ → a = a' ∧ b = b' := by
    intro pr s a b a' b' h
    simp only [LPos.mk.injEq, true_and, and_true] at h
    exact h
  have n1 : ∀ b, (uvLoop g b).Nodup := fun b =>
    nodup_flatMap_map _ _ _ (List.nodup_range _) (List.nodup_range _) (inj AxisPair.uv b)
  have n2 : ∀ b, (uwLoop g b).Nodup := fun b =>
    nodup_flatMap_map _ _ _ (List.nodup_range _) (List.Ico.nodup _ _) (inj AxisPair.uw b)
  have n3 : ∀ b, (vwLoop g b).Nodup := fun b =>
    nodup_flatMap_map _ _ _ (List.Ico.nodup _ _) (List.Ico.nodup _ _) (inj AxisPair.vw b)
  have side : ∀ b, (uvLoop g b ++ uwLoop g b ++ vwLoop g b).Nodup := by
    intro b
    rw [List.nodup_append, List.nodup_append]
    refine ⟨⟨n1 b, n2 b, ?_⟩, n3 b, ?_⟩
    · intro p h1 h2
      rw [mem_uvLoop] at h1
      rw [mem_uwLoop g b p hW] at h2
      rw [h1.1] at h2
      exact absurd h2.1 (by decide)
    · intro p h1 h2
      rw [mem_vwLoop g b p hV hW] at h2
      rw [List.mem_append, mem_uvLoop, mem_uwLoop g b p hW] at h1
      rcases h1 with h1 | h1
      · rw [h1.1] at h2
        exact absurd h2.1 (by decide)
      · rw [h1.1] at h2
        exact absurd h2.1 (by decide)
  have sideOf : ∀ b p, p ∈ uvLoop g b ++ uwLoop g b ++ vwLoop g b → p.side = b := by
    intro b p hp
    rw [List.mem_append, List.mem_append, mem_uvLoop, mem_uwLoop g b p hW,
      mem_vwLoop g b p hV hW] at hp
    rcases hp with (hp | hp) | hp
    · exact hp.2.2.2
    · exact hp.2.2.2
    · exact hp.2.2.2
  simp only [vertexPositions, List.flatMap_cons, List.flatMap_nil, List.append_nil]
  rw [List.nodup_append]
  refine ⟨side true, side false, ?_⟩
  intro p h1 h2
  have e1 := sideOf true p h1
  have e2 := sideOf false p h2
  rw [e1] at e2
  exact absurd e2 (by decide)

theorem perm_range_of_nodup (l : List Nat) (n : Nat) (hnd : l.Nodup)
    (hlt : ∀ x ∈ l, x < n) (hlen : l.length = n) : l.Perm (List.range n) := by
  apply List.perm_of_nodup_nodup_toFinset_eq hnd (List.nodup_range n)
  apply Finset.eq_of_subset_of_card_le
  · intro x hx
    rw [List.mem_toFinset] at hx
    simpa using hlt x hx
  · rw [List.toFinset_card_of_nodup hnd, List.toFinset_card_of_nodup (List.nodup_range n)]
    simp [hlen]

theorem grid_nPts_eq_length (g : Grid) (hV : 2 ≤ g.pV) (hW : 2 ≤ g.pW) :
    (vertexPositions g).length = g.nPts := by
  rw [length_vertexPositions, usub_of_le (by omega : 1 ≤ g.pV),
    usub_of_le (by omega : 1 ≤ g.pW)]
  have e1 : g.pW - 1 - 1 = g.pW - 2 := by omega
  have e2 : g.pV - 1 - 1 = g.pV - 2 := by omega
  rw [e1, e2]
  unfold Grid.nPts
  ring

theorem indexerBijection_grid (g : Grid) (hU : 2 ≤ g.pU) (hV : 2 ≤ g.pV) (hW : 2 ≤ g.pW) :
    IndexerBijection g g.nPts := by
  have hmem := fun p => mem_vertexPositions g p (by omega) (by omega)
  have hnd := nodup_vertexPositions g (by omega) (by omega)
  have hinj := fun p q => ptIdx_inj_enumerated g p q hU hV hW
  have hperm : ((vertexPositions g).map (ptIdx g)).Perm (List.range g.nPts) := by
    apply perm_range_of_nodup
    · apply hnd.map_on
      intro p hp q hq h
      exact hinj p q ((hmem p).mp hp) ((hmem q).mp hq) h
    · intro x hx
      rw [List.mem_map] at hx
      obtain ⟨p, hp, rfl⟩ := hx
      exact ptIdx_lt g p hU hV hW (valid_of_enumerated g p ((hmem p).mp hp))
    · rw [List.length_map, grid_nPts_eq_length g hV hW]
  refine ⟨hmem, hnd, hinj, ?_, hperm⟩
  intro k hk
  have hk' : k ∈ (vertexPositions g).map (ptIdx g) := by
    rw [hperm.mem_iff]
    exact List.mem_range.mpr hk
  rw [List.mem_map] at hk'
  obtain ⟨p, hp, rfl⟩ := hk'
  refine ⟨p, ⟨(hmem p).mp hp, rfl⟩, ?_⟩
  rintro q ⟨hq, hqk⟩
  exact hinj q p hq ((hmem p).mp hp) hqk

/-- C6: at each resolution of an object built from template counts `≥ 1` and `r ≥ 1`, the point
indexer (`uvPt`, `uwPt`, `vwPt` at refined resolution, `uvtPt`, `uwtPt`, `vwtPt` at template
resolution, as modelled from the specification), restricted to the logical positions
`mkVertexData` enumerates, maps distinct positions to distinct offsets and hits every offset
of `[0, nPts)` (resp. `[0, ntPts)`) exactly once: the written offsets are a rearrangement of
`0, ..., nPts - 1`, and each offset determines its logical position. -/
theorem indexers_bijective (ntU ntV ntW r : Nat) (d : DispObject)
    (hU : 1 ≤ ntU) (hV : 1 ≤ ntV) (hW : 1 ≤ ntW) (hr : 1 ≤ r)
    (hd : d = mkDispObject ntU ntV ntW r r r) :
    IndexerBijection d.grid d.nPts ∧ IndexerBijection d.tgrid d.ntPts := by
  subst hd
  have hU2 : 1 ≤ r * ntU := Nat.mul_pos hr hU
  have hV2 : 1 ≤ r * ntV := Nat.mul_pos hr hV
  have hW2 : 1 ≤ r * ntW := Nat.mul_pos hr hW
  have e1 : (mkDispObject ntU ntV ntW r r r).nPts = (mkDispObject ntU ntV ntW r r r).grid.nPts := by
    simp only [mkDispObject, DispObject.grid, Grid.nPts]
    rw [usub_of_le (by omega), usub_of_le (by omega)]
  have e2 : (mkDispObject ntU ntV ntW r r r).ntPts
      = (mkDispObject ntU ntV ntW r r r).tgrid.nPts := by
    simp only [mkDispObject, DispObject.tgrid, Grid.nPts]
    rw [usub_of_le (by omega), usub_of_le (by omega)]
  rw [e1, e2]
  constructor
  · apply indexerBijection_grid <;> simp only [mkDispObject, DispObject.grid] <;> omega
  · apply indexerBijection_grid <;> simp only [mkDispObject, DispObject.tgrid] <;> omega

/-- Witness for C6: the object the source builds, 378 refined and 96 template points. -/
theorem indexers_bijective_witness :
    IndexerBijection (mkDispObject 3 4 5 2 2 2).grid 378
    ∧ IndexerBijection (mkDispObject 3 4 5 2 2 2).tgrid 96 :=
  indexers_bijective 3 4 5 2 (mkDispObject 3 4 5 2 2 2) (by decide) (by decide) (by decide)
    (by decide) rfl

/-! ## `mkFaceData`: every quad is well formed -/

theorem writeAll_cons {α : Type} (init : List α) (w : Nat × α) (ws : List (Nat × α)) :
    writeAll init (w :: ws) = writeAll (init.set w.1 w.2) ws := rfl

theorem writeAll_getElem?_of_not_written {α : Type} (ws : List (Nat × α)) (init : List α)
    (k : Nat) (h : ∀ w ∈ ws, w.1 ≠ k) : (writeAll init ws)[k]? = init[k]? := by
  induction ws generalizing init with
  | nil => rfl
  | cons w ws ih =>
    rw [writeAll_cons, ih _ (fun w' hw' => h w' (List.mem_cons_of_mem _ hw'))]
    exact List.getElem?_set_ne (h w (List.mem_cons_self _ _))

theorem writeAll_getElem?_of_written {α : Type} (ws : List (Nat × α)) (init : List α)
    (k : Nat) (hk : k < init.length) (h : ∃ w ∈ ws, w.1 = k) :
    ∃ w ∈ ws, w.1 = k ∧ (writeAll init ws)[k]? = some w.2 := by
  induction ws generalizing init with
  | nil =>
    obtain ⟨w, hw, _⟩ := h
    exact absurd hw (List.not_mem_nil _)
  | cons w ws ih =>
    rw [writeAll_cons]
    by_cases h' : ∃ w' ∈ ws, w'.1 = k
    · obtain ⟨w', hw', e1, e2⟩ := ih (init.set w.1 w.2) (by simpa using hk) h'
      exact ⟨w', List.mem_cons_of_mem _ hw', e1, e2⟩
    · have hne : ∀ w' ∈ ws, w'.1 ≠ k := fun w' hw' e => h' ⟨w', hw', e⟩
      obtain ⟨w0, hw0, e0⟩ := h
      rcases List.mem_cons.mp hw0 with rfl | hin
      · refine ⟨w0, List.mem_cons_self _ _, e0, ?_⟩
        rw [writeAll_getElem?_of_not_written ws _ k hne, ← e0]
        exact List.getElem?_set_self (by omega)
      · exact absurd e0 (hne w0 hin)

theorem goodQuad_corners (g : Grid) (pair : AxisPair) (i j : Nat) (b : Bool)
    (hU : 2 ≤ g.pU) (hV : 2 ≤ g.pV) (hW : 2 ≤ g.pW)
    (hv : Valid g ⟨pair, i + 1, j + 1, b⟩) :
    GoodQuad g.nPts ⟨ptIdx g ⟨pair, i, j, b⟩, ptIdx g ⟨pair, i + 1, j, b⟩,
      ptIdx g ⟨pair, i + 1, j + 1, b⟩, ptIdx g ⟨pair, i, j + 1, b⟩⟩ := by
  have v0 : Valid g ⟨pair, i, j, b⟩ := by
    cases pair <;> simp only [Valid] at hv ⊢ <;> omega
  have v1 : Valid g ⟨pair, i + 1, j, b⟩ := by
    cases pair <;> simp only [Valid] at hv ⊢ <;> omega
  have v3 : Valid g ⟨pair, i, j + 1, b⟩ := by
    cases pair <;> simp only [Valid] at hv ⊢ <;> omega
  have ne : ∀ i1 j1 i2 j2, Valid g ⟨pair, i1, j1, b⟩ → Valid g ⟨pair, i2, j2, b⟩ →
      (i1 ≠ i2 ∨ j1 ≠ j2) → ptIdx g ⟨pair, i1, j1, b⟩ ≠ ptIdx g ⟨pair, i2, j2, b⟩ := by
    intro i1 j1 i2 j2 h1 h2 hne h
    have hc := gridCoord_eq_of_ptIdx_eq g _ _ hU hV hW h1 h2 h
    cases pair <;> simp only [gridCoord, Prod.mk.injEq] at hc <;> omega
  refine ⟨⟨ptIdx_lt g _ hU hV hW v0, ptIdx_lt g _ hU hV hW v1, ptIdx_lt g _ hU hV hW hv,
    ptIdx_lt g _ hU hV hW v3⟩, ?_, ?_, ?_, ?_, ?_, ?_⟩
  · exact ne _ _ _ _ v0 v1 (by omega)
  · exact ne _ _ _ _ v0 hv (by omega)
  · exact ne _ _ _ _ v0 v3 (by omega)
  · exact ne _ _ _ _ v1 hv (by omega)
  · exact ne _ _ _ _ v1 v3 (by omega)
  · exact ne _ _ _ _ hv v3 (by omega)

theorem mem_faceWrites (d : DispObject) (w : Nat × Quad) :
    w ∈ faceWrites d ↔
      ∃ pair i j b, i < (cells d pair).1 ∧ j < (cells d pair).2
        ∧ (elIdx d pair i j b, quadAt d.grid pair i j b) = w := by
  constructor
  · intro h
    simp only [faceWrites, List.flatMap_cons, List.flatMap_nil, List.append_nil,
      List.mem_append, faceLoopUV, faceLoopUW, faceLoopVW, List.mem_flatMap, List.mem_map,
      List.mem_range] at h
    rcases h with ((⟨i, hi, j, hj, e⟩ | ⟨i, hi, j, hj, e⟩) | ⟨i, hi, j, hj, e⟩)
      | ((⟨i, hi, j, hj, e⟩ | ⟨i, hi, j, hj, e⟩) | ⟨i, hi, j, hj, e⟩)
    · exact ⟨AxisPair.uv, i, j, true, hi, hj, e⟩
    · exact ⟨AxisPair.uw, i, j, true, hi, hj, e⟩
    · exact ⟨AxisPair.vw, i, j, true, hi, hj, e⟩
    · exact ⟨AxisPair.uv, i, j, false, hi, hj, e⟩
    · exact ⟨AxisPair.uw, i, j, false, hi, hj, e⟩
    · exact ⟨AxisPair.vw, i, j, false, hi, hj, e⟩
  · rintro ⟨pair, i, j, b, hi, hj, e⟩
    simp only [faceWrites, List.flatMap_cons, List.flatMap_nil, List.append_nil,
      List.mem_append, faceLoopUV, faceLoopUW, faceLoopVW, List.mem_flatMap, List.mem_map,
      List.mem_range]
    cases pair <;> cases b
    · exact Or.inr (Or.inl (Or.inl ⟨i, hi, j, hj, e⟩))
    · exact Or.inl (Or.inl (Or.inl ⟨i, hi, j, hj, e⟩))
    · exact Or.inr (Or.inl (Or.inr ⟨i, hi, j, hj, e⟩))
    · exact Or.inl (Or.inl (Or.inr ⟨i, hi, j, hj, e⟩))
    · exact Or.inr (Or.inr ⟨i, hi, j, hj, e⟩)
    · exact Or.inl (Or.inr ⟨i, hi, j, hj, e⟩)

theorem region_decomp (n m base k : Nat) (hn : 0 < n) (h1 : base ≤ k) (h2 : k < base + n * m) :
    ∃ i j, i < n ∧ j < m ∧ base + i + n * j = k := by
  refine ⟨(k - base) % n, (k - base) / n, Nat.mod_lt _ hn, ?_, ?_⟩
  · rw [Nat.div_lt_iff_lt_mul hn, Nat.mul_comm]
    omega
  · have := Nat.mod_add_div (k - base) n
    omega

theorem elIdx_lt (d : DispObject) (pair : AxisPair) (i j : Nat) (b : Bool)
    (hE : d.nElems = 2 * d.nU * d.nV + 2 * d.nU * d.nW + 2 * d.nV * d.nW)
    (hi : i < (cells d pair).1) (hj : j < (cells d pair).2) :
    elIdx d pair i j b < d.nElems := by
  rw [hE]
  cases pair <;> cases b <;>
    simp only [cells] at hi hj <;>
    simp only [elIdx, uvEl, uwEl, vwEl, if_true, if_false, Bool.false_eq_true,
      Nat.mul_assoc]
  all_goals
    have hb := lin_lt _ _ i j hi hj
    omega

theorem elIdx_surj (d : DispObject) (k : Nat)
    (hE : d.nElems = 2 * d.nU * d.nV + 2 * d.nU * d.nW + 2 * d.nV * d.nW)
    (hU : 0 < d.nU) (hV : 0 < d.nV) (hk : k < d.nElems) :
    ∃ pair i j b, i < (cells d pair).1 ∧ j < (cells d pair).2 ∧ elIdx d pair i j b = k := by
  rw [hE] at hk
  simp only [Nat.mul_assoc] at hk
  by_cases c1 : k < d.nU * d.nV
  · obtain ⟨i, j, hi, hj, e⟩ := region_decomp d.nU d.nV 0 k hU (by omega) (by omega)
    exact ⟨AxisPair.uv, i, j, false, hi, hj, by simp [elIdx, uvEl]; omega⟩
  by_cases c2 : k < 2 * (d.nU * d.nV)
  · obtain ⟨i, j, hi, hj, e⟩ := region_decomp d.nU d.nV (d.nU * d.nV) k hU (by omega)
      (by omega)
    exact ⟨AxisPair.uv, i, j, true, hi, hj, by simp [elIdx, uvEl]; omega⟩
  by_cases c3 : k < 2 * (d.nU * d.nV) + d.nU * d.nW
  · obtain ⟨i, j, hi, hj, e⟩ := region_decomp d.nU d.nW (2 * (d.nU * d.nV)) k hU (by omega)
      (by omega)
    exact ⟨AxisPair.uw, i, j, false, hi, hj, by simp [elIdx, uwEl, Nat.mul_assoc]; omega⟩
  by_cases c4 : k < 2 * (d.nU * d.nV) + 2 * (d.nU * d.nW)
  · obtain ⟨i, j, hi, hj, e⟩ := region_decomp d.nU d.nW (2 * (d.nU * d.nV) + d.nU * d.nW) k hU
      (by omega) (by omega)
    exact ⟨AxisPair.uw, i, j, true, hi, hj, by simp [elIdx, uwEl, Nat.mul_assoc]; omega⟩
  by_cases c5 : k < 2 * (d.nU * d.nV) + 2 * (d.nU * d.nW) + d.nV * d.nW
  · obtain ⟨i, j, hi, hj, e⟩ := region_decomp d.nV d.nW
      (2 * (d.nU * d.nV) + 2 * (d.nU * d.nW)) k hV (by omega) (by omega)
    exact ⟨AxisPair.vw, i, j, false, hi, hj, by simp [elIdx, vwEl, Nat.mul_assoc]; omega⟩
  · obtain ⟨i, j, hi, hj, e⟩ := region_decomp d.nV d.nW
      (2 * (d.nU * d.nV) + 2 * (d.nU * d.nW) + d.nV * d.nW) k hV (by omega) (by omega)
    exact ⟨AxisPair.vw, i, j, true, hi, hj, by simp [elIdx, vwEl, Nat.mul_assoc]; omega⟩

/-- C5: for template counts `≥ 1` and `r ≥ 1`, with the indexers as modelled from the
specification: `faceData` has length `nElems`; every assignment of `mkFaceData` writes a slot
below `nElems` and a quad whose four vertex indices are below `nPts` and pairwise distinct;
every slot of `[0, nElems)` is written; hence every quad stored in `faceData` has four indices
below `nPts`, pairwise distinct. -/
theorem faceData_quads_wellformed (ntU ntV ntW r : Nat) (d : DispObject)
    (hU : 1 ≤ ntU) (hV : 1 ≤ ntV) (hW : 1 ≤ ntW) (hr : 1 ≤ r)
    (hd : d = mkDispObject ntU ntV ntW r r r) :
    (mkFaceData d).length = d.nElems
    ∧ (∀ w ∈ faceWrites d, w.1 < d.nElems ∧ GoodQuad d.nPts w.2)
    ∧ (∀ k, k < d.nElems → ∃ w ∈ faceWrites d, w.1 = k)
    ∧ (∀ q ∈ mkFaceData d, GoodQuad d.nPts q) := by
  have hU2 : 1 ≤ r * ntU := Nat.mul_pos hr hU
  have hV2 : 1 ≤ r * ntV := Nat.mul_pos hr hV
  have hW2 : 1 ≤ r * ntW := Nat.mul_pos hr hW
  have hE : d.nElems = 2 * d.nU * d.nV + 2 * d.nU * d.nW + 2 * d.nV * d.nW := by
    subst hd; rfl
  have hnU : d.nU = r * ntU := by subst hd; rfl
  have hnV : d.nV = r * ntV := by subst hd; rfl
  have hnW : d.nW = r * ntW := by subst hd; rfl
  have hgU : d.grid.pU = d.nU + 1 := by subst hd; rfl
  have hgV : d.grid.pV = d.nV + 1 := by subst hd; rfl
  have hgW : d.grid.pW = d.nW + 1 := by subst hd; rfl
  have hP : d.nPts = d.grid.nPts := by
    subst hd
    simp only [mkDispObject, DispObject.grid, Grid.nPts]
    rw [usub_of_le (by omega), usub_of_le (by omega)]
  have hlen : (mkFaceData d).length = d.nElems := by
    simp only [mkFaceData, length_writeAll, List.length_replicate]
  have hgood : ∀ w ∈ faceWrites d, w.1 < d.nElems ∧ GoodQuad d.nPts w.2 := by
    intro w hw
    obtain ⟨pair, i, j, b, hi, hj, rfl⟩ := (mem_faceWrites d w).mp hw
    refine ⟨elIdx_lt d pair i j b hE hi hj, ?_⟩
    rw [hP]
    apply goodQuad_corners <;> try omega
    cases pair <;> simp only [cells] at hi hj <;> simp only [Valid] <;> omega
  have hsurj : ∀ k, k < d.nElems → ∃ w ∈ faceWrites d, w.1 = k := by
    intro k hk
    obtain ⟨pair, i, j, b, hi, hj, e⟩ := elIdx_surj d k hE (by omega) (by omega) hk
    exact ⟨_, (mem_faceWrites d _).mpr ⟨pair, i, j, b, hi, hj, rfl⟩, e⟩
  refine ⟨hlen, hgood, hsurj, ?_⟩
  intro q hq
  obtain ⟨k, hk⟩ := List.mem_iff_getElem?.mp hq
  have hk' : k < d.nElems := by
    rw [← hlen]
    by_contra hge
    rw [List.getElem?_eq_none (by omega)] at hk
    exact absurd hk (by simp)
  obtain ⟨w, hw, _, e2⟩ := writeAll_getElem?_of_written (faceWrites d)
    (List.replicate d.nElems ⟨0, 0, 0, 0⟩) k (by simpa using hk') (hsurj k hk')
  have : q = w.2 := by
    unfold mkFaceData at hk
    rw [e2] at hk
    exact (Option.some.inj hk).symm
  rw [this]
  exact (hgood w hw).2

/-- Witness for C5: the object the source builds, 376 quads over 378 vertices. -/
theorem faceData_quads_wellformed_witness :
    (mkFaceData (mkDispObject 3 4 5 2 2 2)).length = 376
    ∧ (∀ q ∈ mkFaceData (mkDispObject 3 4 5 2 2 2), GoodQuad 378 q) := by
  have h := faceData_quads_wellformed 3 4 5 2 (mkDispObject 3 4 5 2 2 2) (by decide)
    (by decide) (by decide) (by decide) rfl
  exact ⟨h.1, h.2.2.2⟩

/-! ## The vertex arrays hold, at every indexed slot, the vertex of that logical position -/

theorem lpt_zero (N : Nat) : lpt 0 N = -1 := by
  simp [lpt]

theorem lpt_last (N : Nat) (hN : 2 ≤ N) : lpt (N - 1) N = 1 := by
  unfold lpt
  rw [usub_of_le (by omega)]
  have h : ((N - 1 : Nat) : ℚ) ≠ 0 := by
    have : 0 < N - 1 := by omega
    exact_mod_cast this.ne'
  rw [div_self h]
  norm_num

theorem localPt_eq_coordPt (g : Grid) (p : LPos)
    (hU : 2 ≤ g.pU) (hV : 2 ≤ g.pV) (hW : 2 ≤ g.pW) :
    localPt g p = coordPt g (gridCoord g p) := by
  obtain ⟨pair, i, j, b⟩ := p
  cases pair <;> cases b <;>
    simp [localPt, coordPt, gridCoord, sideCoord, lpt_zero, lpt_last, hU, hV, hW]

theorem canonPos_spec (g : Grid) (xyz : Nat × Nat × Nat)
    (hU : 2 ≤ g.pU) (hV : 2 ≤ g.pV) (hW : 2 ≤ g.pW) (h : OnSurface g xyz) :
    Enumerated g (canonPos g xyz) ∧ gridCoord g (canonPos g xyz) = xyz := by
  obtain ⟨x, y, z⟩ := xyz
  obtain ⟨hx, hy, hz, hs⟩ := h
  simp only at hx hy hz hs
  unfold canonPos
  simp only
  split_ifs with h1 h2 h3 h4 h5 <;> constructor
  all_goals
    first
      | (simp only [Enumerated]; omega)
      | (simp only [gridCoord, if_true, if_false, Bool.false_eq_true, Prod.mk.injEq,
           true_and, and_true]
         omega)

theorem ptIdx_eq_of_gridCoord_eq (g : Grid) (p q : LPos)
    (hU : 2 ≤ g.pU) (hV : 2 ≤ g.pV) (hW : 2 ≤ g.pW) (hp : Valid g p) (hq : Valid g q)
    (h : gridCoord g p = gridCoord g q) : ptIdx g p = ptIdx g q := by
  rw [ptIdx_eq_cellIdx g p hU hV hW hp, ptIdx_eq_cellIdx g q hU hV hW hq, h]

theorem writeAll_getElem?_of_nodup {α : Type} (ws : List (Nat × α)) (init : List α)
    (w : Nat × α) (hnd : (ws.map Prod.fst).Nodup) (hw : w ∈ ws) (hk : w.1 < init.length) :
    (writeAll init ws)[w.1]? = some w.2 := by
  obtain ⟨w', hw', e1, e2⟩ := writeAll_getElem?_of_written ws init w.1 hk ⟨w, hw, rfl⟩
  have : w' = w := List.inj_on_of_nodup_map hnd hw' hw e1
  rw [e2, this]

/-- Both blocks of `mkVertexData` have the form below: a vector of `g.nPts` null vectors in
which each enumerated position `p` is assigned `f (local coordinate of p)` at its offset.
Afterwards the slot of every position the indexers can be called with, boundary rows
included, holds the value of the vertex at that position. -/
theorem writeAll_vertex_getD (g : Grid) (f : Vec3 → Vec3) (p : LPos)
    (hU : 2 ≤ g.pU) (hV : 2 ≤ g.pV) (hW : 2 ≤ g.pW) (hp : Valid g p) :
    (writeAll (List.replicate g.nPts Vec3.zero)
        ((vertexPositions g).map fun q => (ptIdx g q, f (localPt g q)))).getD
      (ptIdx g p) Vec3.zero = f (localPt g p) := by
  have hb := indexerBijection_grid g hU hV hW
  obtain ⟨hmem, _, _, _, hperm⟩ := hb
  have hs := gridCoord_onSurface g p hU hV hW hp
  obtain ⟨hen, hgc⟩ := canonPos_spec g _ hU hV hW hs
  have hv := valid_of_enumerated g _ hen
  have hidx : ptIdx g (canonPos g (gridCoord g p)) = ptIdx g p :=
    ptIdx_eq_of_gridCoord_eq g _ _ hU hV hW hv hp hgc
  have hloc : localPt g (canonPos g (gridCoord g p)) = localPt g p := by
    rw [localPt_eq_coordPt g _ hU hV hW, localPt_eq_coordPt g p hU hV hW, hgc]
  have hnd : (((vertexPositions g).map fun q => (ptIdx g q, f (localPt g q))).map
      Prod.fst).Nodup := by
    rw [List.map_map]
    exact (hperm.nodup_iff.mpr (List.nodup_range _))
  have hin : (ptIdx g (canonPos g (gridCoord g p)), f (localPt g (canonPos g (gridCoord g p))))
      ∈ (vertexPositions g).map fun q => (ptIdx g q, f (localPt g q)) :=
    List.mem_map.mpr ⟨_, (hmem _).mpr hen, rfl⟩
  have hlt : ptIdx g p < (List.replicate g.nPts Vec3.zero).length := by
    rw [List.length_replicate]
    exact ptIdx_lt g p hU hV hW hp
  have key := writeAll_getElem?_of_nodup _ (List.replicate g.nPts Vec3.zero) _ hnd hin
    (by simpa [hidx] using hlt)
  simp only [hidx, hloc] at key
  rw [List.getD_eq_getElem?_getD, key]
  rfl

/-- The refined vertex array holds `center + local coordinate` at the offset of every
logical position of every face, and the line vertex array holds
`center + 1.001 * local coordinate`. -/
theorem mkVertexData_getD (ntU ntV ntW r : Nat) (d : DispObject) (center : Vec3)
    (hU : 1 ≤ ntU) (hV : 1 ≤ ntV) (hW : 1 ≤ ntW) (hr : 1 ≤ r)
    (hd : d = mkDispObject ntU ntV ntW r r r) :
    (∀ p, Valid d.grid p →
      (mkVertexData d center).1.getD (ptIdx d.grid p) Vec3.zero
        = center.add (localPt d.grid p))
    ∧ (∀ p, Valid d.tgrid p →
      (mkVertexData d center).2.getD (ptIdx d.tgrid p) Vec3.zero
        = center.add (Vec3.smul (1001 / 1000) (localPt d.tgrid p))) := by
  subst hd
  have hU2 : 1 ≤ r * ntU := Nat.mul_pos hr hU
  have hV2 : 1 ≤ r * ntV := Nat.mul_pos hr hV
  have hW2 : 1 ≤ r * ntW := Nat.mul_pos hr hW
  have e1 : (mkDispObject ntU ntV ntW r r r).nPts = (mkDispObject ntU ntV ntW r r r).grid.nPts := by
    simp only [mkDispObject, DispObject.grid, Grid.nPts]
    rw [usub_of_le (by omega), usub_of_le (by omega)]
  have e2 : (mkDispObject ntU ntV ntW r r r).ntPts
      = (mkDispObject ntU ntV ntW r r r).tgrid.nPts := by
    simp only [mkDispObject, DispObject.tgrid, Grid.nPts]
    rw [usub_of_le (by omega), usub_of_le (by omega)]
  constructor
  · intro p hp
    simp only [mkVertexData, vertexWrites, e1]
    exact writeAll_vertex_getD _ (fun v => center.add v) p
      (by simp only [mkDispObject, DispObject.grid]; omega)
      (by simp only [mkDispObject, DispObject.grid]; omega)
      (by simp only [mkDispObject, DispObject.grid]; omega) hp
  · intro p hp
    simp only [mkVertexData, vertexLineWrites, e2]
    exact writeAll_vertex_getD _ (fun v => center.add (Vec3.smul (1001 / 1000) v)) p
      (by simp only [mkDispObject, DispObject.tgrid]; omega)
      (by simp only [mkDispObject, DispObject.tgrid]; omega)
      (by simp only [mkDispObject, DispObject.tgrid]; omega) hp

/-! ## Winding of the quads -/

theorem lpt_succ_sub (i N : Nat) (hN : 2 ≤ N) :
    lpt (i + 1) N - lpt i N = 2 / ((N : ℚ) - 1) ∧ 0 < 2 / ((N : ℚ) - 1) := by
  have e : ((usub N 1 : Nat) : ℚ) = (N : ℚ) - 1 := by
    rw [usub_of_le (by omega)]
    push_cast [Nat.cast_sub (by omega : 1 ≤ N)]
    ring
  have hpos : (0 : ℚ) < (N : ℚ) - 1 := by
    have : (2 : ℚ) ≤ (N : ℚ) := by exact_mod_cast hN
    linarith
  constructor
  · unfold lpt
    rw [e]
    push_cast
    field_simp
    ring
  · positivity

/-- C7 (amended): every quad `mkFaceData` stores has the same corner order on both sides of
its axis-pair: `(P1 - P0) x (P3 - P0)` is a positive multiple of `+z` for U x V, of `-y` for
U x W and of `+x` for V x W, whatever the side `b`.  That direction is the outward normal of
the face when `b` is the outward side of the pair (`true` for U x V and V x W, `false` for
U x W), and the inward normal on the opposite face.  Here `P0, P1, P3` are the positions of
the logical corners `(i, j)`, `(i+1, j)`, `(i, j+1)`; for the cells `mkFaceData` visits they
are the entries of `vertexData` at the first, second and fourth index of the stored quad. -/
theorem quad_winding (ntU ntV ntW r : Nat) (d : DispObject) (center : Vec3)
    (pair : AxisPair) (i j : Nat) (b : Bool)
    (hU : 1 ≤ ntU) (hV : 1 ≤ ntV) (hW : 1 ≤ ntW) (hr : 1 ≤ r)
    (hd : d = mkDispObject ntU ntV ntW r r r) :
    (∃ k : ℚ, 0 < k ∧ quadNormal d.grid center pair i j b = Vec3.smul k (windingAxis pair))
    ∧ (b = outwardSide pair → windingAxis pair = outwardNormal pair b)
    ∧ (b ≠ outwardSide pair → windingAxis pair = Vec3.smul (-1) (outwardNormal pair b))
    ∧ (i < (cells d pair).1 → j < (cells d pair).2 →
        (((mkVertexData d center).1.getD (quadAt d.grid pair i j b).b Vec3.zero).sub
            ((mkVertexData d center).1.getD (quadAt d.grid pair i j b).a Vec3.zero)).cross
          (((mkVertexData d center).1.getD (quadAt d.grid pair i j b).d Vec3.zero).sub
            ((mkVertexData d center).1.getD (quadAt d.grid pair i j b).a Vec3.zero))
        = quadNormal d.grid center pair i j b) := by
  have hlink := (mkVertexData_getD ntU ntV ntW r d center hU hV hW hr hd).1
  subst hd
  have hU2 : 1 ≤ r * ntU := Nat.mul_pos hr hU
  have hV2 : 1 ≤ r * ntV := Nat.mul_pos hr hV
  have hW2 : 1 ≤ r * ntW := Nat.mul_pos hr hW
  obtain ⟨eU, pU⟩ := lpt_succ_sub i (r * ntU + 1) (by omega)
  obtain ⟨eVi, pVi⟩ := lpt_succ_sub i (r * ntV + 1) (by omega)
  obtain ⟨eVj, pVj⟩ := lpt_succ_sub j (r * ntV + 1) (by omega)
  obtain ⟨eWj, pWj⟩ := lpt_succ_sub j (r * ntW + 1) (by omega)
  refine ⟨?_, ?_, ?_, ?_⟩
  · cases pair
    · refine ⟨2 / (((r * ntU + 1 : Nat) : ℚ) - 1) * (2 / (((r * ntV + 1 : Nat) : ℚ) - 1)),
        mul_pos pU pVj, ?_⟩
      simp only [quadNormal, localPt, mkDispObject, DispObject.grid, Vec3.add, Vec3.sub,
        Vec3.cross, Vec3.smul, windingAxis, Vec3.mk.injEq]
      refine ⟨by ring, by ring, ?_⟩
      rw [← eU, ← eVj]
      ring
    · refine ⟨2 / (((r * ntU + 1 : Nat) : ℚ) - 1) * (2 / (((r * ntW + 1 : Nat) : ℚ) - 1)),
        mul_pos pU pWj, ?_⟩
      simp only [quadNormal, localPt, mkDispObject, DispObject.grid, Vec3.add, Vec3.sub,
        Vec3.cross, Vec3.smul, windingAxis, Vec3.mk.injEq]
      refine ⟨by ring, ?_, by ring⟩
      rw [← eU, ← eWj]
      ring
    · refine ⟨2 / (((r * ntV + 1 : Nat) : ℚ) - 1) * (2 / (((r * ntW + 1 : Nat) : ℚ) - 1)),
        mul_pos pVi pWj, ?_⟩
      simp only [quadNormal, localPt, mkDispObject, DispObject.grid, Vec3.add, Vec3.sub,
        Vec3.cross, Vec3.smul, windingAxis, Vec3.mk.injEq]
      refine ⟨?_, by ring, by ring⟩
      rw [← eVi, ← eWj]
      ring
  · intro hb
    subst hb
    cases pair <;> simp [windingAxis, outwardNormal, outwardSide, sideCoord]
  · intro hb
    cases pair <;> cases b <;>
      simp [windingAxis, outwardNormal, outwardSide, sideCoord, Vec3.smul] at hb ⊢
  · intro hi hj
    have v0 : Valid (mkDispObject ntU ntV ntW r r r).grid ⟨pair, i, j, b⟩ := by
      cases pair <;> simp only [cells, mkDispObject] at hi hj <;>
        simp only [Valid, mkDispObject, DispObject.grid] <;> omega
    have v1 : Valid (mkDispObject ntU ntV ntW r r r).grid ⟨pair, i + 1, j, b⟩ := by
      cases pair <;> simp only [cells, mkDispObject] at hi hj <;>
        simp only [Valid, mkDispObject, DispObject.grid] <;> omega
    have v3 : Valid (mkDispObject ntU ntV ntW r r r).grid ⟨pair, i, j + 1, b⟩ := by
      cases pair <;> simp only [cells, mkDispObject] at hi hj <;>
        simp only [Valid, mkDispObject, DispObject.grid] <;> omega
    simp only [quadAt, hlink _ v0, hlink _ v1, hlink _ v3]
    rfl

/-- Witness for C7 (amended): the first quad of the far U x V side of the object the source
builds. -/
theorem quad_winding_witness :
    ∃ k : ℚ, 0 < k ∧ quadNormal (mkDispObject 3 4 5 2 2 2).grid ⟨0, 0, 0⟩ AxisPair.uv 0 0 true
      = Vec3.smul k (windingAxis AxisPair.uv) :=
  (quad_winding 3 4 5 2 (mkDispObject 3 4 5 2 2 2) ⟨0, 0, 0⟩ AxisPair.uv 0 0 true (by decide)
    (by decide) (by decide) (by decide) rfl).1

/-- C7 fails as stated: on the near U x V face (`b = false`) of the object the source builds,
`(P1 - P0) x (P3 - P0)` of the first quad is `(0, 0, 1/12)`, which is not a positive multiple of
the outward normal `(0, 0, -1)`. -/
theorem quad_winding_counterexample :
    quadNormal (mkDispObject 3 4 5 2 2 2).grid ⟨0, 0, 0⟩ AxisPair.uv 0 0 false = ⟨0, 0, 1 / 12⟩
    ∧ outwardNormal AxisPair.uv false = ⟨0, 0, -1⟩
    ∧ ¬ ∃ k : ℚ, 0 < k ∧ quadNormal (mkDispObject 3 4 5 2 2 2).grid ⟨0, 0, 0⟩ AxisPair.uv 0 0
        false = Vec3.smul k (outwardNormal AxisPair.uv false) := by
  have e : quadNormal (mkDispObject 3 4 5 2 2 2).grid ⟨0, 0, 0⟩ AxisPair.uv 0 0 false
      = ⟨0, 0, 1 / 12⟩ := by
    simp only [quadNormal, localPt, mkDispObject, DispObject.grid, Vec3.add, Vec3.sub,
      Vec3.cross, lpt, sideCoord, usub, Vec3.mk.injEq]
    norm_num
  have e2 : outwardNormal AxisPair.uv false = ⟨0, 0, -1⟩ := by
    simp [outwardNormal, sideCoord]
  refine ⟨e, e2, ?_⟩
  rintro ⟨k, hk, h⟩
  rw [e, e2] at h
  simp only [Vec3.smul, Vec3.mk.injEq] at h
  linarith [h.2.2]

/-! ## Ray/triangle intersection -/

theorem solve_eq_of_mulVec (m : Mat3) (v w : Vec3) (hdet : m.det ≠ 0)
    (h : m.mulVec v = w) : m.solve w = v := by
  obtain ⟨⟨a0, a1, a2⟩, ⟨b0, b1, b2⟩, ⟨c0, c1, c2⟩⟩ := m
  obtain ⟨x, y, z⟩ := v
  subst h
  simp only [Mat3.det] at hdet
  simp only [Mat3.solve, Mat3.mulVec, Mat3.det, Vec3.mk.injEq]
  refine ⟨?_, ?_, ?_⟩ <;> rw [div_eq_iff hdet] <;> ring

theorem triangleIntersect_eq_accept (vertexData : List Vec3) (a b : Vec3) (i j k : Nat)
    (st : Bool × WithTop ℚ) :
    triangleIntersect vertexData a b i j k st
      = match triangleAccept vertexData a b (i, j, k) with
        | some t => (true, (t : WithTop ℚ))
        | none => st := by
  unfold triangleIntersect triangleAccept
  by_cases hd : |(triangleMatrix vertexData a b i j k).det| < 1 / 10000
  · have hd' : ¬ 1 / 10000 ≤ |(triangleMatrix vertexData a b i j k).det| := not_le.mpr hd
    simp only [hd, if_true, hd', false_and, if_false]
  · have hd' : 1 / 10000 ≤ |(triangleMatrix vertexData a b i j k).det| := not_lt.mp hd
    simp only [hd, if_false, hd', true_and, ge_iff_le]
    split_ifs <;> rfl

theorem triangleAccept_nonneg (vertexData : List Vec3) (a b : Vec3) (tri : Nat × Nat × Nat)
    (t : ℚ) (h : triangleAccept vertexData a b tri = some t) : 0 ≤ t := by
  unfold triangleAccept at h
  simp only at h
  split_ifs at h with hc
  rw [← Option.some.inj h]
  exact hc.2.2.2.2

/-- C8: in exact arithmetic, for a ray `(a, b)` and a triangle with vertices `Vi, Vj, Vk`, let
`M = [Vi-Vk | Vj-Vk | a-b]`.  Whenever `|det M| ≥ 1e-4` and `(β, γ, t)` solves
`M (β, γ, t) = a - Vk` (it is then the only solution), `triangleIntersect` sets the hit flag to
`true` and `param` to `t` if `β ≥ 0`, `γ ≥ 0`, `β + γ ≤ 1` and `t ≥ 0`, and otherwise leaves both
the flag and `param` as they were. -/
theorem triangleIntersect_accepts_iff (vertexData : List Vec3) (a b : Vec3) (i j k : Nat)
    (st : Bool × WithTop ℚ) (β γ t : ℚ)
    (hdet : 1 / 10000 ≤ |(triangleMatrix vertexData a b i j k).det|)
    (hsol : (triangleMatrix vertexData a b i j k).mulVec ⟨β, γ, t⟩
      = a.sub (vertexData.getD k Vec3.zero)) :
    triangleMatrix vertexData a b i j k
        = ⟨(vertexData.getD i Vec3.zero).sub (vertexData.getD k Vec3.zero),
           (vertexData.getD j Vec3.zero).sub (vertexData.getD k Vec3.zero), a.sub b⟩
    ∧ (∀ v : Vec3, (triangleMatrix vertexData a b i j k).mulVec v
        = a.sub (vertexData.getD k Vec3.zero) → v = ⟨β, γ, t⟩)
    ∧ triangleIntersect vertexData a b i j k st
        = (if 0 ≤ β ∧ 0 ≤ γ ∧ β + γ ≤ 1 ∧ 0 ≤ t then (true, (t : WithTop ℚ)) else st)
    ∧ ((0 ≤ β ∧ 0 ≤ γ ∧ β + γ ≤ 1 ∧ 0 ≤ t) →
        triangleIntersect vertexData a b i j k st = (true, (t : WithTop ℚ)))
    ∧ (¬ (0 ≤ β ∧ 0 ≤ γ ∧ β + γ ≤ 1 ∧ 0 ≤ t) →
        triangleIntersect vertexData a b i j k st = st) := by
  have hne : (triangleMatrix vertexData a b i j k).det ≠ 0 := by
    intro h0
    rw [h0, abs_zero] at hdet
    norm_num at hdet
  have hs := solve_eq_of_mulVec _ _ _ hne hsol
  have huniq : ∀ v : Vec3, (triangleMatrix vertexData a b i j k).mulVec v
      = a.sub (vertexData.getD k Vec3.zero) → v = ⟨β, γ, t⟩ := by
    intro v hv
    rw [← solve_eq_of_mulVec _ _ _ hne hv, hs]
  have hmain : triangleIntersect vertexData a b i j k st
      = (if 0 ≤ β ∧ 0 ≤ γ ∧ β + γ ≤ 1 ∧ 0 ≤ t then (true, (t : WithTop ℚ)) else st) := by
    unfold triangleIntersect
    simp only [not_lt.mpr hdet, if_false, hs, ge_iff_le]
  refine ⟨rfl, huniq, hmain, ?_, ?_⟩
  · intro h
    rw [hmain, if_pos h]
  · intro h
    rw [hmain, if_neg h]

/-- Witness for C8: the triangle `(1,0,0), (0,1,0), (0,0,0)` and the ray from `(1/4, 1/4, 1)`
to `(1/4, 1/4, -1)`: `det M = 2`, solution `(1/4, 1/4, 1/2)`, accepted with `param = 1/2`. -/
theorem triangleIntersect_accepts_iff_witness :
    triangleIntersect [⟨1, 0, 0⟩, ⟨0, 1, 0⟩, ⟨0, 0, 0⟩] ⟨1 / 4, 1 / 4, 1⟩ ⟨1 / 4, 1 / 4, -1⟩ 0 1 2
      (false, ⊤) = (true, ((1 / 2 : ℚ) : WithTop ℚ)) := by
  have h := triangleIntersect_accepts_iff [⟨1, 0, 0⟩, ⟨0, 1, 0⟩, ⟨0, 0, 0⟩] ⟨1 / 4, 1 / 4, 1⟩
    ⟨1 / 4, 1 / 4, -1⟩ 0 1 2 (false, ⊤) (1 / 4) (1 / 4) (1 / 2)
    (by
      simp only [triangleMatrix, Mat3.det, Vec3.sub, Vec3.zero, List.getD_cons_zero,
        List.getD_cons_succ]
      norm_num)
    (by
      simp only [triangleMatrix, Mat3.mulVec, Vec3.sub, Vec3.zero, List.getD_cons_zero,
        List.getD_cons_succ, Vec3.mk.injEq]
      norm_num)
  exact h.2.2.2.1 (by norm_num)

theorem triangleIntersect_of_degenerate (vertexData : List Vec3) (a b : Vec3) (i j k : Nat)
    (st : Bool × WithTop ℚ)
    (h : |(triangleMatrix vertexData a b i j k).det| < 1 / 10000) :
    triangleIntersect vertexData a b i j k st = st := by
  unfold triangleIntersect
  simp only [h, if_true]

theorem det_eq_zero_of_combination (c0 c1 : Vec3) (lam mu : ℚ) :
    Mat3.det ⟨c0, c1, (Vec3.smul lam c0).add (Vec3.smul mu c1)⟩ = 0 := by
  simp only [Mat3.det, Vec3.add, Vec3.smul]
  ring

theorem intersectLoop_of_degenerate (vertexData : List Vec3) (a b : Vec3)
    (faceData : List Quad) (x param : WithTop ℚ)
    (h : ∀ q ∈ faceData, |(triangleMatrix vertexData a b q.a q.b q.c).det| < 1 / 10000
      ∧ |(triangleMatrix vertexData a b q.a q.c q.d).det| < 1 / 10000) :
    intersectLoop vertexData a b faceData (false, x) param = (false, param) := by
  induction faceData with
  | nil => rfl
  | cons q qs ih =>
    obtain ⟨h1, h2⟩ := h q (List.mem_cons_self _ _)
    unfold intersectLoop
    simp only [triangleIntersect_of_degenerate _ _ _ _ _ _ _ h1,
      triangleIntersect_of_degenerate _ _ _ _ _ _ _ h2]
    simp only [Bool.false_eq_true, false_and, if_false]
    exact ih (fun q' hq' => h q' (List.mem_cons_of_mem _ hq'))

/-- C9: the degenerate guard.  Whenever `|det M| < 1e-4` for `M = [Vi-Vk | Vj-Vk | a-b]`,
`triangleIntersect` returns with the hit flag and `param` unchanged; in particular when the ray
direction `a - b` is a linear combination of the edge vectors `Vi-Vk` and `Vj-Vk`, where
`det M = 0`; and `intersect` on a ray for which every triangle of the face array is degenerate
reports `hit = false` (and leaves `param` unchanged). -/
theorem degenerate_guard (vertexData : List Vec3) (faceData : List Quad) (a b : Vec3)
    (i j k : Nat) (st : Bool × WithTop ℚ) (param : WithTop ℚ) (lam mu : ℚ) :
    (|(triangleMatrix vertexData a b i j k).det| < 1 / 10000 →
      triangleIntersect vertexData a b i j k st = st)
    ∧ (a.sub b
        = (Vec3.smul lam ((vertexData.getD i Vec3.zero).sub (vertexData.getD k Vec3.zero))).add
          (Vec3.smul mu ((vertexData.getD j Vec3.zero).sub (vertexData.getD k Vec3.zero))) →
      (triangleMatrix vertexData a b i j k).det = 0
        ∧ triangleIntersect vertexData a b i j k st = st)
    ∧ ((∀ q ∈ faceData, |(triangleMatrix vertexData a b q.a q.b q.c).det| < 1 / 10000
          ∧ |(triangleMatrix vertexData a b q.a q.c q.d).det| < 1 / 10000) →
      intersect vertexData faceData a b param = (false, param)) := by
  refine ⟨triangleIntersect_of_degenerate _ _ _ _ _ _ _, ?_, ?_⟩
  · intro h
    have h0 : (triangleMatrix vertexData a b i j k).det = 0 := by
      unfold triangleMatrix
      rw [h]
      exact det_eq_zero_of_combination _ _ _ _
    refine ⟨h0, triangleIntersect_of_degenerate _ _ _ _ _ _ _ ?_⟩
    rw [h0, abs_zero]
    norm_num
  · intro h
    exact intersectLoop_of_degenerate _ _ _ _ _ _ h

/-- Witness for C9: one quad in the plane `z = 0` and a ray inside that plane, from
`(-1, 1/2, 0)` to `(2, 1/2, 0)`; both triangles are degenerate and `intersect` reports no
hit. -/
theorem degenerate_guard_witness :
    intersect [⟨0, 0, 0⟩, ⟨1, 0, 0⟩, ⟨1, 1, 0⟩, ⟨0, 1, 0⟩] [⟨0, 1, 2, 3⟩] ⟨-1, 1 / 2, 0⟩
      ⟨2, 1 / 2, 0⟩ 7 = (false, 7) := by
  have h := degenerate_guard [⟨0, 0, 0⟩, ⟨1, 0, 0⟩, ⟨1, 1, 0⟩, ⟨0, 1, 0⟩] [⟨0, 1, 2, 3⟩]
    ⟨-1, 1 / 2, 0⟩ ⟨2, 1 / 2, 0⟩ 0 1 2 (false, ⊤) 7 0 0
  apply h.2.2
  intro q hq
  rw [List.mem_singleton] at hq
  subst hq
  simp only [triangleMatrix, Mat3.det, Vec3.sub, Vec3.zero, List.getD_cons_zero,
    List.getD_cons_succ]
  norm_num

/-! ## `intersect` returns the first accepted triangle -/

theorem intersectLoop_eq_findSome (vertexData : List Vec3) (a b : Vec3)
    (faceData : List Quad) (x param : WithTop ℚ) :
    intersectLoop vertexData a b faceData (false, x) param
      = match (quadTriangles faceData).findSome? (triangleAccept vertexData a b) with
        | some t => (true, (t : WithTop ℚ))
        | none => (false, param) := by
  induction faceData with
  | nil => rfl
  | cons q qs ih =>
    unfold intersectLoop
    simp only [quadTriangles, List.flatMap_cons, List.cons_append, List.nil_append,
      List.findSome?_cons, triangleIntersect_eq_accept]
    cases h1 : triangleAccept vertexData a b (q.a, q.b, q.c) with
    | some t1 =>
      have := triangleAccept_nonneg _ _ _ _ _ h1
      simp [this]
    | none =>
      simp only [Bool.false_eq_true, false_and, if_false]
      cases h2 : triangleAccept vertexData a b (q.a, q.c, q.d) with
      | some t2 =>
        have := triangleAccept_nonneg _ _ _ _ _ h2
        simp [this]
      | none =>
        simp only [Bool.false_eq_true, false_and, if_false]
        exact ih

/-- C10: `intersect` scans `faceData` in index order and tests, for each quad `(a, b, c, d)`,
the triangle `(a, b, c)` and then `(a, c, d)`, where a triangle is accepted exactly when
`triangleIntersect` sets the hit flag on it; it reports `hit = true` with `param` the `t` of
the first accepted triangle in that order, and `hit = false` if and only if no triangle of any
quad is accepted, in which case `param` is unchanged. -/
theorem intersect_first_accepted (vertexData : List Vec3) (faceData : List Quad) (a b : Vec3)
    (param : WithTop ℚ) :
    (∀ (i j k : Nat) (st : Bool × WithTop ℚ),
      triangleIntersect vertexData a b i j k st
        = match triangleAccept vertexData a b (i, j, k) with
          | some t => (true, (t : WithTop ℚ))
          | none => st)
    ∧ quadTriangles faceData = faceData.flatMap (fun q => [(q.a, q.b, q.c), (q.a, q.c, q.d)])
    ∧ intersect vertexData faceData a b param = intersectSpec vertexData faceData a b param
    ∧ (∀ t : ℚ, (quadTriangles faceData).findSome? (triangleAccept vertexData a b) = some t →
        intersect vertexData faceData a b param = (true, (t : WithTop ℚ)))
    ∧ ((intersect vertexData faceData a b param).1 = false
        ↔ ∀ tri ∈ quadTriangles faceData, triangleAccept vertexData a b tri = none)
    ∧ ((intersect vertexData faceData a b param).1 = false →
        (intersect vertexData faceData a b param).2 = param) := by
  have hmain : intersect vertexData faceData a b param
      = intersectSpec vertexData faceData a b param := by
    unfold intersect intersectSpec
    exact intersectLoop_eq_findSome _ _ _ _ _ _
  refine ⟨fun i j k st => triangleIntersect_eq_accept _ _ _ _ _ _ st, rfl, hmain, ?_, ?_, ?_⟩
  · intro t ht
    rw [hmain]
    unfold intersectSpec
    rw [ht]
  · rw [hmain]
    unfold intersectSpec
    cases h : (quadTriangles faceData).findSome? (triangleAccept vertexData a b) with
    | some t =>
      simp only [Bool.true_eq_false, false_iff]
      intro hall
      obtain ⟨tri, htri, he⟩ := List.exists_of_findSome?_eq_some h
      rw [hall tri htri] at he
      exact absurd he (by simp)
    | none =>
      simp only [true_iff]
      exact List.findSome?_eq_none_iff.mp h
  · rw [hmain]
    unfold intersectSpec
    cases h : (quadTriangles faceData).findSome? (triangleAccept vertexData a b) with
    | some t => simp
    | none => simp

/-! ## First hit versus nearest hit -/

theorem findSome?_split {α β : Type} (f : α → Option β) (l : List α) (b : β)
    (h : l.findSome? f = some b) :
    ∃ l1 x l2, l = l1 ++ x :: l2 ∧ (∀ y ∈ l1, f y = none) ∧ f x = some b := by
  induction l with
  | nil => simp at h
  | cons x xs ih =>
    rw [List.findSome?_cons] at h
    cases hx : f x with
    | some v =>
      rw [hx] at h
      simp only [Option.some.injEq] at h
      subst h
      exact ⟨[], x, xs, rfl, by simp, hx⟩
    | none =>
      rw [hx] at h
      obtain ⟨l1, y, l2, e, h1, h2⟩ := ih h
      refine ⟨x :: l1, y, l2, by rw [e]; rfl, ?_, h2⟩
      intro z hz
      rcases List.mem_cons.mp hz with rfl | hz
      · exact hx
      · exact h1 z hz

/-- C11 (amended): `intersect` returns the first forward hit in enumeration order, not the
nearest one.  Whenever it reports `hit = true`, the triangles of the face array split as
`l1 ++ tri :: l2` with every triangle of `l1` rejected and `tri` accepted with a parameter
`t ≥ 0`, and `param = t`; this `t` is the minimum of the accepted parameters exactly when no
triangle after `tri` is accepted with a smaller parameter. -/
theorem intersect_first_hit_param (vertexData : List Vec3) (faceData : List Quad) (a b : Vec3)
    (param : WithTop ℚ) (h : (intersect vertexData faceData a b param).1 = true) :
    ∃ l1 tri l2 t, quadTriangles faceData = l1 ++ tri :: l2
      ∧ (∀ x ∈ l1, triangleAccept vertexData a b x = none)
      ∧ triangleAccept vertexData a b tri = some t
      ∧ 0 ≤ t
      ∧ intersect vertexData faceData a b param = (true, (t : WithTop ℚ))
      ∧ (IsNearestHit vertexData faceData a b t
          ↔ ∀ x ∈ l2, ∀ s, triangleAccept vertexData a b x = some s → t ≤ s) := by
  have hmain : intersect vertexData faceData a b param
      = match (quadTriangles faceData).findSome? (triangleAccept vertexData a b) with
        | some t => (true, (t : WithTop ℚ))
        | none => (false, param) := intersectLoop_eq_findSome _ _ _ _ _ _
  cases hf : (quadTriangles faceData).findSome? (triangleAccept vertexData a b) with
  | none =>
    rw [hmain, hf] at h
    exact absurd h (by simp)
  | some t =>
    obtain ⟨l1, tri, l2, e, h1, h2⟩ := findSome?_split _ _ _ hf
    refine ⟨l1, tri, l2, t, e, h1, h2, triangleAccept_nonneg _ _ _ _ _ h2, ?_, ?_⟩
    · rw [hmain, hf]
    · unfold IsNearestHit
      rw [e]
      constructor
      · intro hn x hx s hs
        exact hn x (List.mem_append_right _ (List.mem_cons_of_mem _ hx)) s hs
      · intro hl x hx s hs
        rcases List.mem_append.mp hx with hx | hx
        · rw [h1 x hx] at hs
          exact absurd hs (by simp)
        · rcases List.mem_cons.mp hx with rfl | hx
          · rw [h2] at hs
            exact le_of_eq (Option.some.inj hs)
          · exact hl x hx s hs

/-- Witness for C11 (amended): two parallel unit quads, the first at `z = 2`, the second at
`z = 1`, and the ray from `(3/4, 1/4, 0)` to `(3/4, 1/4, 4)`. -/
theorem intersect_first_hit_param_witness :
    ∃ t : ℚ, 0 ≤ t
      ∧ intersect stackedVertices stackedFaces ⟨3 / 4, 1 / 4, 0⟩ ⟨3 / 4, 1 / 4, 4⟩ 7
        = (true, (t : WithTop ℚ)) := by
  obtain ⟨_, _, _, t, _, _, _, h0, h, _⟩ := intersect_first_hit_param stackedVertices
    stackedFaces ⟨3 / 4, 1 / 4, 0⟩ ⟨3 / 4, 1 / 4, 4⟩ 7
    (by
      simp only [stackedVertices, stackedFaces, intersect, intersectLoop, triangleIntersect,
        triangleMatrix, Mat3.det, Mat3.solve, Vec3.sub, Vec3.zero, List.getD_cons_zero,
        List.getD_cons_succ]
      norm_num)
  exact ⟨t, h0, h⟩

/-- C11 fails as stated: for two parallel unit quads, the first at `z = 2` and the second at
`z = 1`, and the ray from `(3/4, 1/4, 0)` to `(3/4, 1/4, 4)`, `intersect` reports `hit = true`
with `param = 1/2`, the parameter of the first quad, although the triangle `(4, 5, 6)` of the
second quad is accepted with the smaller parameter `1/4`; so `param` is not the minimum. -/
theorem intersect_nearest_counterexample :
    intersect stackedVertices stackedFaces ⟨3 / 4, 1 / 4, 0⟩ ⟨3 / 4, 1 / 4, 4⟩ 7
      = (true, ((1 / 2 : ℚ) : WithTop ℚ))
    ∧ triangleAccept stackedVertices ⟨3 / 4, 1 / 4, 0⟩ ⟨3 / 4, 1 / 4, 4⟩ (4, 5, 6)
      = some (1 / 4)
    ∧ ¬ IsNearestHit stackedVertices stackedFaces ⟨3 / 4, 1 / 4, 0⟩ ⟨3 / 4, 1 / 4, 4⟩
        (1 / 2) := by
  have h1 : intersect stackedVertices stackedFaces ⟨3 / 4, 1 / 4, 0⟩ ⟨3 / 4, 1 / 4, 4⟩ 7
      = (true, ((1 / 2 : ℚ) : WithTop ℚ)) := by
    simp only [stackedVertices, stackedFaces, intersect, intersectLoop, triangleIntersect,
      triangleMatrix, Mat3.det, Mat3.solve, Vec3.sub, Vec3.zero, List.getD_cons_zero,
      List.getD_cons_succ]
    norm_num
  have h2 : triangleAccept stackedVertices ⟨3 / 4, 1 / 4, 0⟩ ⟨3 / 4, 1 / 4, 4⟩ (4, 5, 6)
      = some (1 / 4) := by
    simp only [stackedVertices, triangleAccept, triangleMatrix, Mat3.det, Mat3.solve, Vec3.sub,
      Vec3.zero, List.getD_cons_zero, List.getD_cons_succ]
    norm_num
  refine ⟨h1, h2, ?_⟩
  intro hn
  have := hn (4, 5, 6) (by simp [quadTriangles, stackedFaces]) (1 / 4) h2
  norm_num at this

/-! ## Soundness of the returned parameter -/

theorem mulVec_solve (m : Mat3) (w : Vec3) (hdet : m.det ≠ 0) : m.mulVec (m.solve w) = w := by
  obtain ⟨⟨a0, a1, a2⟩, ⟨b0, b1, b2⟩, ⟨c0, c1, c2⟩⟩ := m
  obtain ⟨x, y, z⟩ := w
  simp only [Mat3.det] at hdet
  simp only [Mat3.solve, Mat3.mulVec, Mat3.det, Vec3.mk.injEq]
  refine ⟨?_, ?_, ?_⟩ <;> field_simp <;> ring

theorem triangleAccept_sound (vertexData : List Vec3) (a b : Vec3) (i j k : Nat) (t : ℚ)
    (h : triangleAccept vertexData a b (i, j, k) = some t) :
    ∃ β γ : ℚ,
      (triangleMatrix vertexData a b i j k).mulVec ⟨β, γ, t⟩
        = a.sub (vertexData.getD k Vec3.zero)
      ∧ 1 / 10000 ≤ |(triangleMatrix vertexData a b i j k).det|
      ∧ 0 ≤ β ∧ 0 ≤ γ ∧ β + γ ≤ 1 ∧ 0 ≤ t := by
  unfold triangleAccept at h
  simp only at h
  split_ifs at h with hc
  obtain ⟨hd, h1, h2, h3, h4⟩ := hc
  have ht := Option.some.inj h
  have hne : (triangleMatrix vertexData a b i j k).det ≠ 0 := by
    intro h0
    rw [h0, abs_zero] at hd
    norm_num at hd
  have hm := mulVec_solve (triangleMatrix vertexData a b i j k)
    (a.sub (vertexData.getD k Vec3.zero)) hne
  refine ⟨_, _, ?_, hd, h1, h2, h3, ht ▸ h4⟩
  rw [← ht]
  exact hm

/-- C17: in exact arithmetic, whenever `triangleIntersect` accepts a triangle `(Vi, Vj, Vk)`
for a ray `(a, b)`, setting the hit flag and `param = t`, there are `β, γ` with
`[Vi-Vk | Vj-Vk | a-b] (β, γ, t) = a - Vk` such that the point `a + t (b - a)` equals
`β Vi + γ Vj + (1 - β - γ) Vk` with the three weights in `[0, 1]` and `t ≥ 0`: `param` is the
parameter along `rayEnd - rayStart`, measured from `rayStart`, of a point of the closed
triangle on the forward half-line; `t = 1` is `rayEnd` (and `t = 0` is `rayStart`). -/
theorem accepted_point_in_triangle (vertexData : List Vec3) (a b : Vec3) (i j k : Nat)
    (param : WithTop ℚ) (t : ℚ)
    (h : triangleIntersect vertexData a b i j k (false, param) = (true, (t : WithTop ℚ))) :
    (∃ β γ : ℚ,
      (triangleMatrix vertexData a b i j k).mulVec ⟨β, γ, t⟩
        = a.sub (vertexData.getD k Vec3.zero)
      ∧ (0 ≤ β ∧ β ≤ 1) ∧ (0 ≤ γ ∧ γ ≤ 1) ∧ (0 ≤ 1 - β - γ ∧ 1 - β - γ ≤ 1)
      ∧ a.add (Vec3.smul t (b.sub a))
        = (Vec3.smul β (vertexData.getD i Vec3.zero)).add
            ((Vec3.smul γ (vertexData.getD j Vec3.zero)).add
              (Vec3.smul (1 - β - γ) (vertexData.getD k Vec3.zero))))
    ∧ 0 ≤ t
    ∧ a.add (Vec3.smul 1 (b.sub a)) = b
    ∧ a.add (Vec3.smul 0 (b.sub a)) = a := by
  have hacc : triangleAccept vertexData a b (i, j, k) = some t := by
    rw [triangleIntersect_eq_accept] at h
    cases hx : triangleAccept vertexData a b (i, j, k) with
    | none =>
      rw [hx] at h
      simp at h
    | some s =>
      rw [hx] at h
      simp only [Prod.mk.injEq, true_and] at h
      rw [WithTop.coe_inj.mp h]
  obtain ⟨β, γ, hs, _, h1, h2, h3, h4⟩ := triangleAccept_sound _ _ _ _ _ _ _ hacc
  refine ⟨⟨β, γ, hs, ⟨h1, by linarith⟩, ⟨h2, by linarith⟩, ⟨by linarith, by linarith⟩, ?_⟩,
    h4, ?_, ?_⟩
  · simp only [triangleMatrix, Mat3.mulVec, Vec3.sub, Vec3.mk.injEq] at hs
    obtain ⟨e1, e2, e3⟩ := hs
    simp only [Vec3.add, Vec3.smul, Vec3.sub, Vec3.mk.injEq]
    refine ⟨?_, ?_, ?_⟩ <;> linarith
  · obtain ⟨x, y, z⟩ := a
    obtain ⟨x', y', z'⟩ := b
    simp [Vec3.add, Vec3.smul, Vec3.sub]
  · obtain ⟨x, y, z⟩ := a
    simp [Vec3.add, Vec3.smul, Vec3.sub]

/-- Witness for C17: the triangle `(1,0,0), (0,1,0), (0,0,0)` and the ray from `(1/4, 1/4, 1)`
to `(1/4, 1/4, -1)`, accepted with `param = 1/2`; the hit point is `(1/4, 1/4, 0)`. -/
theorem accepted_point_in_triangle_witness :
    (⟨1 / 4, 1 / 4, 1⟩ : Vec3).add (Vec3.smul (1 / 2) ((⟨1 / 4, 1 / 4, -1⟩ : Vec3).sub
        ⟨1 / 4, 1 / 4, 1⟩)) = ⟨1 / 4, 1 / 4, 0⟩
    ∧ ∃ β γ : ℚ, (0 ≤ β ∧ β ≤ 1) ∧ (0 ≤ γ ∧ γ ≤ 1) ∧ (0 ≤ 1 - β - γ ∧ 1 - β - γ ≤ 1)
      ∧ (⟨1 / 4, 1 / 4, 1⟩ : Vec3).add (Vec3.smul (1 / 2) ((⟨1 / 4, 1 / 4, -1⟩ : Vec3).sub
          ⟨1 / 4, 1 / 4, 1⟩))
        = (Vec3.smul β ⟨1, 0, 0⟩).add ((Vec3.smul γ ⟨0, 1, 0⟩).add
            (Vec3.smul (1 - β - γ) ⟨0, 0, 0⟩)) := by
  have h := accepted_point_in_triangle [⟨1, 0, 0⟩, ⟨0, 1, 0⟩, ⟨0, 0, 0⟩] ⟨1 / 4, 1 / 4, 1⟩
    ⟨1 / 4, 1 / 4, -1⟩ 0 1 2 ⊤ (1 / 2)
    (by
      simp only [triangleIntersect, triangleMatrix, Mat3.det, Mat3.solve, Vec3.sub, Vec3.zero,
        List.getD_cons_zero, List.getD_cons_succ]
      norm_num)
  obtain ⟨⟨β, γ, _, h1, h2, h3, h4⟩, _⟩ := h
  refine ⟨?_, β, γ, h1, h2, h3, h4⟩
  simp only [Vec3.add, Vec3.smul, Vec3.sub, Vec3.mk.injEq]
  norm_num

/-! ## `init` has no guard -/

theorem init_eq (d : DispObject) (s : GLState) :
    init d s = ⟨true, s.ops ++ initOps d⟩ := by
  obtain ⟨f, ops⟩ := s
  simp [init, initOps, mkVertexBuffer, mkFaceBuffer, mkBoundaryBufferOps, mkElementBufferOps,
    createBuffer, allocate]

theorem initOps_counts (d : DispObject) :
    (initOps d).length = 20 ∧ (initOps d).countP GLOp.isCreateOrUpload = 10 := by
  simp [init, initOps, mkVertexBuffer, mkFaceBuffer, mkBoundaryBufferOps, mkElementBufferOps,
    createBuffer, allocate, GLOp.isCreateOrUpload]

/-- C16 (amended): `init()` is not guarded.  Every call, on an initialised object as well as on
a fresh one, performs the same 20 buffer operations (among them 5 `create` calls and 5 uploads)
after those already performed and sets the flag; so after `init(); init()` the flag is `true`, as
after a single `init()`, but every operation has been performed twice, and the state differs
from the state after a single `init()`. -/
theorem init_unguarded (d : DispObject) (s : GLState) (h : s.initialized = true) :
    init d s = ⟨true, s.ops ++ initOps d⟩
    ∧ (initOps d).length = 20
    ∧ (initOps d).countP GLOp.isCreateOrUpload = 10
    ∧ (init d s).initialized = s.initialized
    ∧ (init d s).ops ≠ s.ops
    ∧ init d s ≠ s
    ∧ (∀ s0 : GLState, init d (init d s0) = ⟨true, s0.ops ++ initOps d ++ initOps d⟩
        ∧ (init d (init d s0)).initialized = (init d s0).initialized
        ∧ init d (init d s0) ≠ init d s0) := by
  have hlen := (initOps_counts d).1
  have hne : ∀ l : List GLOp, l ++ initOps d ≠ l := by
    intro l hl
    have := congrArg List.length hl
    rw [List.length_append, hlen] at this
    omega
  refine ⟨init_eq d s, hlen, (initOps_counts d).2, ?_, ?_, ?_, ?_⟩
  · rw [init_eq, h]
  · rw [init_eq]
    exact hne _
  · intro he
    have := congrArg GLState.ops he
    rw [init_eq] at this
    exact hne _ this
  · intro s0
    refine ⟨by rw [init_eq, init_eq], by rw [init_eq, init_eq], ?_⟩
    intro he
    have := congrArg GLState.ops he
    rw [init_eq, init_eq] at this
    exact hne _ this

/-- Witness for C16 (amended): the object the source builds, initialised once. -/
theorem init_unguarded_witness :
    (init (mkDispObject 3 4 5 2 2 2) (init (mkDispObject 3 4 5 2 2 2) ⟨false, []⟩)).ops.length
      = 40
    ∧ init (mkDispObject 3 4 5 2 2 2) (init (mkDispObject 3 4 5 2 2 2) ⟨false, []⟩)
      ≠ init (mkDispObject 3 4 5 2 2 2) ⟨false, []⟩ := by
  have h := init_unguarded (mkDispObject 3 4 5 2 2 2)
    (init (mkDispObject 3 4 5 2 2 2) ⟨false, []⟩) rfl
  refine ⟨?_, h.2.2.2.2.2.1⟩
  rw [h.1, List.length_append, h.2.1]
  rfl

/-- C16 fails as stated: on the object the source builds, a second `init()` on the initialised
object appends 20 more buffer operations, among them a second `create` and a second upload for
`vertexBuffer`, so the state after `init(); init()` is not the state after one `init()`. -/
theorem init_idempotent_counterexample :
    (init (mkDispObject 3 4 5 2 2 2) ⟨false, []⟩).initialized = true
    ∧ (init (mkDispObject 3 4 5 2 2 2) ⟨false, []⟩).ops.length = 20
    ∧ (init (mkDispObject 3 4 5 2 2 2) (init (mkDispObject 3 4 5 2 2 2) ⟨false, []⟩)).ops.length
      = 40
    ∧ (init (mkDispObject 3 4 5 2 2 2) (init (mkDispObject 3 4 5 2 2 2) ⟨false, []⟩)).ops.drop 20
      = (init (mkDispObject 3 4 5 2 2 2) ⟨false, []⟩).ops
    ∧ (init (mkDispObject 3 4 5 2 2 2) ⟨false, []⟩).ops.take 4
      = [GLOp.create Buf.vertexBuffer, GLOp.setUsagePattern Buf.vertexBuffer,
          GLOp.bind Buf.vertexBuffer, GLOp.allocate Buf.vertexBuffer DataArr.vertexData 4536]
    ∧ init (mkDispObject 3 4 5 2 2 2) (init (mkDispObject 3 4 5 2 2 2) ⟨false, []⟩)
      ≠ init (mkDispObject 3 4 5 2 2 2) ⟨false, []⟩ := by
  refine ⟨rfl, rfl, rfl, rfl, rfl, ?_⟩
  intro he
  have := congrArg (fun s => s.ops.length) he
  simp only at this
  exact absurd this (by decide)

/-! ## The line vertices -/

theorem lpt_eq (i N : Nat) (hN : 2 ≤ N) : lpt i N = 2 * (i : ℚ) / ((N : ℚ) - 1) - 1 := by
  unfold lpt
  rw [usub_of_le (by omega), Nat.cast_sub (by omega)]
  push_cast
  ring

theorem lpt_scale (r i n : Nat) (hr : 1 ≤ r) (hn : 1 ≤ n) :
    lpt (r * i) (r * n + 1) = lpt i (n + 1) := by
  have hrn : 1 ≤ r * n := Nat.mul_pos hr hn
  unfold lpt
  rw [usub_of_le (by omega), usub_of_le (by omega)]
  have hr' : (r : ℚ) ≠ 0 := by
    have : 0 < r := hr
    exact_mod_cast this.ne'
  have hn' : (n : ℚ) ≠ 0 := by
    have : 0 < n := hn
    exact_mod_cast this.ne'
  simp only [Nat.add_sub_cancel]
  push_cast
  field_simp
  ring

theorem enumerated_refinedPos (ntU ntV ntW r : Nat) (p : LPos) (hr : 1 ≤ r)
    (hp : Enumerated (mkDispObject ntU ntV ntW r r r).tgrid p) :
    Enumerated (mkDispObject ntU ntV ntW r r r).grid (refinedPos r p) := by
  obtain ⟨pair, i, j, b⟩ := p
  have m1 : ∀ x n : Nat, x + 1 ≤ n → r * x + r ≤ r * n := by
    intro x n h
    calc r * x + r = r * (x + 1) := by ring
      _ ≤ r * n := Nat.mul_le_mul_left r h
  have m2 : ∀ x : Nat, 1 ≤ x → 1 ≤ r * x := fun x h => Nat.mul_pos hr h
  cases pair <;> simp only [Enumerated, mkDispObject, DispObject.tgrid] at hp <;>
    simp only [Enumerated, mkDispObject, DispObject.grid, refinedPos]
  · have h1 := m1 i (ntU + 1) (by omega)
    have h2 := m1 j (ntV + 1) (by omega)
    have e1 : r * (ntU + 1) = r * ntU + r := by ring
    have e2 : r * (ntV + 1) = r * ntV + r := by ring
    omega
  · have h1 := m1 i (ntU + 1) (by omega)
    have h2 := m1 j ntW (by omega)
    have h3 := m2 j (by omega)
    have e1 : r * (ntU + 1) = r * ntU + r := by ring
    omega
  · have h1 := m1 i ntV (by omega)
    have h2 := m1 j ntW (by omega)
    have h3 := m2 j (by omega)
    have h4 := m2 i (by omega)
    omega

theorem localPt_refinedPos (ntU ntV ntW r : Nat) (p : LPos)
    (hU : 1 ≤ ntU) (hV : 1 ≤ ntV) (hW : 1 ≤ ntW) (hr : 1 ≤ r) :
    localPt (mkDispObject ntU ntV ntW r r r).tgrid p
      = localPt (mkDispObject ntU ntV ntW r r r).grid (refinedPos r p) := by
  obtain ⟨pair, i, j, b⟩ := p
  cases pair <;>
    simp only [localPt, mkDispObject, DispObject.tgrid, DispObject.grid, refinedPos,
      lpt_scale r _ _ hr hU, lpt_scale r _ _ hr hV, lpt_scale r _ _ hr hW]

/-- C15: in exact arithmetic, for every template logical position `p = (pair, i, j, side)` that
`mkVertexData` enumerates, the line vertex it stores is `center + 1.001 * L`, where `L` is the
local face coordinate of `p` (`lpt(i, N) = 2*i/(N-1) - 1` on the two face axes, `±1` on the
normal axis); `L` is also the local coordinate of the refined vertex at `(r*i, r*j)` of the same
face and side, which `mkVertexData` enumerates as well, because
`lpt(r*i, r*nt + 1) = lpt(i, nt + 1)`.  So the line vertex is the refined surface vertex
displaced by `0.001 * L`, that is moved away from the box centre by the factor `1.001`; this is
the scaling of the vertex about the world origin only when the centre is the origin. -/
theorem line_vertex_offset (ntU ntV ntW r : Nat) (d : DispObject) (center : Vec3) (p : LPos)
    (hU : 1 ≤ ntU) (hV : 1 ≤ ntV) (hW : 1 ≤ ntW) (hr : 1 ≤ r)
    (hd : d = mkDispObject ntU ntV ntW r r r) (hp : Enumerated d.tgrid p) :
    (ptIdx d.tgrid p, center.add (Vec3.smul (1001 / 1000) (localPt d.tgrid p)))
        ∈ vertexLineWrites d center
    ∧ (mkVertexData d center).2.getD (ptIdx d.tgrid p) Vec3.zero
        = center.add (Vec3.smul (1001 / 1000) (localPt d.tgrid p))
    ∧ (∀ (x N : Nat), 2 ≤ N → lpt x N = 2 * (x : ℚ) / ((N : ℚ) - 1) - 1)
    ∧ (∀ x, lpt (r * x) d.nPtsU = lpt x d.ntPtsU ∧ lpt (r * x) d.nPtsV = lpt x d.ntPtsV
        ∧ lpt (r * x) d.nPtsW = lpt x d.ntPtsW)
    ∧ localPt d.tgrid p = localPt d.grid (refinedPos r p)
    ∧ Enumerated d.grid (refinedPos r p)
    ∧ (mkVertexData d center).1.getD (ptIdx d.grid (refinedPos r p)) Vec3.zero
        = center.add (localPt d.tgrid p)
    ∧ (mkVertexData d center).2.getD (ptIdx d.tgrid p) Vec3.zero
        = ((mkVertexData d center).1.getD (ptIdx d.grid (refinedPos r p)) Vec3.zero).add
            (Vec3.smul (1 / 1000) (localPt d.tgrid p))
    ∧ ((mkVertexData d center).2.getD (ptIdx d.tgrid p) Vec3.zero).sub center
        = Vec3.smul (1001 / 1000)
            (((mkVertexData d center).1.getD (ptIdx d.grid (refinedPos r p)) Vec3.zero).sub
              center)
    ∧ (center.add (Vec3.smul (1001 / 1000) (localPt d.tgrid p))
          = Vec3.smul (1001 / 1000) (center.add (localPt d.tgrid p))
        ↔ center = Vec3.zero) := by
  have hlink := mkVertexData_getD ntU ntV ntW r d center hU hV hW hr hd
  subst hd
  have hmem := (mem_vertexPositions (mkDispObject ntU ntV ntW r r r).tgrid p
    (by simp only [mkDispObject, DispObject.tgrid]; omega)
    (by simp only [mkDispObject, DispObject.tgrid]; omega)).mpr hp
  have hloc := localPt_refinedPos ntU ntV ntW r p hU hV hW hr
  have hen := enumerated_refinedPos ntU ntV ntW r p hr hp
  have e2 := hlink.2 p (valid_of_enumerated _ p hp)
  have e1 := hlink.1 (refinedPos r p) (valid_of_enumerated _ _ hen)
  rw [← hloc] at e1
  refine ⟨?_, e2, fun x N hN => lpt_eq x N hN, ?_, hloc, hen, e1, ?_, ?_, ?_⟩
  · exact List.mem_map.mpr ⟨p, hmem, rfl⟩
  · intro x
    exact ⟨lpt_scale r x ntU hr hU, lpt_scale r x ntV hr hV, lpt_scale r x ntW hr hW⟩
  · rw [e1, e2]
    simp only [Vec3.add, Vec3.smul, Vec3.mk.injEq]
    refine ⟨?_, ?_, ?_⟩ <;> ring
  · rw [e1, e2]
    simp only [Vec3.add, Vec3.sub, Vec3.smul, Vec3.mk.injEq]
    refine ⟨?_, ?_, ?_⟩ <;> ring
  · obtain ⟨cx, cy, cz⟩ := center
    simp only [Vec3.add, Vec3.smul, Vec3.zero, Vec3.mk.injEq]
    constructor
    · rintro ⟨h1, h2, h3⟩
      exact ⟨by linarith, by linarith, by linarith⟩
    · rintro ⟨h1, h2, h3⟩
      subst h1 h2 h3
      refine ⟨?_, ?_, ?_⟩ <;> ring

/-- Witness for C15: the template position `(U x W, 1, 2, true)` of the object the source
builds, with centre `(10, 0, 0)`: local coordinate `(-1/3, 1, -1/5)`, line vertex
`(10 - 1001/3000, 1001/1000, -1001/5000)`. -/
theorem line_vertex_offset_witness :
    localPt (mkDispObject 3 4 5 2 2 2).tgrid ⟨AxisPair.uw, 1, 2, true⟩ = ⟨-1 / 3, 1, -1 / 5⟩
    ∧ (mkVertexData (mkDispObject 3 4 5 2 2 2) ⟨10, 0, 0⟩).2.getD
        (ptIdx (mkDispObject 3 4 5 2 2 2).tgrid ⟨AxisPair.uw, 1, 2, true⟩) Vec3.zero
      = (⟨10, 0, 0⟩ : Vec3).add (Vec3.smul (1001 / 1000)
          (localPt (mkDispObject 3 4 5 2 2 2).tgrid ⟨AxisPair.uw, 1, 2, true⟩))
    ∧ (mkVertexData (mkDispObject 3 4 5 2 2 2) ⟨10, 0, 0⟩).1.getD
        (ptIdx (mkDispObject 3 4 5 2 2 2).grid ⟨AxisPair.uw, 2, 4, true⟩) Vec3.zero
      = (⟨10, 0, 0⟩ : Vec3).add
          (localPt (mkDispObject 3 4 5 2 2 2).tgrid ⟨AxisPair.uw, 1, 2, true⟩) := by
  have h := line_vertex_offset 3 4 5 2 (mkDispObject 3 4 5 2 2 2) ⟨10, 0, 0⟩
    ⟨AxisPair.uw, 1, 2, true⟩ (by decide) (by decide) (by decide) (by decide) rfl (by decide)
  refine ⟨?_, h.2.1, h.2.2.2.2.2.2.1⟩
  simp only [localPt, mkDispObject, DispObject.tgrid, lpt, sideCoord, usub, Vec3.mk.injEq]
  norm_num

/-! ## `mkElementBuffer`: the interior grid lines -/

theorem mem_lineSegsA (pair : AxisPair) (side : Bool) (nA nB : Nat) (s : LPos × LPos) :
    s ∈ lineSegsA pair side nA nB ↔
      (s.1.pair = pair ∧ s.1.side = side ∧ s.2.pair = pair ∧ s.2.side = side)
      ∧ s.2.i = s.1.i + 1 ∧ s.2.j = s.1.j ∧ s.1.i < nA ∧ 1 ≤ s.1.j ∧ s.1.j < nB := by
  obtain ⟨⟨p1, i1, j1, b1⟩, ⟨p2, i2, j2, b2⟩⟩ := s
  simp only [lineSegsA, List.mem_flatMap, List.mem_map, List.mem_range, List.Ico.mem,
    Prod.mk.injEq, LPos.mk.injEq]
  constructor
  · rintro ⟨i, hi, j, hj, ⟨h1, h2, h3, h4⟩, h5, h6, h7, h8⟩
    subst h1 h2 h3 h4 h5 h6 h7 h8
    exact ⟨⟨rfl, rfl, rfl, rfl⟩, rfl, rfl, hi, hj.1, hj.2⟩
  · rintro ⟨⟨h1, h2, h3, h4⟩, h5, h6, h7, h8, h9⟩
    exact ⟨i1, h7, j1, ⟨h8, h9⟩, ⟨h1.symm, rfl, rfl, h2.symm⟩, h3.symm, h5.symm, h6.symm,
      h4.symm⟩

theorem mem_lineSegsB (pair : AxisPair) (side : Bool) (nA nB : Nat) (s : LPos × LPos) :
    s ∈ lineSegsB pair side nA nB ↔
      (s.1.pair = pair ∧ s.1.side = side ∧ s.2.pair = pair ∧ s.2.side = side)
      ∧ s.2.i = s.1.i ∧ s.2.j = s.1.j + 1 ∧ (1 ≤ s.1.i ∧ s.1.i < nA) ∧ s.1.j < nB := by
  obtain ⟨⟨p1, i1, j1, b1⟩, ⟨p2, i2, j2, b2⟩⟩ := s
  simp only [lineSegsB, List.mem_flatMap, List.mem_map, List.mem_range, List.Ico.mem,
    Prod.mk.injEq, LPos.mk.injEq]
  constructor
  · rintro ⟨i, hi, j, hj, ⟨h1, h2, h3, h4⟩, h5, h6, h7, h8⟩
    subst h1 h2 h3 h4 h5 h6 h7 h8
    exact ⟨⟨rfl, rfl, rfl, rfl⟩, rfl, rfl, hj, hi⟩
  · rintro ⟨⟨h1, h2, h3, h4⟩, h5, h6, h7, h8⟩
    exact ⟨j1, h8, i1, h7, ⟨h1.symm, rfl, rfl, h2.symm⟩, h3.symm, h5.symm, h6.symm,
      h4.symm⟩

theorem nodup_lineSegsA (pair : AxisPair) (side : Bool) (nA nB : Nat) :
    (lineSegsA pair side nA nB).Nodup := by
  apply nodup_flatMap_map _ _ _ (List.nodup_range _) (List.Ico.nodup _ _)
  intro a b a' b' h
  simp only [Prod.mk.injEq, LPos.mk.injEq, true_and, and_true] at h
  exact ⟨h.1.1, h.1.2⟩

theorem nodup_lineSegsB (pair : AxisPair) (side : Bool) (nA nB : Nat) :
    (lineSegsB pair side nA nB).Nodup := by
  apply nodup_flatMap_map _ _ _ (List.nodup_range _) (List.Ico.nodup _ _)
  intro a b a' b' h
  simp only [Prod.mk.injEq, LPos.mk.injEq, true_and, and_true] at h
  exact ⟨h.1.2, h.1.1⟩

theorem length_lineSegsA (pair : AxisPair) (side : Bool) (nA nB : Nat) :
    (lineSegsA pair side nA nB).length = nA * (nB - 1) := by
  unfold lineSegsA
  rw [length_flatMap_const _ _ (nB - 1) (by intro x _; simp)]
  simp

theorem length_lineSegsB (pair : AxisPair) (side : Bool) (nA nB : Nat) :
    (lineSegsB pair side nA nB).length = nB * (nA - 1) := by
  unfold lineSegsB
  rw [length_flatMap_const _ _ (nA - 1) (by intro x _; simp)]
  simp

theorem elementLoop_seg_perm (d : DispObject) (a : Bool) :
    ((elementLoop d a).map LineWrite.seg).Perm (loopSegs d a) := by
  simp only [elementLoop, loopSegs, List.map_append, List.map_flatMap, List.map_map,
    Function.comp_def, LineWrite.seg]
  refine List.Perm.append (List.Perm.append ?_ ?_) ?_
  · exact (List.flatMap_append_perm _ _ _).symm
  · exact (List.flatMap_append_perm _ _ _).symm
  · exact (List.flatMap_append_perm _ _ _).symm

theorem mem_loopSegs (d : DispObject) (a : Bool) (s : LPos × LPos) :
    s ∈ loopSegs d a ↔ InteriorSegment d s ∧ s.1.side = a := by
  obtain ⟨⟨p1, i1, j1, b1⟩, ⟨p2, i2, j2, b2⟩⟩ := s
  simp only [loopSegs, List.mem_append, mem_lineSegsA, mem_lineSegsB, InteriorSegment]
  cases p1 <;> cases p2 <;> simp [tcells] <;> aesop

theorem nodup_loopSegs (d : DispObject) (a : Bool) : (loopSegs d a).Nodup := by
  unfold loopSegs
  simp only [List.nodup_append, nodup_lineSegsA, nodup_lineSegsB, true_and, List.Disjoint,
    List.mem_append, mem_lineSegsA, mem_lineSegsB]
  repeat' constructor
  all_goals
    rintro ⟨⟨p1, i1, j1, b1⟩, ⟨p2, i2, j2, b2⟩⟩ h1 h2
    simp only at h1 h2
    cases p1 <;> simp at h1 h2 <;> omega

theorem countP_eq_one_of_nodup {α : Type} [DecidableEq α] (l : List α) (s : α)
    (hnd : l.Nodup) (hs : s ∈ l) : l.countP (fun x => decide (x = s)) = 1 := by
  induction l with
  | nil => exact absurd hs (List.not_mem_nil _)
  | cons x xs ih =>
    rw [List.nodup_cons] at hnd
    by_cases hx : x = s
    · subst hx
      have h0 : xs.countP (fun y => decide (y = x)) = 0 := by
        rw [List.countP_eq_zero]
        intro y hy
        simp only [decide_eq_true_eq]
        intro hyx
        exact hnd.1 (hyx ▸ hy)
      simp [List.countP_cons, h0]
    · have hs' : s ∈ xs := by
        rcases List.mem_cons.mp hs with h | h
        · exact absurd h.symm hx
        · exact h
      simp [List.countP_cons, hx, ih hnd.2 hs']

theorem elementWrites_seg_perm (d : DispObject) :
    ((elementWrites d).map LineWrite.seg).Perm (loopSegs d false ++ loopSegs d true) := by
  simp only [elementWrites, List.flatMap_cons, List.flatMap_nil, List.append_nil,
    List.map_append]
  exact List.Perm.append (elementLoop_seg_perm d false) (elementLoop_seg_perm d true)

theorem length_loopSegs (d : DispObject) (a : Bool) :
    (loopSegs d a).length
      = (d.ntU * (d.ntV - 1) + d.ntV * (d.ntU - 1)) + (d.ntU * (d.ntW - 1) + d.ntW * (d.ntU - 1))
        + (d.ntV * (d.ntW - 1) + d.ntW * (d.ntV - 1)) := by
  simp only [loopSegs, List.length_append, length_lineSegsA, length_lineSegsB]
  omega

theorem valid_of_interiorSegment (d : DispObject) (s : LPos × LPos)
    (hU : d.ntPtsU = d.ntU + 1) (hV : d.ntPtsV = d.ntV + 1) (hW : d.ntPtsW = d.ntW + 1)
    (h : InteriorSegment d s) : Valid d.tgrid s.1 ∧ Valid d.tgrid s.2 := by
  obtain ⟨⟨p1, i1, j1, b1⟩, ⟨p2, i2, j2, b2⟩⟩ := s
  obtain ⟨h1, h2, h3⟩ := h
  simp only at h1 h2 h3
  subst h1
  cases p2 <;> simp only [tcells] at h3 <;>
    simp only [Valid, DispObject.tgrid, hU, hV, hW] <;> omega

/-- C14: for template counts `≥ 1`, `mkElementBuffer` emits exactly
`nElemLines = 2*[(ntU*(ntV-1) + ntV*(ntU-1)) + (ntU*(ntW-1) + ntW*(ntU-1))
+ (ntV*(ntW-1) + ntW*(ntV-1))]` segments, the length of `elementData`; every emitted segment
joins two adjacent template grid points of one face along a grid line whose fixed index is
strictly interior (`1..nt-1`); and for each of the 6 faces every segment of every interior grid
line, in both directions of the face, is emitted exactly once. -/
theorem elementBuffer_interior_lines (ntU ntV ntW r : Nat) (d : DispObject)
    (hU : 1 ≤ ntU) (hV : 1 ≤ ntV) (hW : 1 ≤ ntW)
    (hd : d = mkDispObject ntU ntV ntW r r r) :
    (elementWrites d).length = d.nElemLines
    ∧ elementDataSize d = d.nElemLines
    ∧ d.nElemLines
      = 2 * ((ntU * (ntV - 1) + ntV * (ntU - 1)) + (ntU * (ntW - 1) + ntW * (ntU - 1))
          + (ntV * (ntW - 1) + ntW * (ntV - 1)))
    ∧ (∀ w ∈ elementWrites d,
        InteriorSegment d w.seg ∧ Valid d.tgrid w.p ∧ Valid d.tgrid w.q)
    ∧ (∀ s, InteriorSegment d s → ((elementWrites d).map LineWrite.seg).countP (fun x => decide (x = s)) = 1)
    ∧ ((elementWrites d).map LineWrite.seg).Nodup := by
  have hperm := elementWrites_seg_perm d
  have hmem : ∀ s, s ∈ (elementWrites d).map LineWrite.seg ↔ InteriorSegment d s := by
    intro s
    rw [hperm.mem_iff, List.mem_append, mem_loopSegs, mem_loopSegs]
    constructor
    · rintro (h | h)
      · exact h.1
      · exact h.1
    · intro h
      cases hs : s.1.side
      · exact Or.inl ⟨h, rfl⟩
      · exact Or.inr ⟨h, rfl⟩
  have hnd : ((elementWrites d).map LineWrite.seg).Nodup := by
    rw [hperm.nodup_iff, List.nodup_append]
    refine ⟨nodup_loopSegs d false, nodup_loopSegs d true, ?_⟩
    intro s h1 h2
    rw [mem_loopSegs] at h1 h2
    rw [h1.2] at h2
    exact absurd h2.2 (by decide)
  have hE : d.nElemLines
      = 2 * ((ntU * (ntV - 1) + ntV * (ntU - 1)) + (ntU * (ntW - 1) + ntW * (ntU - 1))
          + (ntV * (ntW - 1) + ntW * (ntV - 1))) := by
    subst hd
    simp only [mkDispObject, usub_of_le hU, usub_of_le hV, usub_of_le hW]
  have hlen : (elementWrites d).length = d.nElemLines := by
    have h1 := hperm.length_eq
    rw [List.length_map, List.length_append, length_loopSegs, length_loopSegs] at h1
    rw [h1, hE]
    subst hd
    simp only [mkDispObject]
    omega
  refine ⟨hlen, rfl, hE, ?_, ?_, hnd⟩
  · intro w hw
    have hi : InteriorSegment d w.seg := (hmem w.seg).mp (List.mem_map.mpr ⟨w, hw, rfl⟩)
    have hv := valid_of_interiorSegment d w.seg (by subst hd; rfl) (by subst hd; rfl)
      (by subst hd; rfl) hi
    exact ⟨hi, hv.1, hv.2⟩
  · intro s hs
    exact countP_eq_one_of_nodup _ s hnd ((hmem s).mpr hs)

/-- Witness for C14: the object the source builds emits 140 segments; the segment from
`(2, 1)` to `(2, 2)` of the far U x W face, on the interior column `i = 2`, is emitted once. -/
theorem elementBuffer_interior_lines_witness :
    (elementWrites (mkDispObject 3 4 5 2 2 2)).length = 140
    ∧ ((elementWrites (mkDispObject 3 4 5 2 2 2)).map LineWrite.seg).countP
        (fun x => decide (x = (⟨AxisPair.uw, 2, 1, true⟩, ⟨AxisPair.uw, 2, 2, true⟩))) = 1 := by
  have h := elementBuffer_interior_lines 3 4 5 2 (mkDispObject 3 4 5 2 2 2) (by decide)
    (by decide) (by decide) rfl
  refine ⟨h.1, h.2.2.2.2.1 _ ?_⟩
  simp [InteriorSegment, tcells, mkDispObject]

/-! ## `mkBoundaryBuffer`: the edges of the box -/

theorem mem_boundaryWrites (d : DispObject) (w : BndWrite) :
    w ∈ boundaryWrites d ↔ ∃ t : BndSlot, t.InRange d ∧ w = bndWriteOf d t := by
  simp only [boundaryWrites, boundaryBody, List.mem_flatMap, List.mem_append, List.mem_map,
    List.mem_range, List.mem_cons, List.mem_singleton, List.not_mem_nil, or_false]
  constructor
  · rintro ⟨a, -, b, -, c, -, (⟨i, hi, rfl⟩ | ⟨i, hi, rfl⟩) | ⟨i, hi, rfl⟩⟩
    · exact ⟨BndSlot.uPbd i a b c, hi, rfl⟩
    · exact ⟨BndSlot.vPbd i a b c, hi, rfl⟩
    · exact ⟨BndSlot.wPbd i a b c, hi, rfl⟩
  · rintro ⟨t, ht, rfl⟩
    cases t with
    | uPbd i a b c =>
      exact ⟨a, by cases a <;> simp, b, by cases b <;> simp, c, by cases c <;> simp,
        Or.inl (Or.inl ⟨i, ht, rfl⟩)⟩
    | vPbd i a b c =>
      exact ⟨a, by cases a <;> simp, b, by cases b <;> simp, c, by cases c <;> simp,
        Or.inl (Or.inr ⟨i, ht, rfl⟩)⟩
    | wPbd i a b c =>
      exact ⟨a, by cases a <;> simp, b, by cases b <;> simp, c, by cases c <;> simp,
        Or.inr ⟨i, ht, rfl⟩⟩

theorem length_boundaryWrites (d : DispObject) :
    (boundaryWrites d).length = 8 * (d.ntU + d.ntV + d.ntW) := by
  simp [boundaryWrites, boundaryBody]
  omega

theorem nodup_flatMap_of_key {α β : Type} (l : List α) (g : α → List β) (key : β → α)
    (hl : l.Nodup) (hg : ∀ a ∈ l, (g a).Nodup) (hk : ∀ a ∈ l, ∀ x ∈ g a, key x = a) :
    (l.flatMap g).Nodup := by
  induction l with
  | nil => simp
  | cons a l ih =>
    rw [List.nodup_cons] at hl
    rw [List.flatMap_cons, List.nodup_append]
    refine ⟨hg a (List.mem_cons_self _ _),
      ih hl.2 (fun x hx => hg x (List.mem_cons_of_mem _ hx))
        (fun x hx => hk x (List.mem_cons_of_mem _ hx)), ?_⟩
    intro x hx hx'
    rw [List.mem_flatMap] at hx'
    obtain ⟨a', ha', hxa'⟩ := hx'
    have e1 := hk a (List.mem_cons_self _ _) x hx
    have e2 := hk a' (List.mem_cons_of_mem _ ha') x hxa'
    rw [e1] at e2
    exact hl.1 (e2 ▸ ha')

theorem nodup_boundaryBody (d : DispObject) (a b c : Bool) : (boundaryBody d a b c).Nodup := by
  unfold boundaryBody
  rw [List.nodup_append, List.nodup_append]
  refine ⟨⟨?_, ?_, ?_⟩, ?_, ?_⟩
  · exact (List.nodup_range _).map (fun i j h => by simpa using congrArg BndWrite.slot h)
  · exact (List.nodup_range _).map (fun i j h => by simpa using congrArg BndWrite.slot h)
  · intro x h1 h2
    simp only [List.mem_map] at h1 h2
    obtain ⟨i, _, rfl⟩ := h1
    obtain ⟨j, _, h⟩ := h2
    simpa using congrArg BndWrite.slot h
  · exact (List.nodup_range _).map (fun i j h => by simpa using congrArg BndWrite.slot h)
  · intro x h1 h2
    simp only [List.mem_append, List.mem_map] at h1 h2
    obtain ⟨j, _, rfl⟩ := h2
    rcases h1 with ⟨i, _, h⟩ | ⟨i, _, h⟩
    · simpa using congrArg BndWrite.slot h
    · simpa using congrArg BndWrite.slot h

theorem flags_of_mem_boundaryBody (d : DispObject) (a b c : Bool) (x : BndWrite)
    (h : x ∈ boundaryBody d a b c) : x.slot.flags = (a, b, c) := by
  simp only [boundaryBody, List.mem_append, List.mem_map] at h
  rcases h with (⟨i, _, rfl⟩ | ⟨i, _, rfl⟩) | ⟨i, _, rfl⟩ <;> rfl

theorem nodup_boundaryWrites (d : DispObject) : (boundaryWrites d).Nodup := by
  have hb : ([true, false] : List Bool).Nodup := by decide
  unfold boundaryWrites
  apply nodup_flatMap_of_key _ _ (fun x => x.slot.flags.1) hb
  · intro a _
    apply nodup_flatMap_of_key _ _ (fun x => x.slot.flags.2.1) hb
    · intro b _
      apply nodup_flatMap_of_key _ _ (fun x => x.slot.flags.2.2) hb
      · intro c _
        exact nodup_boundaryBody d a b c
      · intro c _ x hx
        rw [flags_of_mem_boundaryBody d a b c x hx]
    · intro b _ x hx
      rw [List.mem_flatMap] at hx
      obtain ⟨c, _, hx⟩ := hx
      rw [flags_of_mem_boundaryBody d a b c x hx]
  · intro a _ x hx
    simp only [List.mem_flatMap] at hx
    obtain ⟨b, _, c, _, hx⟩ := hx
    rw [flags_of_mem_boundaryBody d a b c x hx]

theorem seg_bndWriteOf (ntU ntV ntW rU rV rW : Nat) (t : BndSlot) :
    BndWrite.seg (mkDispObject ntU ntV ntW rU rV rW)
        (bndWriteOf (mkDispObject ntU ntV ntW rU rV rW) t)
      = match t with
        | BndSlot.uPbd i a b _ =>
          ((i, (if a then ntV else 0), (if b then ntW else 0)),
            (i + 1, (if a then ntV else 0), (if b then ntW else 0)))
        | BndSlot.vPbd i a b _ =>
          (((if a then ntU else 0), i, (if b then ntW else 0)),
            ((if a then ntU else 0), i + 1, (if b then ntW else 0)))
        | BndSlot.wPbd i a b _ =>
          (((if a then ntU else 0), (if b then ntV else 0), i),
            ((if a then ntU else 0), (if b then ntV else 0), i + 1)) := by
  cases t <;>
    simp [BndWrite.seg, bndWriteOf, gridCoord, mkDispObject, DispObject.tgrid]

theorem core_eq_of_seg_eq (ntU ntV ntW rU rV rW : Nat) (t t' : BndSlot)
    (hU : 1 ≤ ntU) (hV : 1 ≤ ntV) (hW : 1 ≤ ntW)
    (h : BndWrite.seg (mkDispObject ntU ntV ntW rU rV rW)
        (bndWriteOf (mkDispObject ntU ntV ntW rU rV rW) t)
      = BndWrite.seg (mkDispObject ntU ntV ntW rU rV rW)
        (bndWriteOf (mkDispObject ntU ntV ntW rU rV rW) t')) :
    t.core = t'.core := by
  rw [seg_bndWriteOf, seg_bndWriteOf] at h
  cases t with
  | uPbd i a b c =>
    cases t' with
    | uPbd i' a' b' c' =>
      cases a <;> cases b <;> cases a' <;> cases b' <;>
        simp only [Prod.mk.injEq, BndSlot.core, if_true, if_false, Bool.false_eq_true,
          Bool.true_eq_false, and_true, true_and, and_false, false_and] at h ⊢ <;> omega
    | vPbd i' a' b' c' =>
      cases a <;> cases b <;> cases a' <;> cases b' <;>
        simp only [Prod.mk.injEq, BndSlot.core, if_true, if_false, Bool.false_eq_true,
          Bool.true_eq_false, and_true, true_and, and_false, false_and] at h ⊢ <;> omega
    | wPbd i' a' b' c' =>
      cases a <;> cases b <;> cases a' <;> cases b' <;>
        simp only [Prod.mk.injEq, BndSlot.core, if_true, if_false, Bool.false_eq_true,
          Bool.true_eq_false, and_true, true_and, and_false, false_and] at h ⊢ <;> omega
  | vPbd i a b c =>
    cases t' with
    | uPbd i' a' b' c' =>
      cases a <;> cases b <;> cases a' <;> cases b' <;>
        simp only [Prod.mk.injEq, BndSlot.core, if_true, if_false, Bool.false_eq_true,
          Bool.true_eq_false, and_true, true_and, and_false, false_and] at h ⊢ <;> omega
    | vPbd i' a' b' c' =>
      cases a <;> cases b <;> cases a' <;> cases b' <;>
        simp only [Prod.mk.injEq, BndSlot.core, if_true, if_false, Bool.false_eq_true,
          Bool.true_eq_false, and_true, true_and, and_false, false_and] at h ⊢ <;> omega
    | wPbd i' a' b' c' =>
      cases a <;> cases b <;> cases a' <;> cases b' <;>
        simp only [Prod.mk.injEq, BndSlot.core, if_true, if_false, Bool.false_eq_true,
          Bool.true_eq_false, and_true, true_and, and_false, false_and] at h ⊢ <;> omega
  | wPbd i a b c =>
    cases t' with
    | uPbd i' a' b' c' =>
      cases a <;> cases b <;> cases a' <;> cases b' <;>
        simp only [Prod.mk.injEq, BndSlot.core, if_true, if_false, Bool.false_eq_true,
          Bool.true_eq_false, and_true, true_and, and_false, false_and] at h ⊢ <;> omega
    | vPbd i' a' b' c' =>
      cases a <;> cases b <;> cases a' <;> cases b' <;>
        simp only [Prod.mk.injEq, BndSlot.core, if_true, if_false, Bool.false_eq_true,
          Bool.true_eq_false, and_true, true_and, and_false, false_and] at h ⊢ <;> omega
    | wPbd i' a' b' c' =>
      cases a <;> cases b <;> cases a' <;> cases b' <;>
        simp only [Prod.mk.injEq, BndSlot.core, if_true, if_false, Bool.false_eq_true,
          Bool.true_eq_false, and_true, true_and, and_false, false_and] at h ⊢ <;> omega

theorem eq_or_flipC_of_core_eq (t t' : BndSlot) (h : t.core = t'.core) :
    t' = t ∨ t' = t.flipC := by
  cases t <;> cases t' <;> simp only [BndSlot.core, Prod.mk.injEq] at h <;>
    first
      | (exfalso; omega)
      | (obtain ⟨_, h1, h2, h3⟩ := h
         subst h1 h2 h3
         rename_i c _ c'
         cases c <;> cases c' <;> simp [BndSlot.flipC])

theorem flipC_props (d : DispObject) (t : BndSlot) :
    t.flipC ≠ t ∧ t.flipC.core = t.core ∧ t.flipC.face ≠ t.face
      ∧ (t.InRange d → t.flipC.InRange d)
      ∧ (bndWriteOf d t.flipC).p = (bndWriteOf d t).p
      ∧ (bndWriteOf d t.flipC).q = (bndWriteOf d t).q
      ∧ (bndWriteOf d t.flipC).slot = t.flipC := by
  cases t with
  | uPbd i a b c =>
    cases c <;> simp [BndSlot.flipC, BndSlot.core, BndSlot.face, BndSlot.InRange, bndWriteOf]
  | vPbd i a b c =>
    cases c <;> simp [BndSlot.flipC, BndSlot.core, BndSlot.face, BndSlot.InRange, bndWriteOf]
  | wPbd i a b c =>
    cases c <;> simp [BndSlot.flipC, BndSlot.core, BndSlot.face, BndSlot.InRange, bndWriteOf]

theorem edgeSegment_bndWriteOf (ntU ntV ntW rU rV rW : Nat) (t : BndSlot)
    (ht : t.InRange (mkDispObject ntU ntV ntW rU rV rW)) :
    EdgeSegment (mkDispObject ntU ntV ntW rU rV rW)
        (BndWrite.seg (mkDispObject ntU ntV ntW rU rV rW)
          (bndWriteOf (mkDispObject ntU ntV ntW rU rV rW) t))
    ∧ OnFace (mkDispObject ntU ntV ntW rU rV rW) t.face
        (BndWrite.seg (mkDispObject ntU ntV ntW rU rV rW)
          (bndWriteOf (mkDispObject ntU ntV ntW rU rV rW) t)).1
    ∧ OnFace (mkDispObject ntU ntV ntW rU rV rW) t.face
        (BndWrite.seg (mkDispObject ntU ntV ntW rU rV rW)
          (bndWriteOf (mkDispObject ntU ntV ntW rU rV rW) t)).2
    ∧ Valid (mkDispObject ntU ntV ntW rU rV rW).tgrid
        (bndWriteOf (mkDispObject ntU ntV ntW rU rV rW) t).p
    ∧ Valid (mkDispObject ntU ntV ntW rU rV rW).tgrid
        (bndWriteOf (mkDispObject ntU ntV ntW rU rV rW) t).q := by
  rw [seg_bndWriteOf]
  cases t with
  | uPbd i a b c =>
    simp only [BndSlot.InRange, mkDispObject] at ht
    cases a <;> cases b <;> cases c <;>
      simp [EdgeSegment, OnFace, BndSlot.face, Valid, bndWriteOf, mkDispObject,
        DispObject.tgrid] <;> omega
  | vPbd i a b c =>
    simp only [BndSlot.InRange, mkDispObject] at ht
    cases a <;> cases b <;> cases c <;>
      simp [EdgeSegment, OnFace, BndSlot.face, Valid, bndWriteOf, mkDispObject,
        DispObject.tgrid] <;> omega
  | wPbd i a b c =>
    simp only [BndSlot.InRange, mkDispObject] at ht
    cases a <;> cases b <;> cases c <;>
      simp [EdgeSegment, OnFace, BndSlot.face, Valid, bndWriteOf, mkDispObject,
        DispObject.tgrid] <;> omega

theorem exists_slot_of_edgeSegment (ntU ntV ntW rU rV rW : Nat)
    (s : (Nat × Nat × Nat) × (Nat × Nat × Nat))
    (hU : 1 ≤ ntU) (hV : 1 ≤ ntV) (hW : 1 ≤ ntW)
    (hs : EdgeSegment (mkDispObject ntU ntV ntW rU rV rW) s) :
    ∃ t : BndSlot, t.InRange (mkDispObject ntU ntV ntW rU rV rW)
      ∧ BndWrite.seg (mkDispObject ntU ntV ntW rU rV rW)
          (bndWriteOf (mkDispObject ntU ntV ntW rU rV rW) t) = s := by
  obtain ⟨⟨x, y, z⟩, Q⟩ := s
  simp only [EdgeSegment, mkDispObject] at hs
  rcases hs with ⟨rfl, h1, h2, h3⟩ | ⟨rfl, h1, h2, h3⟩ | ⟨rfl, h1, h2, h3⟩
  · refine ⟨BndSlot.uPbd x (decide (y = ntV)) (decide (z = ntW)) false, h1, ?_⟩
    rw [seg_bndWriteOf]
    rcases h2 with rfl | rfl <;> rcases h3 with rfl | rfl <;> simp <;> omega
  · refine ⟨BndSlot.vPbd y (decide (x = ntU)) (decide (z = ntW)) false, h1, ?_⟩
    rw [seg_bndWriteOf]
    rcases h2 with rfl | rfl <;> rcases h3 with rfl | rfl <;> simp <;> omega
  · refine ⟨BndSlot.wPbd z (decide (x = ntU)) (decide (y = ntV)) false, h1, ?_⟩
    rw [seg_bndWriteOf]
    rcases h2 with rfl | rfl <;> rcases h3 with rfl | rfl <;> simp <;> omega

theorem face_cases_of_onFace (ntU ntV ntW rU rV rW : Nat) (t : BndSlot) (f : AxisPair × Bool)
    (hU : 1 ≤ ntU) (hV : 1 ≤ ntV) (hW : 1 ≤ ntW)
    (h1 : OnFace (mkDispObject ntU ntV ntW rU rV rW) f
      (BndWrite.seg (mkDispObject ntU ntV ntW rU rV rW)
        (bndWriteOf (mkDispObject ntU ntV ntW rU rV rW) t)).1)
    (h2 : OnFace (mkDispObject ntU ntV ntW rU rV rW) f
      (BndWrite.seg (mkDispObject ntU ntV ntW rU rV rW)
        (bndWriteOf (mkDispObject ntU ntV ntW rU rV rW) t)).2) :
    f = t.face ∨ f = t.flipC.face := by
  rw [seg_bndWriteOf] at h1 h2
  obtain ⟨pair, side⟩ := f
  cases t with
  | uPbd i a b c =>
    cases pair <;> cases side <;> cases a <;> cases b <;> cases c <;>
      simp [OnFace, BndSlot.face, BndSlot.flipC, mkDispObject] at h1 h2 ⊢ <;> omega
  | vPbd i a b c =>
    cases pair <;> cases side <;> cases a <;> cases b <;> cases c <;>
      simp [OnFace, BndSlot.face, BndSlot.flipC, mkDispObject] at h1 h2 ⊢ <;> omega
  | wPbd i a b c =>
    cases pair <;> cases side <;> cases a <;> cases b <;> cases c <;>
      simp [OnFace, BndSlot.face, BndSlot.flipC, mkDispObject] at h1 h2 ⊢ <;> omega

theorem pbdIdx_range (ntU ntV ntW rU rV rW : Nat) (t : BndSlot)
    (ht : t.InRange (mkDispObject ntU ntV ntW rU rV rW)) :
    tbl (mkDispObject ntU ntV ntW rU rV rW).boundaryIdxs (faceNo t.face)
        ≤ pbdIdx (mkDispObject ntU ntV ntW rU rV rW) t
    ∧ pbdIdx (mkDispObject ntU ntV ntW rU rV rW) t
        < tbl (mkDispObject ntU ntV ntW rU rV rW).boundaryIdxs (faceNo t.face + 1)
    ∧ pbdIdx (mkDispObject ntU ntV ntW rU rV rW) t < 8 * (ntU + ntV + ntW) := by
  cases t with
  | uPbd i a b c =>
    simp only [BndSlot.InRange, mkDispObject] at ht
    cases a <;> cases b <;> cases c <;>
      simp [pbdIdx, BndSlot.face, faceNo, tbl, mkDispObject] <;> omega
  | vPbd i a b c =>
    simp only [BndSlot.InRange, mkDispObject] at ht
    cases a <;> cases b <;> cases c <;>
      simp [pbdIdx, BndSlot.face, faceNo, tbl, mkDispObject] <;> omega
  | wPbd i a b c =>
    simp only [BndSlot.InRange, mkDispObject] at ht
    cases a <;> cases b <;> cases c <;>
      simp [pbdIdx, BndSlot.face, faceNo, tbl, mkDispObject] <;> omega

theorem pbdIdx_mkDispObject (ntU ntV ntW rU rV rW : Nat) (t : BndSlot) :
    pbdIdx (mkDispObject ntU ntV ntW rU rV rW) t
      = match t with
        | BndSlot.uPbd i a b c =>
          if c then 4 * (ntU + ntV) + (if a then 2 * (ntU + ntW) else 0)
            + (if b then ntU else 0) + i
          else (if b then 2 * (ntU + ntV) else 0) + (if a then ntU else 0) + i
        | BndSlot.vPbd i a b c =>
          if c then 4 * (ntU + ntV) + 4 * (ntU + ntW) + (if a then 2 * (ntV + ntW) else 0)
            + (if b then ntV else 0) + i
          else (if b then 2 * (ntU + ntV) else 0) + 2 * ntU + (if a then ntV else 0) + i
        | BndSlot.wPbd i a b c =>
          if c then 4 * (ntU + ntV) + 4 * (ntU + ntW) + (if a then 2 * (ntV + ntW) else 0)
            + 2 * ntV + (if b then ntW else 0) + i
          else 4 * (ntU + ntV) + (if b then 2 * (ntU + ntW) else 0) + 2 * ntU
            + (if a then ntW else 0) + i := by
  cases t with
  | uPbd i a b c =>
    cases a <;> cases b <;> cases c <;> simp [pbdIdx, faceNo, tbl, mkDispObject]
  | vPbd i a b c =>
    cases a <;> cases b <;> cases c <;> simp [pbdIdx, faceNo, tbl, mkDispObject]
  | wPbd i a b c =>
    cases a <;> cases b <;> cases c <;> simp [pbdIdx, faceNo, tbl, mkDispObject]

theorem pbdIdx_inj (ntU ntV ntW rU rV rW : Nat) (t t' : BndSlot)
    (ht : t.InRange (mkDispObject ntU ntV ntW rU rV rW))
    (ht' : t'.InRange (mkDispObject ntU ntV ntW rU rV rW))
    (h : pbdIdx (mkDispObject ntU ntV ntW rU rV rW) t
      = pbdIdx (mkDispObject ntU ntV ntW rU rV rW) t') : t = t' := by
  rw [pbdIdx_mkDispObject, pbdIdx_mkDispObject] at h
  cases t with
  | uPbd i a b c =>
    simp only [BndSlot.InRange, mkDispObject] at ht
    cases t' with
    | uPbd i' a' b' c' =>
      simp only [BndSlot.InRange, mkDispObject] at ht'
      cases a <;> cases b <;> cases c <;> cases a' <;> cases b' <;> cases c' <;>
        simp only [if_true, if_false, Bool.false_eq_true] at h <;>
        first
          | (exfalso; omega)
          | (have e : i = i' := by omega
             rw [e])
    | vPbd i' a' b' c' =>
      simp only [BndSlot.InRange, mkDispObject] at ht'
      cases a <;> cases b <;> cases c <;> cases a' <;> cases b' <;> cases c' <;>
        simp only [if_true, if_false, Bool.false_eq_true] at h <;>
        (exfalso; omega)
    | wPbd i' a' b' c' =>
      simp only [BndSlot.InRange, mkDispObject] at ht'
      cases a <;> cases b <;> cases c <;> cases a' <;> cases b' <;> cases c' <;>
        simp only [if_true, if_false, Bool.false_eq_true] at h <;>
        (exfalso; omega)
  | vPbd i a b c =>
    simp only [BndSlot.InRange, mkDispObject] at ht
    cases t' with
    | uPbd i' a' b' c' =>
      simp only [BndSlot.InRange, mkDispObject] at ht'
      cases a <;> cases b <;> cases c <;> cases a' <;> cases b' <;> cases c' <;>
        simp only [if_true, if_false, Bool.false_eq_true] at h <;>
        (exfalso; omega)
    | vPbd i' a' b' c' =>
      simp only [BndSlot.InRange, mkDispObject] at ht'
      cases a <;> cases b <;> cases c <;> cases a' <;> cases b' <;> cases c' <;>
        simp only [if_true, if_false, Bool.false_eq_true] at h <;>
        first
          | (exfalso; omega)
          | (have e : i = i' := by omega
             rw [e])
    | wPbd i' a' b' c' =>
      simp only [BndSlot.InRange, mkDispObject] at ht'
      cases a <;> cases b <;> cases c <;> cases a' <;> cases b' <;> cases c' <;>
        simp only [if_true, if_false, Bool.false_eq_true] at h <;>
        (exfalso; omega)
  | wPbd i a b c =>
    simp only [BndSlot.InRange, mkDispObject] at ht
    cases t' with
    | uPbd i' a' b' c' =>
      simp only [BndSlot.InRange, mkDispObject] at ht'
      cases a <;> cases b <;> cases c <;> cases a' <;> cases b' <;> cases c' <;>
        simp only [if_true, if_false, Bool.false_eq_true] at h <;>
        (exfalso; omega)
    | vPbd i' a' b' c' =>
      simp only [BndSlot.InRange, mkDispObject] at ht'
      cases a <;> cases b <;> cases c <;> cases a' <;> cases b' <;> cases c' <;>
        simp only [if_true, if_false, Bool.false_eq_true] at h <;>
        (exfalso; omega)
    | wPbd i' a' b' c' =>
      simp only [BndSlot.InRange, mkDispObject] at ht'
      cases a <;> cases b <;> cases c <;> cases a' <;> cases b' <;> cases c' <;>
        simp only [if_true, if_false, Bool.false_eq_true] at h <;>
        first
          | (exfalso; omega)
          | (have e : i = i' := by omega
             rw [e])

theorem countP_eq_one_of_unique {α : Type} (l : List α) (p : α → Bool) (x : α)
    (hnd : l.Nodup) (hx : x ∈ l) (hp : ∀ z ∈ l, p z = true ↔ z = x) : l.countP p = 1 := by
  rw [List.countP_eq_length_filter]
  have hperm : (l.filter p).Perm [x] := by
    rw [List.perm_ext_iff_of_nodup (hnd.filter p) (List.nodup_singleton x)]
    intro z
    rw [List.mem_filter, List.mem_singleton]
    constructor
    · rintro ⟨hz, hpz⟩
      exact (hp z hz).mp hpz
    · rintro rfl
      exact ⟨hx, (hp z hx).mpr rfl⟩
  rw [hperm.length_eq]
  rfl

theorem countP_eq_two_of_pair {α : Type} (l : List α) (p : α → Bool) (x y : α)
    (hnd : l.Nodup) (hx : x ∈ l) (hy : y ∈ l) (hxy : x ≠ y)
    (hp : ∀ z ∈ l, p z = true ↔ z = x ∨ z = y) : l.countP p = 2 := by
  rw [List.countP_eq_length_filter]
  have hperm : (l.filter p).Perm [x, y] := by
    rw [List.perm_ext_iff_of_nodup (hnd.filter p) (by simp [hxy])]
    intro z
    rw [List.mem_filter]
    simp only [List.mem_cons, List.mem_singleton, List.not_mem_nil, or_false]
    constructor
    · rintro ⟨hz, hpz⟩
      exact (hp z hz).mp hpz
    · rintro (rfl | rfl)
      · exact ⟨hx, (hp z hx).mpr (Or.inl rfl)⟩
      · exact ⟨hy, (hp z hy).mpr (Or.inr rfl)⟩
  rw [hperm.length_eq]
  rfl

theorem boundary_face_count (d : DispObject) (f : AxisPair × Bool) :
    (boundaryWrites d).countP (fun w => decide (w.slot.face = f))
      = 2 * ((tcells d f.1).1 + (tcells d f.1).2) := by
  obtain ⟨pair, side⟩ := f
  cases pair <;> cases side <;>
    simp [boundaryWrites, boundaryBody, List.countP_append, List.countP_map,
      Function.comp_def, BndSlot.face, tcells] <;> omega

/-- C13: for template counts `≥ 1`, `mkBoundaryBuffer` emits, over the 8 combinations of the
flags `(a, b, c)`, exactly `8*(ntU+ntV+ntW)` segments, the length of `patchBndData`; each
joins two adjacent template grid points along one of the 12 edges of the box; the segment
emitted for `(i, a, b, c = true)` is the one emitted for `(i, a, b, c = false)`, so every edge
segment is emitted exactly twice.  With the slot indexers as modelled from the specification,
the slots written are a rearrangement of `0, ..., 8*(ntU+ntV+ntW) - 1`, each slot lies in the
range of `boundaryIdxs` of a face on which both end points of its segment lie, every edge
segment of a face is listed exactly once in the range of that face, and each face gets
`2*(ntA + ntB)` segments, its full perimeter. -/
theorem boundaryBuffer_edges (ntU ntV ntW r : Nat) (d : DispObject)
    (hU : 1 ≤ ntU) (hV : 1 ≤ ntV) (hW : 1 ≤ ntW)
    (hd : d = mkDispObject ntU ntV ntW r r r) :
    ((boundaryWrites d).length = 8 * (ntU + ntV + ntW)
      ∧ patchBndDataSize d = 8 * (ntU + ntV + ntW))
    ∧ (∀ w ∈ boundaryWrites d,
        EdgeSegment d (w.seg d) ∧ Valid d.tgrid w.p ∧ Valid d.tgrid w.q)
    ∧ (∀ w ∈ boundaryWrites d, ∃ w' ∈ boundaryWrites d,
        w'.slot = w.slot.flipC ∧ w'.p = w.p ∧ w'.q = w.q)
    ∧ (∀ s, EdgeSegment d s →
        (boundaryWrites d).countP (fun w => decide (w.seg d = s)) = 2)
    ∧ ((boundaryWrites d).map fun w => pbdIdx d w.slot).Perm
        (List.range (8 * (ntU + ntV + ntW)))
    ∧ (∀ w ∈ boundaryWrites d,
        (tbl d.boundaryIdxs (faceNo w.slot.face) ≤ pbdIdx d w.slot
          ∧ pbdIdx d w.slot < tbl d.boundaryIdxs (faceNo w.slot.face + 1))
        ∧ OnFace d w.slot.face (w.seg d).1 ∧ OnFace d w.slot.face (w.seg d).2)
    ∧ (∀ f s, EdgeSegment d s → OnFace d f s.1 → OnFace d f s.2 →
        (boundaryWrites d).countP (fun w => decide (w.slot.face = f ∧ w.seg d = s)) = 1)
    ∧ (∀ f : AxisPair × Bool,
        (boundaryWrites d).countP (fun w => decide (w.slot.face = f))
          = 2 * ((tcells d f.1).1 + (tcells d f.1).2)) := by
  subst hd
  have hnd := nodup_boundaryWrites (mkDispObject ntU ntV ntW r r r)
  have hmem := mem_boundaryWrites (mkDispObject ntU ntV ntW r r r)
  have hlen : (boundaryWrites (mkDispObject ntU ntV ntW r r r)).length
      = 8 * (ntU + ntV + ntW) := length_boundaryWrites _
  have hslot : ∀ t : BndSlot, (bndWriteOf (mkDispObject ntU ntV ntW r r r) t).slot = t := by
    intro t
    cases t <;> rfl
  have hsegs : ∀ t t' : BndSlot,
      t.InRange (mkDispObject ntU ntV ntW r r r) →
      t'.InRange (mkDispObject ntU ntV ntW r r r) →
      (BndWrite.seg (mkDispObject ntU ntV ntW r r r)
          (bndWriteOf (mkDispObject ntU ntV ntW r r r) t')
        = BndWrite.seg (mkDispObject ntU ntV ntW r r r)
          (bndWriteOf (mkDispObject ntU ntV ntW r r r) t)
        ↔ t' = t ∨ t' = t.flipC) := by
    intro t t' _ _
    constructor
    · intro h
      exact eq_or_flipC_of_core_eq t t' (core_eq_of_seg_eq _ _ _ _ _ _ _ _ hU hV hW h.symm)
    · rintro (rfl | rfl)
      · rfl
      · obtain ⟨_, _, _, _, e1, e2, _⟩ := flipC_props (mkDispObject ntU ntV ntW r r r) t
        simp only [BndWrite.seg, e1, e2]
  refine ⟨⟨hlen, rfl⟩, ?_, ?_, ?_, ?_, ?_, ?_, boundary_face_count _⟩
  · intro w hw
    obtain ⟨t, ht, rfl⟩ := (hmem w).mp hw
    obtain ⟨h1, _, _, h4, h5⟩ := edgeSegment_bndWriteOf ntU ntV ntW r r r t ht
    exact ⟨h1, h4, h5⟩
  · intro w hw
    obtain ⟨t, ht, rfl⟩ := (hmem w).mp hw
    obtain ⟨_, _, _, h4, e1, e2, _⟩ := flipC_props (mkDispObject ntU ntV ntW r r r) t
    refine ⟨bndWriteOf _ t.flipC, (hmem _).mpr ⟨t.flipC, h4 ht, rfl⟩, ?_, e1, e2⟩
    rw [hslot, hslot]
  · intro s hs
    obtain ⟨t, ht, rfl⟩ := exists_slot_of_edgeSegment ntU ntV ntW r r r s hU hV hW hs
    obtain ⟨h1, _, _, h4, _, _, h7⟩ := flipC_props (mkDispObject ntU ntV ntW r r r) t
    apply countP_eq_two_of_pair _ _ (bndWriteOf _ t) (bndWriteOf _ t.flipC) hnd
      ((hmem _).mpr ⟨t, ht, rfl⟩) ((hmem _).mpr ⟨t.flipC, h4 ht, rfl⟩)
    · intro he
      have := congrArg BndWrite.slot he
      rw [hslot, hslot] at this
      exact h1 this.symm
    · intro z hz
      obtain ⟨t', ht', rfl⟩ := (hmem z).mp hz
      rw [decide_eq_true_eq, hsegs t t' ht ht']
      constructor
      · rintro (rfl | rfl)
        · exact Or.inl rfl
        · exact Or.inr rfl
      · rintro (h | h)
        · have := congrArg BndWrite.slot h
          rw [hslot, hslot] at this
          exact Or.inl this
        · have := congrArg BndWrite.slot h
          rw [hslot, hslot] at this
          exact Or.inr this
  · apply perm_range_of_nodup
    · apply hnd.map_on
      intro w hw w' hw' h
      obtain ⟨t, ht, rfl⟩ := (hmem w).mp hw
      obtain ⟨t', ht', rfl⟩ := (hmem w').mp hw'
      rw [hslot, hslot] at h
      rw [pbdIdx_inj ntU ntV ntW r r r t t' ht ht' h]
    · intro x hx
      rw [List.mem_map] at hx
      obtain ⟨w, hw, rfl⟩ := hx
      obtain ⟨t, ht, rfl⟩ := (hmem w).mp hw
      rw [hslot]
      exact (pbdIdx_range ntU ntV ntW r r r t ht).2.2
    · rw [List.length_map, hlen]
  · intro w hw
    obtain ⟨t, ht, rfl⟩ := (hmem w).mp hw
    obtain ⟨_, h2, h3, _, _⟩ := edgeSegment_bndWriteOf ntU ntV ntW r r r t ht
    obtain ⟨g1, g2, _⟩ := pbdIdx_range ntU ntV ntW r r r t ht
    rw [hslot]
    exact ⟨⟨g1, g2⟩, h2, h3⟩
  · intro f s hs hf1 hf2
    obtain ⟨t, ht, rfl⟩ := exists_slot_of_edgeSegment ntU ntV ntW r r r s hU hV hW hs
    obtain ⟨h1, _, h3, h4, e1, e2, _⟩ := flipC_props (mkDispObject ntU ntV ntW r r r) t
    have key : ∀ t0 : BndSlot, t0.InRange (mkDispObject ntU ntV ntW r r r) →
        t0.face = f → (t0 = t ∨ t0 = t.flipC) →
        (boundaryWrites (mkDispObject ntU ntV ntW r r r)).countP
          (fun w => decide (w.slot.face = f
            ∧ BndWrite.seg (mkDispObject ntU ntV ntW r r r) w
              = BndWrite.seg (mkDispObject ntU ntV ntW r r r)
                (bndWriteOf (mkDispObject ntU ntV ntW r r r) t))) = 1 := by
      intro t0 ht0 hface hcase
      apply countP_eq_one_of_unique _ _ (bndWriteOf _ t0) hnd ((hmem _).mpr ⟨t0, ht0, rfl⟩)
      intro z hz
      obtain ⟨t', ht', rfl⟩ := (hmem z).mp hz
      rw [decide_eq_true_eq, hslot, hsegs t t' ht ht']
      constructor
      · rintro ⟨hf, hc⟩
        have : t' = t0 := by
          rcases hc with hc | hc <;> rcases hcase with hcase | hcase
          · exact hc.trans hcase.symm
          · rw [hc] at hf
            rw [hcase] at hface
            exact absurd (hface.trans hf.symm) h3
          · rw [hc] at hf
            rw [hcase] at hface
            exact absurd (hf.trans hface.symm) h3
          · exact hc.trans hcase.symm
        rw [this]
      · intro h
        have := congrArg BndWrite.slot h
        rw [hslot, hslot] at this
        subst this
        exact ⟨hface, hcase⟩
    rcases face_cases_of_onFace ntU ntV ntW r r r t f hU hV hW hf1 hf2 with hf | hf
    · exact key t ht hf.symm (Or.inl rfl)
    · exact key t.flipC (h4 ht) hf.symm (Or.inr rfl)

/-- Witness for C13: the object the source builds emits 96 segments; the first segment of the
edge along U at `y = -1`, `z = -1` is emitted twice, once in the range of the near U x V
face. -/
theorem boundaryBuffer_edges_witness :
    (boundaryWrites (mkDispObject 3 4 5 2 2 2)).length = 96
    ∧ (boundaryWrites (mkDispObject 3 4 5 2 2 2)).countP
        (fun w => decide (w.seg (mkDispObject 3 4 5 2 2 2) = ((0, 0, 0), (1, 0, 0)))) = 2
    ∧ (boundaryWrites (mkDispObject 3 4 5 2 2 2)).countP
        (fun w => decide (w.slot.face = (AxisPair.uv, false)
          ∧ w.seg (mkDispObject 3 4 5 2 2 2) = ((0, 0, 0), (1, 0, 0)))) = 1 := by
  have h := boundaryBuffer_edges 3 4 5 2 (mkDispObject 3 4 5 2 2 2) (by decide) (by decide)
    (by decide) rfl
  have hs : EdgeSegment (mkDispObject 3 4 5 2 2 2) ((0, 0, 0), (1, 0, 0)) := by
    simp [EdgeSegment, mkDispObject]
  refine ⟨h.1.1, h.2.2.2.1 _ hs, h.2.2.2.2.2.2.1 (AxisPair.uv, false) _ hs ?_ ?_⟩
  · simp [OnFace]
  · simp [OnFace]

/-! ## The box of the constructor and two rays -/

theorem mem_mkFaceData (d : DispObject) (q : Quad)
    (hE : d.nElems = 2 * d.nU * d.nV + 2 * d.nU * d.nW + 2 * d.nV * d.nW)
    (hU : 0 < d.nU) (hV : 0 < d.nV) (hq : q ∈ mkFaceData d) :
    ∃ pair i j b, i < (cells d pair).1 ∧ j < (cells d pair).2
      ∧ q = quadAt d.grid pair i j b := by
  have hlen : (mkFaceData d).length = d.nElems := by
    simp only [mkFaceData, length_writeAll, List.length_replicate]
  obtain ⟨k, hk⟩ := List.mem_iff_getElem?.mp hq
  have hk' : k < d.nElems := by
    rw [← hlen]
    by_contra hge
    rw [List.getElem?_eq_none (by omega)] at hk
    exact absurd hk (by simp)
  obtain ⟨pair, i, j, b, hi, hj, e⟩ := elIdx_surj d k hE hU hV hk'
  obtain ⟨w, hw, _, e2⟩ := writeAll_getElem?_of_written (faceWrites d)
    (List.replicate d.nElems ⟨0, 0, 0, 0⟩) k (by simpa using hk')
    ⟨_, (mem_faceWrites d _).mpr ⟨pair, i, j, b, hi, hj, rfl⟩, e⟩
  obtain ⟨pair', i', j', b', hi', hj', rfl⟩ := (mem_faceWrites d w).mp hw
  refine ⟨pair', i', j', b', hi', hj', ?_⟩
  unfold mkFaceData at hk
  rw [e2] at hk
  exact (Option.some.inj hk).symm

theorem faceData_uv_side (k : Nat) (b : Bool) (hk : k < 48) :
    ∃ i j, i < 6 ∧ j < 8 ∧ i + 6 * j = k
      ∧ (mkFaceData (mkDispObject 3 4 5 2 2 2))[(if b then 48 else 0) + k]?
        = some (quadAt (mkDispObject 3 4 5 2 2 2).grid AxisPair.uv i j b) := by
  have hi : k % 6 < 6 := Nat.mod_lt _ (by decide)
  have hj : k / 6 < 8 := by omega
  have ho : (if b then 48 else 0) ≤ 48 := by cases b <;> simp
  have he : elIdx (mkDispObject 3 4 5 2 2 2) AxisPair.uv (k % 6) (k / 6) b
      = (if b then 48 else 0) + k := by
    show (if b = true then 6 * 8 else 0) + k % 6 + 6 * (k / 6) = (if b then 48 else 0) + k
    cases b <;> simp only [Bool.false_eq_true, if_false, if_true] <;> omega
  obtain ⟨w, hw, e1, e2⟩ := writeAll_getElem?_of_written
    (faceWrites (mkDispObject 3 4 5 2 2 2))
    (List.replicate (mkDispObject 3 4 5 2 2 2).nElems ⟨0, 0, 0, 0⟩) ((if b then 48 else 0) + k)
    (by
      rw [List.length_replicate]
      show (if b then 48 else 0) + k < 376
      omega)
    ⟨_, (mem_faceWrites _ _).mpr ⟨AxisPair.uv, k % 6, k / 6, b, hi, hj, rfl⟩, he⟩
  obtain ⟨pair, i, j, b', hi', hj', rfl⟩ := (mem_faceWrites _ w).mp hw
  have hc : pair = AxisPair.uv ∧ b' = b ∧ i < 6 ∧ j < 8 ∧ i + 6 * j = k := by
    cases pair <;> cases b' <;> cases b
    all_goals
      simp only [elIdx, uvEl, uwEl, vwEl, cells, mkDispObject, Bool.false_eq_true, if_false,
        if_true] at e1 hi' hj'
      simp only [true_and, reduceCtorEq, false_and]
      omega
  obtain ⟨rfl, rfl, h1, h2, h3⟩ := hc
  exact ⟨i, j, h1, h2, h3, e2⟩

theorem mem_uv_block (b : Bool) (q : Quad)
    (hq : q ∈ ((mkFaceData (mkDispObject 3 4 5 2 2 2)).drop (if b then 48 else 0)).take 48) :
    ∃ i j, i < 6 ∧ j < 8 ∧ q = quadAt (mkDispObject 3 4 5 2 2 2).grid AxisPair.uv i j b := by
  obtain ⟨k, hk⟩ := List.mem_iff_getElem?.mp hq
  have hk48 : k < 48 := by
    by_contra hge
    rw [List.getElem?_take, if_neg hge] at hk
    exact absurd hk (by simp)
  rw [List.getElem?_take, if_pos hk48, List.getElem?_drop] at hk
  obtain ⟨i, j, hi, hj, _, e⟩ := faceData_uv_side k b hk48
  rw [e] at hk
  exact ⟨i, j, hi, hj, (Option.some.inj hk).symm⟩

theorem corner_mem_uv_block (b : Bool) :
    quadAt (mkDispObject 3 4 5 2 2 2).grid AxisPair.uv 2 3 b
      ∈ ((mkFaceData (mkDispObject 3 4 5 2 2 2)).drop (if b then 48 else 0)).take 48 := by
  obtain ⟨i, j, hi, hj, hk, e⟩ := faceData_uv_side 20 b (by decide)
  have h1 : i = 2 := by omega
  have h2 : j = 3 := by omega
  subst h1 h2
  apply List.mem_iff_getElem?.mpr
  refine ⟨20, ?_⟩
  rw [List.getElem?_take, if_pos (by decide), List.getElem?_drop]
  exact e

theorem box_vertex (p : LPos) (hp : Valid (mkDispObject 3 4 5 2 2 2).grid p) :
    (mkVertexData (mkDispObject 3 4 5 2 2 2) ⟨0, 0, 0⟩).1.getD
        (ptIdx (mkDispObject 3 4 5 2 2 2).grid p) Vec3.zero
      = localPt (mkDispObject 3 4 5 2 2 2).grid p := by
  rw [(mkVertexData_getD 3 4 5 2 _ ⟨0, 0, 0⟩ (by decide) (by decide) (by decide) (by decide)
    rfl).1 p hp]
  simp only [Vec3.add, zero_add]

theorem lpt_le_one (i N : Nat) (hN : 2 ≤ N) (hi : i + 1 ≤ N) : lpt i N ≤ 1 := by
  rw [lpt_eq i N hN]
  have h1 : (0 : ℚ) < (N : ℚ) - 1 := by
    have : (2 : ℚ) ≤ (N : ℚ) := by exact_mod_cast hN
    linarith
  have h2 : (i : ℚ) ≤ (N : ℚ) - 1 := by
    have : ((i + 1 : Nat) : ℚ) ≤ (N : ℚ) := by exact_mod_cast hi
    push_cast at this
    linarith
  rw [sub_le_iff_le_add, div_le_iff₀ h1]
  linarith

theorem box_localPt_x (p : LPos) (hp : Valid (mkDispObject 3 4 5 2 2 2).grid p) :
    (localPt (mkDispObject 3 4 5 2 2 2).grid p).x ≤ 1 := by
  obtain ⟨pair, i, j, b⟩ := p
  cases pair
  · have h : i < 7 ∧ j < 9 := hp
    exact lpt_le_one i 7 (by decide) (by omega)
  · have h : i < 7 ∧ j < 11 := hp
    exact lpt_le_one i 7 (by decide) (by omega)
  · show sideCoord b ≤ 1
    cases b <;> simp [sideCoord]

theorem localPt_normal (g : Grid) (i j : Nat) (b : Bool) :
    (localPt g ⟨AxisPair.uv, i, j, b⟩).z = sideCoord b
    ∧ (localPt g ⟨AxisPair.uw, i, j, b⟩).y = sideCoord b
    ∧ (localPt g ⟨AxisPair.vw, i, j, b⟩).x = sideCoord b := by
  exact ⟨rfl, rfl, rfl⟩

theorem box_quad_valid (pair : AxisPair) (i j : Nat) (b : Bool)
    (hi : i < (cells (mkDispObject 3 4 5 2 2 2) pair).1)
    (hj : j < (cells (mkDispObject 3 4 5 2 2 2) pair).2) :
    Valid (mkDispObject 3 4 5 2 2 2).grid ⟨pair, i, j, b⟩
    ∧ Valid (mkDispObject 3 4 5 2 2 2).grid ⟨pair, i + 1, j, b⟩
    ∧ Valid (mkDispObject 3 4 5 2 2 2).grid ⟨pair, i + 1, j + 1, b⟩
    ∧ Valid (mkDispObject 3 4 5 2 2 2).grid ⟨pair, i, j + 1, b⟩ := by
  cases pair
  · have h1 : i < 6 := hi
    have h2 : j < 8 := hj
    refine ⟨?_, ?_, ?_, ?_⟩
    · show i < 7 ∧ j < 9
      omega
    · show i + 1 < 7 ∧ j < 9
      omega
    · show i + 1 < 7 ∧ j + 1 < 9
      omega
    · show i < 7 ∧ j + 1 < 9
      omega
  · have h1 : i < 6 := hi
    have h2 : j < 10 := hj
    refine ⟨?_, ?_, ?_, ?_⟩
    · show i < 7 ∧ j < 11
      omega
    · show i + 1 < 7 ∧ j < 11
      omega
    · show i + 1 < 7 ∧ j + 1 < 11
      omega
    · show i < 7 ∧ j + 1 < 11
      omega
  · have h1 : i < 8 := hi
    have h2 : j < 10 := hj
    refine ⟨?_, ?_, ?_, ?_⟩
    · show i < 9 ∧ j < 11
      omega
    · show i + 1 < 9 ∧ j < 11
      omega
    · show i + 1 < 9 ∧ j + 1 < 11
      omega
    · show i < 9 ∧ j + 1 < 11
      omega

theorem accept_param_of_plane (vd : List Vec3) (i j k : Nat) (c t : ℚ)
    (h : triangleAccept vd ⟨0, 0, -5⟩ ⟨0, 0, 5⟩ (i, j, k) = some t)
    (hi : (vd.getD i Vec3.zero).z = c) (hj : (vd.getD j Vec3.zero).z = c)
    (hk : (vd.getD k Vec3.zero).z = c) : t = (5 + c) / 10 := by
  obtain ⟨β, γ, hm, _⟩ := triangleAccept_sound vd _ _ i j k t h
  have hz := congrArg Vec3.z hm
  simp only [Mat3.mulVec, triangleMatrix, Vec3.sub, hi, hj, hk] at hz
  linarith

theorem accept_none_of_side_plane (vd : List Vec3) (i j k : Nat) (c : ℚ) (hc : c ≠ 0)
    (h : ((vd.getD i Vec3.zero).y = c ∧ (vd.getD j Vec3.zero).y = c
        ∧ (vd.getD k Vec3.zero).y = c)
      ∨ ((vd.getD i Vec3.zero).x = c ∧ (vd.getD j Vec3.zero).x = c
        ∧ (vd.getD k Vec3.zero).x = c)) :
    triangleAccept vd ⟨0, 0, -5⟩ ⟨0, 0, 5⟩ (i, j, k) = none := by
  cases ht : triangleAccept vd ⟨0, 0, -5⟩ ⟨0, 0, 5⟩ (i, j, k) with
  | none => rfl
  | some t =>
    exfalso
    obtain ⟨β, γ, hm, _⟩ := triangleAccept_sound vd _ _ i j k t ht
    rcases h with ⟨h1, h2, h3⟩ | ⟨h1, h2, h3⟩
    · have hy := congrArg Vec3.y hm
      simp only [Mat3.mulVec, triangleMatrix, Vec3.sub, h1, h2, h3] at hy
      exact hc (by linarith)
    · have hx := congrArg Vec3.x hm
      simp only [Mat3.mulVec, triangleMatrix, Vec3.sub, h1, h2, h3] at hx
      exact hc (by linarith)

theorem accept_none_of_le_one (vd : List Vec3) (i j k : Nat)
    (hi : (vd.getD i Vec3.zero).x ≤ 1) (hj : (vd.getD j Vec3.zero).x ≤ 1)
    (hk : (vd.getD k Vec3.zero).x ≤ 1) :
    triangleAccept vd ⟨5, 5, 5⟩ ⟨6, 6, 6⟩ (i, j, k) = none := by
  cases h : triangleAccept vd ⟨5, 5, 5⟩ ⟨6, 6, 6⟩ (i, j, k) with
  | none => rfl
  | some t =>
    exfalso
    obtain ⟨β, γ, hm, _, h1, h2, h3, h4⟩ := triangleAccept_sound vd _ _ i j k t h
    have hx := congrArg Vec3.x hm
    simp only [Mat3.mulVec, triangleMatrix, Vec3.sub] at hx
    nlinarith [mul_nonneg h1 (sub_nonneg.mpr hi), mul_nonneg h2 (sub_nonneg.mpr hj),
      mul_nonneg (sub_nonneg.mpr h3) (sub_nonneg.mpr hk)]

theorem box_corner_accepted (b : Bool) :
    triangleAccept (mkVertexData (mkDispObject 3 4 5 2 2 2) ⟨0, 0, 0⟩).1 ⟨0, 0, -5⟩ ⟨0, 0, 5⟩
      ((quadAt (mkDispObject 3 4 5 2 2 2).grid AxisPair.uv 2 3 b).a,
       (quadAt (mkDispObject 3 4 5 2 2 2).grid AxisPair.uv 2 3 b).b,
       (quadAt (mkDispObject 3 4 5 2 2 2).grid AxisPair.uv 2 3 b).c)
      = some ((5 + sideCoord b) / 10) := by
  obtain ⟨v1, v2, v3, _⟩ := box_quad_valid AxisPair.uv 2 3 b (by decide) (by decide)
  have e1 := box_vertex _ v1
  have e2 := box_vertex _ v2
  have e3 := box_vertex _ v3
  have l27 : lpt 2 7 = -1 / 3 := by rw [lpt_eq 2 7 (by decide)]; norm_num
  have l37 : lpt 3 7 = 0 := by rw [lpt_eq 3 7 (by decide)]; norm_num
  have l39 : lpt 3 9 = -1 / 4 := by rw [lpt_eq 3 9 (by decide)]; norm_num
  have l49 : lpt 4 9 = 0 := by rw [lpt_eq 4 9 (by decide)]; norm_num
  have f1 : localPt (mkDispObject 3 4 5 2 2 2).grid ⟨AxisPair.uv, 2, 3, b⟩
      = ⟨-1 / 3, -1 / 4, sideCoord b⟩ := by
    show (⟨lpt 2 7, lpt 3 9, sideCoord b⟩ : Vec3) = _
    rw [l27, l39]
  have f2 : localPt (mkDispObject 3 4 5 2 2 2).grid ⟨AxisPair.uv, 2 + 1, 3, b⟩
      = ⟨0, -1 / 4, sideCoord b⟩ := by
    show (⟨lpt 3 7, lpt 3 9, sideCoord b⟩ : Vec3) = _
    rw [l37, l39]
  have f3 : localPt (mkDispObject 3 4 5 2 2 2).grid ⟨AxisPair.uv, 2 + 1, 3 + 1, b⟩
      = ⟨0, 0, sideCoord b⟩ := by
    show (⟨lpt 3 7, lpt 4 9, sideCoord b⟩ : Vec3) = _
    rw [l37, l49]
  rw [f1] at e1
  rw [f2] at e2
  rw [f3] at e3
  have hdet : ¬ (|(5 / 6 : ℚ)| < 1 / 10000) := by
    rw [abs_of_pos (by norm_num)]
    norm_num
  cases b
  all_goals
    simp only [triangleAccept, triangleMatrix, quadAt, e1, e2, e3, Vec3.sub, Mat3.solve,
      Mat3.det, sideCoord, Bool.false_eq_true, if_false, if_true]
    norm_num
    exact fun h => absurd h hdet

theorem quadTriangles_append (l1 l2 : List Quad) :
    quadTriangles (l1 ++ l2) = quadTriangles l1 ++ quadTriangles l2 := by
  simp only [quadTriangles, List.flatMap_append]

theorem mem_quadTriangles (l : List Quad) (tri : Nat × Nat × Nat) :
    tri ∈ quadTriangles l ↔ ∃ q ∈ l, tri = (q.a, q.b, q.c) ∨ tri = (q.a, q.c, q.d) := by
  simp only [quadTriangles, List.mem_flatMap, List.mem_cons, List.mem_singleton,
    List.not_mem_nil, or_false]

theorem box_accept_cases (pair : AxisPair) (i j : Nat) (b : Bool) (tri : Nat × Nat × Nat)
    (t : ℚ)
    (hi : i < (cells (mkDispObject 3 4 5 2 2 2) pair).1)
    (hj : j < (cells (mkDispObject 3 4 5 2 2 2) pair).2)
    (htri : tri = ((quadAt (mkDispObject 3 4 5 2 2 2).grid pair i j b).a,
          (quadAt (mkDispObject 3 4 5 2 2 2).grid pair i j b).b,
          (quadAt (mkDispObject 3 4 5 2 2 2).grid pair i j b).c)
      ∨ tri = ((quadAt (mkDispObject 3 4 5 2 2 2).grid pair i j b).a,
          (quadAt (mkDispObject 3 4 5 2 2 2).grid pair i j b).c,
          (quadAt (mkDispObject 3 4 5 2 2 2).grid pair i j b).d))
    (h : triangleAccept (mkVertexData (mkDispObject 3 4 5 2 2 2) ⟨0, 0, 0⟩).1
      ⟨0, 0, -5⟩ ⟨0, 0, 5⟩ tri = some t) :
    pair = AxisPair.uv ∧ t = (5 + sideCoord b) / 10 := by
  obtain ⟨v1, v2, v3, v4⟩ := box_quad_valid pair i j b hi hj
  have e1 := box_vertex _ v1
  have e2 := box_vertex _ v2
  have e3 := box_vertex _ v3
  have e4 := box_vertex _ v4
  have hs : sideCoord b ≠ 0 := by cases b <;> simp [sideCoord]
  cases pair
  · refine ⟨rfl, ?_⟩
    have z1 := congrArg Vec3.z e1
    have z2 := congrArg Vec3.z e2
    have z3 := congrArg Vec3.z e3
    have z4 := congrArg Vec3.z e4
    rw [(localPt_normal _ _ _ _).1] at z1 z2 z3 z4
    rcases htri with rfl | rfl
    · exact accept_param_of_plane _ _ _ _ _ t h z1 z2 z3
    · exact accept_param_of_plane _ _ _ _ _ t h z1 z3 z4
  · exfalso
    have y1 := congrArg Vec3.y e1
    have y2 := congrArg Vec3.y e2
    have y3 := congrArg Vec3.y e3
    have y4 := congrArg Vec3.y e4
    rw [(localPt_normal _ _ _ _).2.1] at y1 y2 y3 y4
    rcases htri with rfl | rfl
    · exact Option.noConfusion
        ((accept_none_of_side_plane _ _ _ _ _ hs (Or.inl ⟨y1, y2, y3⟩)).symm.trans h)
    · exact Option.noConfusion
        ((accept_none_of_side_plane _ _ _ _ _ hs (Or.inl ⟨y1, y3, y4⟩)).symm.trans h)
  · exfalso
    have x1 := congrArg Vec3.x e1
    have x2 := congrArg Vec3.x e2
    have x3 := congrArg Vec3.x e3
    have x4 := congrArg Vec3.x e4
    rw [(localPt_normal _ _ _ _).2.2] at x1 x2 x3 x4
    rcases htri with rfl | rfl
    · exact Option.noConfusion
        ((accept_none_of_side_plane _ _ _ _ _ hs (Or.inr ⟨x1, x2, x3⟩)).symm.trans h)
    · exact Option.noConfusion
        ((accept_none_of_side_plane _ _ _ _ _ hs (Or.inr ⟨x1, x3, x4⟩)).symm.trans h)

theorem findSome?_first_block {α β : Type} (f : α → Option β) (l1 l2 : List α) (v : β)
    (hex : ∃ x ∈ l1, f x ≠ none) (hall : ∀ x ∈ l1, ∀ t, f x = some t → t = v) :
    (l1 ++ l2).findSome? f = some v := by
  rw [List.findSome?_append]
  cases h : l1.findSome? f with
  | none =>
    exfalso
    rw [List.findSome?_eq_none_iff] at h
    obtain ⟨x, hx, hne⟩ := hex
    exact hne (h x hx)
  | some t =>
    obtain ⟨x, hx, ht⟩ := List.exists_of_findSome?_eq_some h
    rw [hall x hx t ht]
    rfl

theorem intersect_of_findSome (vd : List Vec3) (fd : List Quad) (a b : Vec3)
    (param : WithTop ℚ) :
    (∀ t, (quadTriangles fd).findSome? (triangleAccept vd a b) = some t →
      intersect vd fd a b param = (true, (t : WithTop ℚ)))
    ∧ ((quadTriangles fd).findSome? (triangleAccept vd a b) = none →
      intersect vd fd a b param = (false, param)) := by
  constructor
  · intro t h
    unfold intersect
    rw [intersectLoop_eq_findSome, h]
  · intro h
    unfold intersect
    rw [intersectLoop_eq_findSome, h]

theorem intersect_uv_block_first (b : Bool) (rest : List Quad) (v : ℚ) (param : WithTop ℚ)
    (hv : (5 + sideCoord b) / 10 = v) :
    intersect (mkVertexData (mkDispObject 3 4 5 2 2 2) ⟨0, 0, 0⟩).1
        (((mkFaceData (mkDispObject 3 4 5 2 2 2)).drop (if b then 48 else 0)).take 48 ++ rest)
        ⟨0, 0, -5⟩ ⟨0, 0, 5⟩ param
      = (true, (v : WithTop ℚ)) := by
  apply (intersect_of_findSome _ _ _ _ _).1
  rw [quadTriangles_append]
  apply findSome?_first_block
  · refine ⟨_, (mem_quadTriangles _ _).mpr ⟨_, corner_mem_uv_block b, Or.inl rfl⟩, ?_⟩
    rw [box_corner_accepted b]
    simp
  · intro tri hmem t ht
    obtain ⟨q, hq, hcase⟩ := (mem_quadTriangles _ _).mp hmem
    obtain ⟨i, j, hi, hj, rfl⟩ := mem_uv_block b q hq
    rw [← hv]
    exact (box_accept_cases AxisPair.uv i j b tri t hi hj hcase ht).2

/-- The two rays of the concrete case on the box the constructor builds (template counts
3, 4, 5, refinement 2, center `(0,0,0)`), in exact arithmetic.  For every rearrangement of the
face array, `intersect` with rayStart `(0,0,-5)` and rayEnd `(0,0,5)` returns `hit = true` with
`param = 2/5` or `param = 3/5`, and with rayStart `(5,5,5)` and rayEnd `(6,6,6)` it returns
`hit = false` and leaves `param` unchanged.  Which of the two parameters is returned depends on
the order of the face array: with the quads of the side `b = false` of U x V in the first 48
slots it is `2/5`, with the first two blocks of 48 slots exchanged it is `3/5`. -/
theorem box_rays_any_face_order (param : WithTop ℚ) :
    (∀ fd : List Quad, fd.Perm (mkFaceData (mkDispObject 3 4 5 2 2 2)) →
      (intersect (mkVertexData (mkDispObject 3 4 5 2 2 2) ⟨0, 0, 0⟩).1 fd
            ⟨0, 0, -5⟩ ⟨0, 0, 5⟩ param = (true, ((2 / 5 : ℚ) : WithTop ℚ))
        ∨ intersect (mkVertexData (mkDispObject 3 4 5 2 2 2) ⟨0, 0, 0⟩).1 fd
            ⟨0, 0, -5⟩ ⟨0, 0, 5⟩ param = (true, ((3 / 5 : ℚ) : WithTop ℚ)))
      ∧ intersect (mkVertexData (mkDispObject 3 4 5 2 2 2) ⟨0, 0, 0⟩).1 fd
          ⟨5, 5, 5⟩ ⟨6, 6, 6⟩ param = (false, param))
    ∧ intersect (mkVertexData (mkDispObject 3 4 5 2 2 2) ⟨0, 0, 0⟩).1
        (mkFaceData (mkDispObject 3 4 5 2 2 2)) ⟨0, 0, -5⟩ ⟨0, 0, 5⟩ param
      = (true, ((2 / 5 : ℚ) : WithTop ℚ))
    ∧ (((mkFaceData (mkDispObject 3 4 5 2 2 2)).drop 48).take 48
        ++ ((mkFaceData (mkDispObject 3 4 5 2 2 2)).take 48
          ++ (mkFaceData (mkDispObject 3 4 5 2 2 2)).drop 96)).Perm
        (mkFaceData (mkDispObject 3 4 5 2 2 2))
    ∧ intersect (mkVertexData (mkDispObject 3 4 5 2 2 2) ⟨0, 0, 0⟩).1
        (((mkFaceData (mkDispObject 3 4 5 2 2 2)).drop 48).take 48
          ++ ((mkFaceData (mkDispObject 3 4 5 2 2 2)).take 48
            ++ (mkFaceData (mkDispObject 3 4 5 2 2 2)).drop 96))
        ⟨0, 0, -5⟩ ⟨0, 0, 5⟩ param
      = (true, ((3 / 5 : ℚ) : WithTop ℚ)) := by
  refine ⟨?_, ?_, ?_, ?_⟩
  · intro fd hperm
    have hrep : ∀ q ∈ fd, ∃ pair i j b,
        i < (cells (mkDispObject 3 4 5 2 2 2) pair).1
        ∧ j < (cells (mkDispObject 3 4 5 2 2 2) pair).2
        ∧ q = quadAt (mkDispObject 3 4 5 2 2 2).grid pair i j b := fun q hq =>
      mem_mkFaceData _ q rfl (by decide) (by decide) (hperm.mem_iff.mp hq)
    constructor
    · cases h : (quadTriangles fd).findSome?
          (triangleAccept (mkVertexData (mkDispObject 3 4 5 2 2 2) ⟨0, 0, 0⟩).1
            ⟨0, 0, -5⟩ ⟨0, 0, 5⟩) with
      | none =>
        exfalso
        rw [List.findSome?_eq_none_iff] at h
        have hin : quadAt (mkDispObject 3 4 5 2 2 2).grid AxisPair.uv 2 3 false ∈ fd :=
          hperm.mem_iff.mpr
            (List.mem_of_mem_drop (List.mem_of_mem_take (corner_mem_uv_block false)))
        have h0 := h _ ((mem_quadTriangles _ _).mpr ⟨_, hin, Or.inl rfl⟩)
        rw [box_corner_accepted false] at h0
        exact absurd h0 (by simp)
      | some t =>
        obtain ⟨tri, hmem, ht⟩ := List.exists_of_findSome?_eq_some h
        obtain ⟨q, hq, hcase⟩ := (mem_quadTriangles _ _).mp hmem
        obtain ⟨pair, i, j, b, hi, hj, rfl⟩ := hrep q hq
        have e := (box_accept_cases pair i j b tri t hi hj hcase ht).2
        rw [(intersect_of_findSome _ _ _ _ param).1 t h, e]
        cases b
        · left
          norm_num [sideCoord]
        · right
          norm_num [sideCoord]
    · apply (intersect_of_findSome _ _ _ _ _).2
      rw [List.findSome?_eq_none_iff]
      intro tri hmem
      obtain ⟨q, hq, hcase⟩ := (mem_quadTriangles _ _).mp hmem
      obtain ⟨pair, i, j, b, hi, hj, rfl⟩ := hrep q hq
      obtain ⟨v1, v2, v3, v4⟩ := box_quad_valid pair i j b hi hj
      have x1 := box_localPt_x _ v1
      have x2 := box_localPt_x _ v2
      have x3 := box_localPt_x _ v3
      have x4 := box_localPt_x _ v4
      rw [← box_vertex _ v1] at x1
      rw [← box_vertex _ v2] at x2
      rw [← box_vertex _ v3] at x3
      rw [← box_vertex _ v4] at x4
      rcases hcase with rfl | rfl
      · exact accept_none_of_le_one _ _ _ _ x1 x2 x3
      · exact accept_none_of_le_one _ _ _ _ x1 x3 x4
  · have e := intersect_uv_block_first false
      ((mkFaceData (mkDispObject 3 4 5 2 2 2)).drop 48) (2 / 5) param
      (by norm_num [sideCoord])
    simp only [Bool.false_eq_true, if_false, List.drop_zero, List.take_append_drop] at e
    exact e
  · have h1 : (mkFaceData (mkDispObject 3 4 5 2 2 2)).drop 48
        = ((mkFaceData (mkDispObject 3 4 5 2 2 2)).drop 48).take 48
          ++ (mkFaceData (mkDispObject 3 4 5 2 2 2)).drop 96 := by
      have h0 : (mkFaceData (mkDispObject 3 4 5 2 2 2)).drop 96
          = ((mkFaceData (mkDispObject 3 4 5 2 2 2)).drop 48).drop 48 := by
        rw [List.drop_drop]
      rw [h0, List.take_append_drop]
    have h2 : (mkFaceData (mkDispObject 3 4 5 2 2 2))
        = (mkFaceData (mkDispObject 3 4 5 2 2 2)).take 48
          ++ (((mkFaceData (mkDispObject 3 4 5 2 2 2)).drop 48).take 48
            ++ (mkFaceData (mkDispObject 3 4 5 2 2 2)).drop 96) := by
      rw [← h1, List.take_append_drop]
    exact (List.perm_append_comm_assoc _ _ _).trans (List.Perm.of_eq h2.symm)
  · have e := intersect_uv_block_first true
      ((mkFaceData (mkDispObject 3 4 5 2 2 2)).take 48
        ++ (mkFaceData (mkDispObject 3 4 5 2 2 2)).drop 96) (3 / 5) param
      (by norm_num [sideCoord])
    simp only [if_true] at e
    exact e

end BSGUI
